import Mathlib

/-!
# golos tags plugin: record types, index declarations and rank formula

A shallow embedding of `libraries/plugins/tags/include/golos/tags/tags_plugin.hpp`.

* Records are plain structures, one field per data member, in declaration order.
* Every `composite_key` / `composite_key_compare` pair of a `multi_index_container`
  is written down as the list of its (member, comparison) pairs, and the ordering of
  the index is the lexicographic comparison `composite_key_compare` performs.
* `double` and `float` members are modelled by exact numbers (no rounding). `tag_object`
  carries the finite values of `hot` and `trending`; `tag_object_ieee` carries the whole
  type `double`, with not-a-number and the infinities, and `tag_index_lt_ieee` compares it
  as `std::greater<double>` does.
-/

namespace golos.tags

/-! ## Scalar types used by the records -/

/-- Modelled from the spec: the tag name type `fc::fixed_string<fc::sha256>`, declared outside
the sources: 32 bytes of storage compared bytewise, that is the storage read as a big-endian
256-bit number; any linear order serves the orderings below. -/
abbrev tag_name_type := Nat

/-- Modelled from the spec: the time type `time_point_sec`, declared outside the sources:
seconds since the epoch (`uint32_t`), compared as numbers. -/
abbrev time_point_sec := Nat

/-- Modelled from the spec: the balance type `share_type`, declared outside the sources: a
checked `int64_t`, compared as a number. -/
abbrev share_type := Int

/-- Modelled from the spec: the identifier type `chainbase::object_id<T>` behind every
`id_type`, declared outside the sources: a wrapper of one `int64_t`, compared as a number. -/
abbrev object_id := Int

/-- Modelled from the spec: the sentinel root reference, the default-constructed
`comment_object::id_type()`; the constructor is declared outside the sources and initialises
the wrapped integer to zero. -/
def comment_id_default : object_id := 0

/-! ## tag_object -/

/-- The class `tag_object` with finite `hot` and `trending`: the two members hold the
finite values of a `double`. The class with every value of a `double`, not-a-number
included, is `tag_object_ieee`. -/
structure tag_object where
  id : object_id
  name : tag_name_type
  created : time_point_sec
  active : time_point_sec
  cashout : time_point_sec
  net_rshares : Int
  net_votes : Int
  children : Int
  hot : ℚ
  trending : ℚ
  promoted_balance : share_type
  children_rshares2 : Nat
  author : object_id
  parent : object_id
  comment : object_id
deriving DecidableEq

/-- The member function `tag_object::is_post`. -/
def tag_object.is_post (t : tag_object) : Bool :=
  t.parent == comment_id_default

/-! ## Composite keys -/

/-- The comparison predicate of one key component: `std::less` or `std::greater`. -/
inductive key_order where
  | less
  | greater
deriving DecidableEq

/-- A comparison predicate applied to a strict "less than" test `lt` of the key type:
`std::less` is `lt x y`, `std::greater` is `lt y x`. -/
def key_order.apply {R : Type} (o : key_order) (lt : R → R → Bool) (x y : R) : Bool :=
  match o with
  | key_order.less => lt x y
  | key_order.greater => lt y x

/-- The comparison `composite_key_compare` performs on two records: component by component,
the first component on which the two records are not equivalent decides. -/
def composite_lt {R : Type} : List (R → R → Bool) → R → R → Bool
  | [], _, _ => false
  | c :: cs, x, y => if c x y then true else if c y x then false else composite_lt cs x y

/-- The key extractors that occur in the index declarations of `tag_index`: the data
members of `tag_object` and the `const_mem_fun` extractor `is_post`. -/
inductive tag_key where
  | id
  | name
  | created
  | active
  | cashout
  | net_rshares
  | net_votes
  | children
  | hot
  | trending
  | promoted_balance
  | children_rshares2
  | author
  | parent
  | comment
  | is_post
deriving DecidableEq

/-- The strict order `<` on the value a key extractor returns (`false < true` for `bool`).
On `hot` and `trending` it is `operator<` of `double` at finite values; `tag_key.lt_ieee`
is the comparison at every value of a `double`. -/
def tag_key.lt (k : tag_key) (x y : tag_object) : Bool :=
  match k with
  | tag_key.id => decide (x.id < y.id)
  | tag_key.name => decide (x.name < y.name)
  | tag_key.created => decide (x.created < y.created)
  | tag_key.active => decide (x.active < y.active)
  | tag_key.cashout => decide (x.cashout < y.cashout)
  | tag_key.net_rshares => decide (x.net_rshares < y.net_rshares)
  | tag_key.net_votes => decide (x.net_votes < y.net_votes)
  | tag_key.children => decide (x.children < y.children)
  | tag_key.hot => decide (x.hot < y.hot)
  | tag_key.trending => decide (x.trending < y.trending)
  | tag_key.promoted_balance => decide (x.promoted_balance < y.promoted_balance)
  | tag_key.children_rshares2 => decide (x.children_rshares2 < y.children_rshares2)
  | tag_key.author => decide (x.author < y.author)
  | tag_key.parent => decide (x.parent < y.parent)
  | tag_key.comment => decide (x.comment < y.comment)
  | tag_key.is_post => decide (x.is_post < y.is_post)

/-- The tags of the secondary indices of `tag_index` (every index but `by_id`), in
declaration order. -/
inductive tag_index_tag where
  | by_comment
  | by_author_comment
  | by_parent_created
  | by_parent_active
  | by_parent_promoted
  | by_parent_net_rshares
  | by_parent_net_votes
  | by_parent_children
  | by_parent_hot
  | by_parent_trending
  | by_parent_children_rshares2
  | by_cashout
  | by_net_rshares
  | by_author_parent_created
  | by_reward_fund_net_rshares
deriving DecidableEq

/-- The `composite_key` of each secondary index of `tag_index`, each extractor paired with
the predicate at the same position of the index's `composite_key_compare`. -/
def tag_index_keys : tag_index_tag → List (tag_key × key_order)
  | tag_index_tag.by_comment => [(tag_key.comment, .less), (tag_key.id, .less)]
  | tag_index_tag.by_author_comment =>
      [(tag_key.author, .less), (tag_key.comment, .less), (tag_key.id, .less)]
  | tag_index_tag.by_parent_created =>
      [(tag_key.name, .less), (tag_key.parent, .less), (tag_key.created, .greater), (tag_key.id, .less)]
  | tag_index_tag.by_parent_active =>
      [(tag_key.name, .less), (tag_key.parent, .less), (tag_key.active, .greater), (tag_key.id, .less)]
  | tag_index_tag.by_parent_promoted =>
      [(tag_key.name, .less), (tag_key.parent, .less), (tag_key.promoted_balance, .greater),
        (tag_key.id, .less)]
  | tag_index_tag.by_parent_net_rshares =>
      [(tag_key.name, .less), (tag_key.parent, .less), (tag_key.net_rshares, .greater),
        (tag_key.id, .less)]
  | tag_index_tag.by_parent_net_votes =>
      [(tag_key.name, .less), (tag_key.parent, .less), (tag_key.net_votes, .greater),
        (tag_key.id, .less)]
  | tag_index_tag.by_parent_children =>
      [(tag_key.name, .less), (tag_key.parent, .less), (tag_key.children, .greater),
        (tag_key.id, .less)]
  | tag_index_tag.by_parent_hot =>
      [(tag_key.name, .less), (tag_key.parent, .less), (tag_key.hot, .greater), (tag_key.id, .less)]
  | tag_index_tag.by_parent_trending =>
      [(tag_key.name, .less), (tag_key.parent, .less), (tag_key.trending, .greater),
        (tag_key.id, .less)]
  | tag_index_tag.by_parent_children_rshares2 =>
      [(tag_key.name, .less), (tag_key.parent, .less), (tag_key.children_rshares2, .greater),
        (tag_key.id, .less)]
  | tag_index_tag.by_cashout =>
      [(tag_key.name, .less), (tag_key.cashout, .less), (tag_key.id, .less)]
  | tag_index_tag.by_net_rshares =>
      [(tag_key.name, .less), (tag_key.net_rshares, .greater), (tag_key.id, .less)]
  | tag_index_tag.by_author_parent_created =>
      [(tag_key.name, .less), (tag_key.author, .less), (tag_key.created, .greater),
        (tag_key.id, .less)]
  | tag_index_tag.by_reward_fund_net_rshares =>
      [(tag_key.name, .less), (tag_key.is_post, .less), (tag_key.net_rshares, .greater),
        (tag_key.id, .less)]

/-- One component of a `tag_index` key as a comparison of two records. -/
def tag_key_part (p : tag_key × key_order) : tag_object → tag_object → Bool :=
  p.2.apply p.1.lt

/-- The ordering of a secondary index of `tag_index`: `x` is placed before `y`. -/
def tag_index_lt (t : tag_index_tag) (x y : tag_object) : Bool :=
  composite_lt ((tag_index_keys t).map tag_key_part) x y

/-! ## tag_stats_object -/

/-- The class `tag_stats_object`; `total_payout` is the amount of the `asset<0, 17, 0>`. -/
structure tag_stats_object where
  id : object_id
  tag : tag_name_type
  total_children_rshares2 : Nat
  total_payout : Int
  net_votes : Int
  top_posts : Nat
  comments : Nat
deriving DecidableEq

/-- The data members of `tag_stats_object` usable as key extractors. -/
inductive tag_stats_key where
  | id
  | tag
  | total_children_rshares2
  | total_payout
  | net_votes
  | top_posts
  | comments
deriving DecidableEq

/-- The tags of the secondary indices of `tag_stats_index` (the two commented-out
declarations are not part of the container). -/
inductive tag_stats_index_tag where
  | by_tag
  | by_trending
deriving DecidableEq

/-- The key of each secondary index of `tag_stats_index`; `by_tag` is a plain `member` key
with the default `std::less`. -/
def tag_stats_index_keys : tag_stats_index_tag → List (tag_stats_key × key_order)
  | tag_stats_index_tag.by_tag => [(tag_stats_key.tag, .less)]
  | tag_stats_index_tag.by_trending =>
      [(tag_stats_key.total_children_rshares2, .greater), (tag_stats_key.tag, .less)]

/-! ## peer_stats_object -/

/-- The class `peer_stats_object` over a number type `F` that stands for `float`; the
defaults are the member initialisers. -/
structure peer_stats_object (F : Type) where
  id : object_id
  voter : object_id
  peer : object_id
  direct_positive_votes : Int := 0
  direct_votes : Int := 1
  indirect_positive_votes : Int := 0
  indirect_votes : Int := 1
  rank : F

/-- The value of an `int32_t` computation: the mathematical result reduced to the
two-complement range. -/
def wrap_int32 (x : Int) : Int :=
  (x + 2 ^ 31) % 2 ^ 32 - 2 ^ 31

/-- The final values of the locals `direct` and `indirect` of `update_rank`, in this order;
`log` is the natural logarithm of the number type. -/
def peer_stats_object.rank_terms {F : Type} [Field F] (log : F → F) (p : peer_stats_object F) :
    F × F :=
  let direct : F := (p.direct_positive_votes : F) / (p.direct_votes : F)
  let indirect : F := (p.indirect_positive_votes : F) / (p.indirect_votes : F)
  let direct_order : F := log (p.direct_votes : F)
  let indirect_order : F := log (p.indirect_votes : F)
  let flip : Bool := wrap_int32 (p.direct_positive_votes + p.indirect_positive_votes) == 0
  let direct_order := if flip then direct_order * -1 else direct_order
  let indirect_order := if flip then indirect_order * -1 else indirect_order
  let direct := direct * direct
  let indirect := indirect * indirect
  let direct := direct * (direct_order * 10)
  let indirect := indirect * indirect_order
  (direct, indirect)

/-- The member function `peer_stats_object::update_rank`. -/
def peer_stats_object.update_rank {F : Type} [Field F] (log : F → F) (p : peer_stats_object F) :
    peer_stats_object F :=
  { p with rank := (p.rank_terms log).1 + (p.rank_terms log).2 }

/-- The data members of `peer_stats_object` usable as key extractors. -/
inductive peer_stats_key where
  | id
  | voter
  | peer
  | direct_positive_votes
  | direct_votes
  | indirect_positive_votes
  | indirect_votes
  | rank
deriving DecidableEq

/-- The tags of the secondary indices of `peer_stats_index`. -/
inductive peer_stats_index_tag where
  | by_rank
  | by_voter_peer
deriving DecidableEq

/-- The `composite_key` of each secondary index of `peer_stats_index`. -/
def peer_stats_index_keys : peer_stats_index_tag → List (peer_stats_key × key_order)
  | peer_stats_index_tag.by_rank =>
      [(peer_stats_key.voter, .less), (peer_stats_key.rank, .greater), (peer_stats_key.peer, .less)]
  | peer_stats_index_tag.by_voter_peer =>
      [(peer_stats_key.voter, .less), (peer_stats_key.peer, .less)]

/-- The record a default-constructed `peer_stats_object` holds (the seed): every vote
member has its initialiser, the rank is zero. -/
def peer_stats_seed (F : Type) [Field F] (id voter peer : object_id) : peer_stats_object F :=
  { id := id, voter := voter, peer := peer, rank := 0 }

/-- A record with one positive direct vote out of two and a negative count of positive
indirect votes: the two counts of positive votes cancel. -/
def peer_stats_cancelling (F : Type) [Field F] : peer_stats_object F :=
  { id := 0, voter := 0, peer := 1, direct_positive_votes := 1, direct_votes := 2,
    indirect_positive_votes := -1, indirect_votes := 2, rank := 0 }

/-- A record with three positive direct votes out of four and one positive indirect vote
out of two. -/
def peer_stats_sample (F : Type) [Field F] : peer_stats_object F :=
  { id := 0, voter := 0, peer := 1, direct_positive_votes := 3, direct_votes := 4,
    indirect_positive_votes := 1, indirect_votes := 2, rank := 0 }

/-! ## author_tag_stats_object -/

/-- The class `author_tag_stats_object`; `total_rewards` is the amount of the asset. -/
structure author_tag_stats_object where
  id : object_id
  author : object_id
  tag : tag_name_type
  total_rewards : Int
  total_posts : Nat
deriving DecidableEq

/-- The data members of `author_tag_stats_object` usable as key extractors. -/
inductive author_tag_stats_key where
  | id
  | author
  | tag
  | total_rewards
  | total_posts
deriving DecidableEq

/-- The tags of the secondary indices of `author_tag_stats_index`, in declaration order. -/
inductive author_tag_stats_index_tag where
  | by_author_posts_tag
  | by_author_tag_posts
  | by_author_tag_rewards
  | by_tag_rewards_author
deriving DecidableEq

/-- The `composite_key` of each secondary index of `author_tag_stats_index`. -/
def author_tag_stats_index_keys :
    author_tag_stats_index_tag → List (author_tag_stats_key × key_order)
  | author_tag_stats_index_tag.by_author_posts_tag =>
      [(author_tag_stats_key.author, .less), (author_tag_stats_key.total_posts, .greater),
        (author_tag_stats_key.tag, .less)]
  | author_tag_stats_index_tag.by_author_tag_posts =>
      [(author_tag_stats_key.author, .less), (author_tag_stats_key.tag, .less),
        (author_tag_stats_key.total_posts, .greater)]
  | author_tag_stats_index_tag.by_author_tag_rewards =>
      [(author_tag_stats_key.author, .less), (author_tag_stats_key.tag, .less),
        (author_tag_stats_key.total_rewards, .greater)]
  | author_tag_stats_index_tag.by_tag_rewards_author =>
      [(author_tag_stats_key.tag, .less), (author_tag_stats_key.total_rewards, .greater),
        (author_tag_stats_key.author, .less)]

/-- The extractor of the last component of a key, if the key has a component. -/
def last_key {K : Type} (keys : List (K × key_order)) : Option K :=
  keys.getLast?.map Prod.fst

/-- The extractors of a key, in order. -/
def key_members {K : Type} (keys : List (K × key_order)) : List K :=
  keys.map Prod.fst

/-! ## Ordered indices and the tag_index container -/

/-- A list of entries is in the order of the secondary index `t` of `tag_index`: every
entry is placed before every later one. -/
def in_index_order (t : tag_index_tag) (l : List tag_object) : Prop :=
  l.Pairwise (fun x y => tag_index_lt t x y = true)

instance (t : tag_index_tag) (l : List tag_object) : Decidable (in_index_order t l) := by
  unfold in_index_order
  infer_instance

/-- Modelled from the spec: insertion into a sorted index of the Index Engine (section 4.2;
the ordered-index code of boost.multi_index is not among the sources): the new element goes
in front of the first element that the index's comparison places after it. -/
def ordered_insert {R : Type} (lt : R → R → Bool) (x : R) : List R → List R
  | [] => [x]
  | y :: l => if lt x y then x :: y :: l else y :: ordered_insert lt x l

/-- Modelled from the spec: the uniqueness test of an `ordered_unique` index (section 4.1,
`DuplicateKey`): the index already holds an element equivalent to `x`, one that is neither
before nor after `x`. -/
def key_conflict {R : Type} (lt : R → R → Bool) (x : R) (l : List R) : Bool :=
  l.any (fun y => !lt x y && !lt y x)

/-- Every secondary index tag of `tag_index`, in declaration order. -/
def tag_index_tag.all : List tag_index_tag :=
  [tag_index_tag.by_comment, tag_index_tag.by_author_comment, tag_index_tag.by_parent_created,
    tag_index_tag.by_parent_active, tag_index_tag.by_parent_promoted,
    tag_index_tag.by_parent_net_rshares, tag_index_tag.by_parent_net_votes,
    tag_index_tag.by_parent_children, tag_index_tag.by_parent_hot,
    tag_index_tag.by_parent_trending, tag_index_tag.by_parent_children_rshares2,
    tag_index_tag.by_cashout, tag_index_tag.by_net_rshares,
    tag_index_tag.by_author_parent_created, tag_index_tag.by_reward_fund_net_rshares]

/-- The failures of the Record Store operations. -/
inductive store_error where
  | DuplicateKey
  | NotFound
deriving DecidableEq

/-- Modelled from the spec: the state of the container `tag_index` (Record Store and Index
Engine, sections 4.1 and 4.2): the primary index `by_id` (the live entries in id order), the
listing of every secondary index, and the next identifier the store assigns. -/
structure tag_index where
  by_id : List tag_object
  secondary : tag_index_tag → List tag_object
  next_id : object_id

/-- The empty container. -/
def tag_index.empty : tag_index :=
  { by_id := [], secondary := fun _ => [], next_id := 0 }

/-- Modelled from the spec: a uniqueness invariant of some index would be violated by `x`:
an `ordered_unique` index of the container holds an element equivalent to `x`. -/
def tag_index.violates (s : tag_index) (x : tag_object) : Bool :=
  key_conflict tag_key.id.lt x s.by_id ||
    tag_index_tag.all.any (fun t => key_conflict (tag_index_lt t) x (s.secondary t))

/-- Modelled from the spec: the entry `x` is seated in every index at its ordered
position. -/
def tag_index.link (s : tag_index) (x : tag_object) : tag_index :=
  { by_id := ordered_insert tag_key.id.lt x s.by_id
    secondary := fun t => ordered_insert (tag_index_lt t) x (s.secondary t)
    next_id := s.next_id }

/-- Modelled from the spec: the entry with identifier `id` is taken out of every index. -/
def tag_index.unlink (s : tag_index) (id : object_id) : tag_index :=
  { by_id := s.by_id.filter (fun y => y.id != id)
    secondary := fun t => (s.secondary t).filter (fun y => y.id != id)
    next_id := s.next_id }

/-- Lookup in the primary index. -/
def tag_index.find (s : tag_index) (id : object_id) : Option tag_object :=
  s.by_id.find? (fun y => y.id == id)

/-- Modelled from the spec: the record an insertion of `r` stores, `r` with the identifier
the store assigns. -/
def tag_index.created (s : tag_index) (r : tag_object) : tag_object :=
  { r with id := s.next_id }

/-- Modelled from the spec: the record an update of `x` with the mutator `m` stores; the
identifier is immutable. -/
def tag_index.mutated (x : tag_object) (m : tag_object → tag_object) : tag_object :=
  { m x with id := x.id }

/-- Modelled from the spec: the Record Store operation `insert(record) -> id` of section 4.1
(the container code of boost.multi_index and chainbase is not among the sources). The
identifier is assigned by the store, increasing and never reused; the insertion fails with
`DuplicateKey`, leaving the store as it was, if a uniqueness invariant of an index would be
violated. -/
def tag_index.insert (s : tag_index) (r : tag_object) : Except store_error (object_id × tag_index) :=
  if s.violates (s.created r) then Except.error store_error.DuplicateKey
  else Except.ok (s.next_id, { s.link (s.created r) with next_id := s.next_id + 1 })

/-- Modelled from the spec: the Record Store operation `update(id, mutator)` of section 4.1:
the mutation is applied to the record and the record is re-seated in every index; it fails
with `NotFound` if the id is absent. -/
def tag_index.update (s : tag_index) (id : object_id) (m : tag_object → tag_object) :
    Except store_error tag_index :=
  match s.find id with
  | none => Except.error store_error.NotFound
  | some x => Except.ok ((s.unlink id).link (tag_index.mutated x m))

/-- Modelled from the spec: the Record Store operation `remove(id)` of section 4.1: the record
is deleted from every index; it fails with `NotFound` if the id is absent. -/
def tag_index.remove (s : tag_index) (id : object_id) : Except store_error tag_index :=
  match s.find id with
  | none => Except.error store_error.NotFound
  | some _ => Except.ok (s.unlink id)

/-- One mutation of the Tag Entry store. -/
inductive tag_index_op where
  | insert (r : tag_object)
  | update (id : object_id) (m : tag_object → tag_object)
  | remove (id : object_id)

/-- The store after one operation; a failed operation leaves the store as it was. -/
def tag_index.apply (s : tag_index) : tag_index_op → tag_index
  | tag_index_op.insert r =>
    match s.insert r with
    | Except.ok (_, s1) => s1
    | Except.error _ => s
  | tag_index_op.update id m =>
    match s.update id m with
    | Except.ok s1 => s1
    | Except.error _ => s
  | tag_index_op.remove id =>
    match s.remove id with
    | Except.ok s1 => s1
    | Except.error _ => s

/-- The store after a sequence of operations, applied from left to right. -/
def tag_index.run (s : tag_index) (ops : List tag_index_op) : tag_index :=
  ops.foldl tag_index.apply s

/-- The tag name "test" in its 32 bytes of storage (the characters, then zero bytes). -/
def tag_test : tag_name_type := 0x74657374 * 2 ^ 224

/-- A top-level Tag Entry under the tag "test" with the given id and net_rshares, every
other member zero. -/
def test_entry (id : object_id) (net_rshares : Int) : tag_object :=
  { id := id, name := tag_test, created := 0, active := 0, cashout := 0,
    net_rshares := net_rshares, net_votes := 0, children := 0, hot := 0, trending := 0,
    promoted_balance := 0, children_rshares2 := 0, author := 0, parent := 0, comment := 0 }

/-- The state of a `tag_index` is consistent: the primary index is in strict id order, and
every secondary index lists the entries of the primary index in its own order. -/
structure tag_index.consistent (s : tag_index) : Prop where
  ids : s.by_id.Pairwise (fun a b => tag_key.id.lt a b = true)
  same : ∀ t, (s.secondary t).Perm s.by_id
  sorted : ∀ t, in_index_order t (s.secondary t)

/-- The range of one tag name in a listing: the entries that carry the name, in the order of
the listing. -/
def tag_range (n : tag_name_type) (l : List tag_object) : List tag_object :=
  l.filter (fun x => x.name == n)

/-- Entry `x` may stand before entry `y` in a listing by descending net_rshares with ties in
ascending id. -/
def net_rshares_desc (x y : tag_object) : Prop :=
  x.net_rshares > y.net_rshares ∨ (x.net_rshares = y.net_rshares ∧ x.id < y.id)

/-- Entry `x` may stand before entry `y` in a listing by ascending cashout time with ties in
ascending id. -/
def cashout_asc (x y : tag_object) : Prop :=
  x.cashout < y.cashout ∨ (x.cashout = y.cashout ∧ x.id < y.id)

/-- A Tag Entry with the given id, tag name, parent, cashout time and net_rshares, every
other member zero. -/
def mk_entry (id : object_id) (name : tag_name_type) (parent : object_id)
    (cashout : time_point_sec) (net_rshares : Int) : tag_object :=
  { id := id, name := name, created := 0, active := 0, cashout := cashout,
    net_rshares := net_rshares, net_votes := 0, children := 0, hot := 0, trending := 0,
    promoted_balance := 0, children_rshares2 := 0, author := 0, parent := parent, comment := 0 }

/-- Five entries under the tag names 1, 2 and 3 in `by_cashout` order; two entries of the
name 2 have the same cashout time. -/
def cashout_listing : List tag_object :=
  [mk_entry 5 1 0 30 0, mk_entry 0 2 0 10 0, mk_entry 3 2 0 10 0, mk_entry 1 2 0 20 0,
    mk_entry 2 3 0 5 0]

/-- Five entries under the tag names 1 and 2 in `by_reward_fund_net_rshares` order: under
the name 2 two comments (parent 7) come before two posts (parent 0). -/
def reward_fund_listing : List tag_object :=
  [mk_entry 4 1 0 0 1, mk_entry 3 2 7 0 50, mk_entry 0 2 7 0 (-5), mk_entry 1 2 0 0 900,
    mk_entry 2 2 0 0 900]

/-! ## Tag Stats aggregates -/

/-- The value of an unsigned `w`-bit computation: the mathematical result modulo `2 ^ w`. -/
def wrap_uint (w : Nat) (x : Int) : Nat :=
  (x % ((2 ^ w : Nat) : Int)).toNat

/-- Modelled from the spec: the value one live Tag Entry has for each aggregate field of the
Tag Stats record of its tag name (the "added value" and "previous value" of section 4.4). The
plugin code that derives it from an entry (`tags_plugin.cpp`) is not among the sources, so
the derivation is a parameter `value : tag_object → tag_stats_value` of the maintainer. -/
@[ext]
structure tag_stats_value where
  total_children_rshares2 : Int
  total_payout : Int
  net_votes : Int
  top_posts : Int
  comments : Int

/-- The value of no entry. -/
def tag_stats_value.zero : tag_stats_value :=
  { total_children_rshares2 := 0, total_payout := 0, net_votes := 0, top_posts := 0,
    comments := 0 }

/-- Field-wise sum of two values. -/
def tag_stats_value.add (a b : tag_stats_value) : tag_stats_value :=
  { total_children_rshares2 := a.total_children_rshares2 + b.total_children_rshares2
    total_payout := a.total_payout + b.total_payout
    net_votes := a.net_votes + b.net_votes
    top_posts := a.top_posts + b.top_posts
    comments := a.comments + b.comments }

/-- Field-wise difference of two values. -/
def tag_stats_value.sub (a b : tag_stats_value) : tag_stats_value :=
  { total_children_rshares2 := a.total_children_rshares2 - b.total_children_rshares2
    total_payout := a.total_payout - b.total_payout
    net_votes := a.net_votes - b.net_votes
    top_posts := a.top_posts - b.top_posts
    comments := a.comments - b.comments }

/-- Modelled from the spec: step (2) of the Aggregate Maintainer of section 4.4, "applies the
signed delta (added value minus previous value) to each aggregate field". Each member keeps
its declared width: `fc::uint128_t`, `uint32_t` and `int32_t` members wrap, the checked
`total_payout` amount does not. -/
def tag_stats_object.apply_delta (st : tag_stats_object) (added previous : tag_stats_value) :
    tag_stats_object :=
  { st with
    total_children_rshares2 := wrap_uint 128
      (st.total_children_rshares2 + added.total_children_rshares2 -
        previous.total_children_rshares2)
    total_payout := st.total_payout + added.total_payout - previous.total_payout
    net_votes := wrap_int32 (st.net_votes + added.net_votes - previous.net_votes)
    top_posts := wrap_uint 32 (st.top_posts + added.top_posts - previous.top_posts)
    comments := wrap_uint 32 (st.comments + added.comments - previous.comments) }

/-- The container `tag_stats_index`: its records in id order and the next identifier. -/
structure tag_stats_index where
  records : List tag_stats_object
  next_id : object_id

/-- The empty container. -/
def tag_stats_index.empty : tag_stats_index :=
  { records := [], next_id := 0 }

/-- Lookup through the `by_tag` index. -/
def tag_stats_index.find (s : tag_stats_index) (tag : tag_name_type) : Option tag_stats_object :=
  s.records.find? (fun st => st.tag == tag)

/-- The record a newly created Tag Stats record holds: the member initialisers. -/
def tag_stats_index.fresh (s : tag_stats_index) (tag : tag_name_type) : tag_stats_object :=
  { id := s.next_id, tag := tag, total_children_rshares2 := 0, total_payout := 0,
    net_votes := 0, top_posts := 0, comments := 0 }

/-- Modelled from the spec: step (1) of the Aggregate Maintainer, "locates or creates the Tag
Stats record for the tag name". Lookup and creation consult the same records, so they cannot
disagree on existence and the `InconsistentAggregate` failure does not arise. -/
def tag_stats_index.locate_or_create (s : tag_stats_index) (tag : tag_name_type) :
    tag_stats_index :=
  match s.find tag with
  | some _ => s
  | none => { records := s.records ++ [s.fresh tag], next_id := s.next_id + 1 }

/-- The record of a tag name is modified in place. -/
def tag_stats_index.modify (s : tag_stats_index) (tag : tag_name_type)
    (f : tag_stats_object → tag_stats_object) : tag_stats_index :=
  { s with records := s.records.map (fun st => if st.tag == tag then f st else st) }

/-- Modelled from the spec: the Aggregate Maintainer for one tag name, steps (1) and (2). -/
def tag_stats_index.adjust (s : tag_stats_index) (tag : tag_name_type)
    (added previous : tag_stats_value) : tag_stats_index :=
  (s.locate_or_create tag).modify tag (fun st => st.apply_delta added previous)

/-- Modelled from the spec: the maintainer on creation of the entry `x`. -/
def tag_stats_index.on_created (value : tag_object → tag_stats_value) (s : tag_stats_index)
    (x : tag_object) : tag_stats_index :=
  s.adjust x.name (value x) tag_stats_value.zero

/-- Modelled from the spec: the maintainer on removal of the entry `x`. -/
def tag_stats_index.on_removed (value : tag_object → tag_stats_value) (s : tag_stats_index)
    (x : tag_object) : tag_stats_index :=
  s.adjust x.name tag_stats_value.zero (value x)

/-- Modelled from the spec: the maintainer on an update that turns the entry `x` into `y`:
one signed delta when the tag name is kept, otherwise the old name loses the previous value
and the new name gains the added value. -/
def tag_stats_index.on_updated (value : tag_object → tag_stats_value) (s : tag_stats_index)
    (x y : tag_object) : tag_stats_index :=
  if x.name = y.name then s.adjust y.name (value y) (value x)
  else (s.adjust x.name tag_stats_value.zero (value x)).adjust y.name (value y)
    tag_stats_value.zero

/-- The Tag Entry store together with the Tag Stats store. -/
structure tags_state where
  tags : tag_index
  stats : tag_stats_index

/-- Both stores empty. -/
def tags_state.empty : tags_state :=
  { tags := tag_index.empty, stats := tag_stats_index.empty }

/-- Modelled from the spec: one Tag Entry mutation followed, when it succeeds, by the
Aggregate Maintainer; a failed mutation changes nothing. -/
def tags_state.apply (value : tag_object → tag_stats_value) (s : tags_state) :
    tag_index_op → tags_state
  | tag_index_op.insert r =>
    match s.tags.insert r with
    | Except.ok (_, t1) =>
      { tags := t1, stats := s.stats.on_created value (s.tags.created r) }
    | Except.error _ => s
  | tag_index_op.update id m =>
    match s.tags.find id, s.tags.update id m with
    | some x, Except.ok t1 =>
      { tags := t1, stats := s.stats.on_updated value x (tag_index.mutated x m) }
    | _, _ => s
  | tag_index_op.remove id =>
    match s.tags.find id, s.tags.remove id with
    | some x, Except.ok t1 => { tags := t1, stats := s.stats.on_removed value x }
    | _, _ => s

/-- The two stores after a sequence of mutations, applied from left to right. -/
def tags_state.run (value : tag_object → tag_stats_value) (s : tags_state)
    (ops : List tag_index_op) : tags_state :=
  ops.foldl (tags_state.apply value) s

/-- A Tag Stats record with every aggregate member reset to zero. -/
def tag_stats_object.cleared (st : tag_stats_object) : tag_stats_object :=
  { id := st.id, tag := st.tag, total_children_rshares2 := 0, total_payout := 0,
    net_votes := 0, top_posts := 0, comments := 0 }

/-- The aggregate members of a Tag Stats record recomputed from scratch: starting from
zero, the value of every live entry that carries the record's tag name is added in turn. -/
def tag_stats_object.recomputed (value : tag_object → tag_stats_value)
    (live : List tag_object) (st : tag_stats_object) : tag_stats_object :=
  (tag_range st.tag live).foldl (fun acc x => acc.apply_delta (value x) tag_stats_value.zero)
    st.cleared

/-- The field-wise sum of the values of the entries of a list. -/
def tag_stats_value.total (value : tag_object → tag_stats_value) (l : List tag_object) :
    tag_stats_value :=
  { total_children_rshares2 := (l.map (fun x => (value x).total_children_rshares2)).sum
    total_payout := (l.map (fun x => (value x).total_payout)).sum
    net_votes := (l.map (fun x => (value x).net_votes)).sum
    top_posts := (l.map (fun x => (value x).top_posts)).sum
    comments := (l.map (fun x => (value x).comments)).sum }

/-- The aggregate members of the record `st` hold the exact totals `T` reduced to the width
of each member. -/
def tag_stats_object.represents (st : tag_stats_object) (T : tag_stats_value) : Prop :=
  st.total_children_rshares2 = wrap_uint 128 T.total_children_rshares2 ∧
  st.total_payout = T.total_payout ∧
  st.net_votes = wrap_int32 T.net_votes ∧
  st.top_posts = wrap_uint 32 T.top_posts ∧
  st.comments = wrap_uint 32 T.comments

/-- A plausible value of an entry, used in examples: a post counts as one top post and
brings its children_rshares2, a comment counts as one comment; both bring their net votes. -/
def sample_value (x : tag_object) : tag_stats_value :=
  { total_children_rshares2 := if x.is_post then x.children_rshares2 else 0
    total_payout := 0
    net_votes := x.net_votes
    top_posts := if x.is_post then 1 else 0
    comments := if x.is_post then 0 else 1 }

/-- The Tag Stats store tracks the list `live` of entries: every record holds the totals of
the values of the entries of `live` under its tag name, and every entry of `live` has a record
for its tag name. -/
def tag_stats_index.tracks (value : tag_object → tag_stats_value) (s : tag_stats_index)
    (live : List tag_object) : Prop :=
  (∀ st ∈ s.records,
    st.represents (tag_stats_value.total value (tag_range st.tag live))) ∧
  (∀ x ∈ live, ∃ st ∈ s.records, st.tag = x.name)

/-- Four insertions, an update that moves an entry to another tag name, and a removal. -/
def sample_ops : List tag_index_op :=
  [tag_index_op.insert (mk_entry 0 5 0 0 100), tag_index_op.insert (mk_entry 0 5 3 0 50),
    tag_index_op.insert (mk_entry 0 6 0 0 200),
    tag_index_op.update 1 (fun x => { x with name := 6, net_votes := -3 }),
    tag_index_op.remove 0, tag_index_op.insert (mk_entry 0 5 0 0 100)]

/-! ## Strict weak orders -/

/-! ## Construction of Peer Stats records and the sign of the rank -/

/-- The record the default constructor `peer_stats_object()` builds: the identifiers are
default-constructed, the vote members and the rank have their initialisers. -/
def peer_stats_object.default_constructed (F : Type) [Field F] : peer_stats_object F :=
  { id := 0, voter := 0, peer := 0, rank := 0 }

/-- The constructor template `peer_stats_object(Constructor &&c, allocator<Allocator> a)`:
the members get their initialisers, then the callback `c` runs on the new record. -/
def peer_stats_object.construct (F : Type) [Field F]
    (c : peer_stats_object F → peer_stats_object F) : peer_stats_object F :=
  c (peer_stats_object.default_constructed F)

/-- A constructor callback that names the voter and the peer and sets no vote member. -/
def naming_callback {F : Type} (p : peer_stats_object F) : peer_stats_object F :=
  { p with voter := 3, peer := 4 }

/-- A constructor callback that names the voter and the peer and assigns zero to
`direct_votes`. -/
def zeroing_callback {F : Type} (p : peer_stats_object F) : peer_stats_object F :=
  { p with voter := 3, peer := 4, direct_votes := 0 }

/-- The condition of the `if` statement of `update_rank`,
`!(direct_positive_votes + indirect_positive_votes)`: the `int32_t` sum is zero. -/
def peer_stats_object.rank_flips {F : Type} (p : peer_stats_object F) : Bool :=
  wrap_int32 (p.direct_positive_votes + p.indirect_positive_votes) == 0

/-- The values of the locals `direct_order` and `indirect_order` of `update_rank` after the
`if` statement, in this order. -/
def peer_stats_object.rank_orders {F : Type} [Field F] (log : F → F) (p : peer_stats_object F) :
    F × F :=
  let direct_order : F := log (p.direct_votes : F)
  let indirect_order : F := log (p.indirect_votes : F)
  if p.rank_flips then (direct_order * -1, indirect_order * -1)
  else (direct_order, indirect_order)

/-! ## Reflection: the declared members and the FC_REFLECT field lists -/

/-- The value of one member of a record: a signed integer, an unsigned integer or time, a
floating-point number (an exact number of the type `F`), or a `bool`. -/
inductive field_value (F : Type) where
  | int (v : Int)
  | nat (v : Nat)
  | num (v : F)
  | flag (v : Bool)

/-- The data members of `tag_object`, in the order of their declarations in the class. -/
def tag_object_members : List tag_key :=
  [tag_key.id, tag_key.name, tag_key.created, tag_key.active, tag_key.cashout,
    tag_key.net_rshares, tag_key.net_votes, tag_key.children, tag_key.hot, tag_key.trending,
    tag_key.promoted_balance, tag_key.children_rshares2, tag_key.author, tag_key.parent,
    tag_key.comment]

/-- The sequence `FC_REFLECT((golos::tags::tag_object), ...)` lists. -/
def tag_object_reflected : List tag_key :=
  [tag_key.id, tag_key.name, tag_key.created, tag_key.active, tag_key.cashout,
    tag_key.net_rshares, tag_key.net_votes, tag_key.hot, tag_key.trending,
    tag_key.promoted_balance, tag_key.children, tag_key.children_rshares2, tag_key.author,
    tag_key.parent, tag_key.comment]

/-- The data members of `tag_stats_object`, in the order of their declarations. -/
def tag_stats_object_members : List tag_stats_key :=
  [tag_stats_key.id, tag_stats_key.tag, tag_stats_key.total_children_rshares2,
    tag_stats_key.total_payout, tag_stats_key.net_votes, tag_stats_key.top_posts,
    tag_stats_key.comments]

/-- The sequence `FC_REFLECT((golos::tags::tag_stats_object), ...)` lists. -/
def tag_stats_object_reflected : List tag_stats_key :=
  [tag_stats_key.id, tag_stats_key.tag, tag_stats_key.total_children_rshares2,
    tag_stats_key.total_payout, tag_stats_key.net_votes, tag_stats_key.top_posts,
    tag_stats_key.comments]

/-- The data members of `peer_stats_object`, in the order of their declarations. -/
def peer_stats_object_members : List peer_stats_key :=
  [peer_stats_key.id, peer_stats_key.voter, peer_stats_key.peer,
    peer_stats_key.direct_positive_votes, peer_stats_key.direct_votes,
    peer_stats_key.indirect_positive_votes, peer_stats_key.indirect_votes, peer_stats_key.rank]

/-- The sequence `FC_REFLECT((golos::tags::peer_stats_object), ...)` lists. -/
def peer_stats_object_reflected : List peer_stats_key :=
  [peer_stats_key.id, peer_stats_key.voter, peer_stats_key.peer,
    peer_stats_key.direct_positive_votes, peer_stats_key.direct_votes,
    peer_stats_key.indirect_positive_votes, peer_stats_key.indirect_votes, peer_stats_key.rank]

/-- The data members of `author_tag_stats_object`, in the order of their declarations. -/
def author_tag_stats_object_members : List author_tag_stats_key :=
  [author_tag_stats_key.id, author_tag_stats_key.author, author_tag_stats_key.tag,
    author_tag_stats_key.total_rewards, author_tag_stats_key.total_posts]

/-- The sequence `FC_REFLECT((golos::tags::author_tag_stats_object), ...)` lists. -/
def author_tag_stats_object_reflected : List author_tag_stats_key :=
  [author_tag_stats_key.id, author_tag_stats_key.author, author_tag_stats_key.tag,
    author_tag_stats_key.total_posts, author_tag_stats_key.total_rewards]

/-- The value a key extractor of `tag_object` reads from a record. -/
def tag_object.get (k : tag_key) (r : tag_object) : field_value ℚ :=
  match k with
  | tag_key.id => field_value.int r.id
  | tag_key.name => field_value.nat r.name
  | tag_key.created => field_value.nat r.created
  | tag_key.active => field_value.nat r.active
  | tag_key.cashout => field_value.nat r.cashout
  | tag_key.net_rshares => field_value.int r.net_rshares
  | tag_key.net_votes => field_value.int r.net_votes
  | tag_key.children => field_value.int r.children
  | tag_key.hot => field_value.num r.hot
  | tag_key.trending => field_value.num r.trending
  | tag_key.promoted_balance => field_value.int r.promoted_balance
  | tag_key.children_rshares2 => field_value.nat r.children_rshares2
  | tag_key.author => field_value.int r.author
  | tag_key.parent => field_value.int r.parent
  | tag_key.comment => field_value.int r.comment
  | tag_key.is_post => field_value.flag r.is_post

/-- A value is stored into the data member of a `tag_object` named by `k`; a value of another
kind than the member, or the derived `is_post`, changes nothing. -/
def tag_object.set (k : tag_key) (v : field_value ℚ) (r : tag_object) : tag_object :=
  match k, v with
  | tag_key.id, field_value.int x => { r with id := x }
  | tag_key.name, field_value.nat x => { r with name := x }
  | tag_key.created, field_value.nat x => { r with created := x }
  | tag_key.active, field_value.nat x => { r with active := x }
  | tag_key.cashout, field_value.nat x => { r with cashout := x }
  | tag_key.net_rshares, field_value.int x => { r with net_rshares := x }
  | tag_key.net_votes, field_value.int x => { r with net_votes := x }
  | tag_key.children, field_value.int x => { r with children := x }
  | tag_key.hot, field_value.num x => { r with hot := x }
  | tag_key.trending, field_value.num x => { r with trending := x }
  | tag_key.promoted_balance, field_value.int x => { r with promoted_balance := x }
  | tag_key.children_rshares2, field_value.nat x => { r with children_rshares2 := x }
  | tag_key.author, field_value.int x => { r with author := x }
  | tag_key.parent, field_value.int x => { r with parent := x }
  | tag_key.comment, field_value.int x => { r with comment := x }
  | _, _ => r

/-- The value of a data member of a `tag_stats_object`. -/
def tag_stats_object.get (k : tag_stats_key) (r : tag_stats_object) : field_value ℚ :=
  match k with
  | tag_stats_key.id => field_value.int r.id
  | tag_stats_key.tag => field_value.nat r.tag
  | tag_stats_key.total_children_rshares2 => field_value.nat r.total_children_rshares2
  | tag_stats_key.total_payout => field_value.int r.total_payout
  | tag_stats_key.net_votes => field_value.int r.net_votes
  | tag_stats_key.top_posts => field_value.nat r.top_posts
  | tag_stats_key.comments => field_value.nat r.comments

/-- A value is stored into the data member of a `tag_stats_object` named by `k`; a value of
another kind than the member changes nothing. -/
def tag_stats_object.set (k : tag_stats_key) (v : field_value ℚ) (r : tag_stats_object) : tag_stats_object :=
  match k, v with
  | tag_stats_key.id, field_value.int x => { r with id := x }
  | tag_stats_key.tag, field_value.nat x => { r with tag := x }
  | tag_stats_key.total_children_rshares2, field_value.nat x => { r with total_children_rshares2 := x }
  | tag_stats_key.total_payout, field_value.int x => { r with total_payout := x }
  | tag_stats_key.net_votes, field_value.int x => { r with net_votes := x }
  | tag_stats_key.top_posts, field_value.nat x => { r with top_posts := x }
  | tag_stats_key.comments, field_value.nat x => { r with comments := x }
  | _, _ => r

/-- The value of a data member of a `peer_stats_object`. -/
def peer_stats_object.get {F : Type} (k : peer_stats_key) (r : peer_stats_object F) : field_value F :=
  match k with
  | peer_stats_key.id => field_value.int r.id
  | peer_stats_key.voter => field_value.int r.voter
  | peer_stats_key.peer => field_value.int r.peer
  | peer_stats_key.direct_positive_votes => field_value.int r.direct_positive_votes
  | peer_stats_key.direct_votes => field_value.int r.direct_votes
  | peer_stats_key.indirect_positive_votes => field_value.int r.indirect_positive_votes
  | peer_stats_key.indirect_votes => field_value.int r.indirect_votes
  | peer_stats_key.rank => field_value.num r.rank

/-- A value is stored into the data member of a `peer_stats_object` named by `k`; a value of
another kind than the member changes nothing. -/
def peer_stats_object.set {F : Type} (k : peer_stats_key) (v : field_value F) (r : peer_stats_object F) : peer_stats_object F :=
  match k, v with
  | peer_stats_key.id, field_value.int x => { r with id := x }
  | peer_stats_key.voter, field_value.int x => { r with voter := x }
  | peer_stats_key.peer, field_value.int x => { r with peer := x }
  | peer_stats_key.direct_positive_votes, field_value.int x => { r with direct_positive_votes := x }
  | peer_stats_key.direct_votes, field_value.int x => { r with direct_votes := x }
  | peer_stats_key.indirect_positive_votes, field_value.int x => { r with indirect_positive_votes := x }
  | peer_stats_key.indirect_votes, field_value.int x => { r with indirect_votes := x }
  | peer_stats_key.rank, field_value.num x => { r with rank := x }
  | _, _ => r

/-- The value of a data member of an `author_tag_stats_object`. -/
def author_tag_stats_object.get (k : author_tag_stats_key) (r : author_tag_stats_object) : field_value ℚ :=
  match k with
  | author_tag_stats_key.id => field_value.int r.id
  | author_tag_stats_key.author => field_value.int r.author
  | author_tag_stats_key.tag => field_value.nat r.tag
  | author_tag_stats_key.total_rewards => field_value.int r.total_rewards
  | author_tag_stats_key.total_posts => field_value.nat r.total_posts

/-- A value is stored into the data member of an `author_tag_stats_object` named by `k`; a
value of another kind than the member changes nothing. -/
def author_tag_stats_object.set (k : author_tag_stats_key) (v : field_value ℚ) (r : author_tag_stats_object) : author_tag_stats_object :=
  match k, v with
  | author_tag_stats_key.id, field_value.int x => { r with id := x }
  | author_tag_stats_key.author, field_value.int x => { r with author := x }
  | author_tag_stats_key.tag, field_value.nat x => { r with tag := x }
  | author_tag_stats_key.total_rewards, field_value.int x => { r with total_rewards := x }
  | author_tag_stats_key.total_posts, field_value.nat x => { r with total_posts := x }
  | _, _ => r

/-- Modelled from the spec: a record is written as the sequence of the values of its
reflected fields, in the order of the field list (section 6, "stable field list and order for
serialization"; the reflection visitors of the fc library are not among the sources). -/
def pack {R K V : Type} (get : K → R → V) (fields : List K) (r : R) : List V :=
  fields.map (fun k => get k r)

/-- Modelled from the spec: a record is read back from a sequence of values: the values are
stored one after the other into the reflected fields of the record `init`, in the order of the
field list. -/
def unpack {R K V : Type} (set : K → V → R → R) (fields : List K) (init : R) (vs : List V) : R :=
  (fields.zip vs).foldl (fun r kv => set kv.1 kv.2 r) init

/-! ## The peer_stats_index and author_tag_stats_index containers -/

/-- The strict order `<` on the value of a data member of `peer_stats_object`. -/
def peer_stats_key.lt {F : Type} [LinearOrder F] (k : peer_stats_key)
    (x y : peer_stats_object F) : Bool :=
  match k with
  | peer_stats_key.id => decide (x.id < y.id)
  | peer_stats_key.voter => decide (x.voter < y.voter)
  | peer_stats_key.peer => decide (x.peer < y.peer)
  | peer_stats_key.direct_positive_votes =>
      decide (x.direct_positive_votes < y.direct_positive_votes)
  | peer_stats_key.direct_votes => decide (x.direct_votes < y.direct_votes)
  | peer_stats_key.indirect_positive_votes =>
      decide (x.indirect_positive_votes < y.indirect_positive_votes)
  | peer_stats_key.indirect_votes => decide (x.indirect_votes < y.indirect_votes)
  | peer_stats_key.rank => decide (x.rank < y.rank)

/-- The ordering of a secondary index of `peer_stats_index`. -/
def peer_stats_index_lt {F : Type} [LinearOrder F] (t : peer_stats_index_tag)
    (x y : peer_stats_object F) : Bool :=
  composite_lt ((peer_stats_index_keys t).map (fun p => p.2.apply p.1.lt)) x y

/-- Whether a secondary index of `peer_stats_index` is declared `ordered_unique`: both
are. -/
def peer_stats_index_unique : peer_stats_index_tag → Bool
  | peer_stats_index_tag.by_rank => true
  | peer_stats_index_tag.by_voter_peer => true

/-- The strict order `<` on the value of a data member of `author_tag_stats_object`. -/
def author_tag_stats_key.lt (k : author_tag_stats_key) (x y : author_tag_stats_object) : Bool :=
  match k with
  | author_tag_stats_key.id => decide (x.id < y.id)
  | author_tag_stats_key.author => decide (x.author < y.author)
  | author_tag_stats_key.tag => decide (x.tag < y.tag)
  | author_tag_stats_key.total_rewards => decide (x.total_rewards < y.total_rewards)
  | author_tag_stats_key.total_posts => decide (x.total_posts < y.total_posts)

/-- The ordering of a secondary index of `author_tag_stats_index`. -/
def author_tag_stats_index_lt (t : author_tag_stats_index_tag)
    (x y : author_tag_stats_object) : Bool :=
  composite_lt ((author_tag_stats_index_keys t).map (fun p => p.2.apply p.1.lt)) x y

/-- Whether a secondary index of `author_tag_stats_index` is declared `ordered_unique`: all
four are. -/
def author_tag_stats_index_unique : author_tag_stats_index_tag → Bool
  | author_tag_stats_index_tag.by_author_posts_tag => true
  | author_tag_stats_index_tag.by_author_tag_posts => true
  | author_tag_stats_index_tag.by_author_tag_rewards => true
  | author_tag_stats_index_tag.by_tag_rewards_author => true

/-- What a `multi_index_container` declaration says about a record type `R` with the index
tags `T`: how the id is read and assigned, the secondary indices, their orderings, and which
of them are `ordered_unique`. -/
structure index_declaration (R T : Type) where
  id : R → object_id
  with_id : object_id → R → R
  tags : List T
  lt : T → R → R → Bool
  unique : T → Bool

/-- The declaration of `peer_stats_index`. -/
def peer_stats_index_declaration (F : Type) [LinearOrder F] :
    index_declaration (peer_stats_object F) peer_stats_index_tag :=
  { id := fun r => r.id
    with_id := fun i r => { r with id := i }
    tags := [peer_stats_index_tag.by_rank, peer_stats_index_tag.by_voter_peer]
    lt := peer_stats_index_lt
    unique := peer_stats_index_unique }

/-- The declaration of `author_tag_stats_index`. -/
def author_tag_stats_index_declaration :
    index_declaration author_tag_stats_object author_tag_stats_index_tag :=
  { id := fun r => r.id
    with_id := fun i r => { r with id := i }
    tags := [author_tag_stats_index_tag.by_author_posts_tag,
      author_tag_stats_index_tag.by_author_tag_posts,
      author_tag_stats_index_tag.by_author_tag_rewards,
      author_tag_stats_index_tag.by_tag_rewards_author]
    lt := author_tag_stats_index_lt
    unique := author_tag_stats_index_unique }

/-- Modelled from the spec: the state of a Record Store with its Index Engine (sections 4.1
and 4.2; the container code is not among the sources): the primary index `by_id`, the listing
of every secondary index, and the next identifier the store assigns. -/
structure record_store (R T : Type) where
  by_id : List R
  secondary : T → List R
  next_id : object_id

/-- The empty store. -/
def record_store.empty {R T : Type} : record_store R T :=
  { by_id := [], secondary := fun _ => [], next_id := 0 }

/-- Modelled from the spec: a uniqueness invariant of some index would be violated by `x`:
the primary index or an `ordered_unique` secondary index holds a record equivalent to `x`. -/
def record_store.violates {R T : Type} (d : index_declaration R T) (s : record_store R T)
    (x : R) : Bool :=
  key_conflict (fun a b => decide (d.id a < d.id b)) x s.by_id ||
    d.tags.any (fun t => d.unique t && key_conflict (d.lt t) x (s.secondary t))

/-- Modelled from the spec: the Record Store operation `insert(record) -> id` of section 4.1:
the store assigns the identifier; the insertion fails with `DuplicateKey` if a uniqueness
invariant of an index would be violated, otherwise the record is seated in every index. -/
def record_store.insert {R T : Type} (d : index_declaration R T) (s : record_store R T)
    (r : R) : Except store_error (object_id × record_store R T) :=
  if s.violates d (d.with_id s.next_id r) then Except.error store_error.DuplicateKey
  else Except.ok (s.next_id,
    { by_id := ordered_insert (fun a b => decide (d.id a < d.id b)) (d.with_id s.next_id r) s.by_id
      secondary := fun t => ordered_insert (d.lt t) (d.with_id s.next_id r) (s.secondary t)
      next_id := s.next_id + 1 })

/-- The store after an insertion; a failed insertion leaves the store as it was. -/
def record_store.after_insert {R T : Type} (d : index_declaration R T) (s : record_store R T)
    (r : R) : record_store R T :=
  match s.insert d r with
  | Except.ok (_, s1) => s1
  | Except.error _ => s

/-- Every secondary index of the store lists the records of the primary index. -/
def record_store.well_formed {R T : Type} (s : record_store R T) : Prop :=
  ∀ t, (s.secondary t).Perm s.by_id

/-- A Peer Stats record of the given voter and peer with the given vote counts and rank. -/
def mk_peer_stats (voter peer : object_id) (direct_positive_votes direct_votes : Int)
    (rank : ℚ) : peer_stats_object ℚ :=
  { id := 0, voter := voter, peer := peer, direct_positive_votes := direct_positive_votes,
    direct_votes := direct_votes, rank := rank }

/-- An Author Tag Stats record of the given author and tag with the given totals. -/
def mk_author_tag_stats (author : object_id) (tag : tag_name_type) (total_rewards : Int)
    (total_posts : Nat) : author_tag_stats_object :=
  { id := 0, author := author, tag := tag, total_rewards := total_rewards,
    total_posts := total_posts }

/-- Every identifier in the store is below the next identifier the store assigns. -/
def tag_index.ids_below (s : tag_index) : Prop :=
  ∀ x ∈ s.by_id, x.id < s.next_id

/-- A Tag Entry of the comment 11 under the tag name 5, a reply to the comment 3. -/
def reply_entry : tag_object :=
  { id := 0, name := 5, created := 10, active := 10, cashout := 20, net_rshares := 100,
    net_votes := 1, children := 0, hot := 0, trending := 0, promoted_balance := 0,
    children_rshares2 := 0, author := 2, parent := 3, comment := 11 }

/-! ## Evaluator dispatch: apply_operation -/

/-- Modelled from the spec: the failure of `apply_operation` named in sections 4.5 and 7,
`ValidationFailed` with its reason. -/
inductive operation_error (Reason : Type) where
  | ValidationFailed (reason : Reason)

/-- Modelled from the spec: a handler of section 4.5 (the evaluators are not among the
sources): it validates the semantic preconditions of an operation against the current store,
giving the reason when it rejects, and it performs the mutations of an accepted operation. -/
structure evaluator (S Op Reason : Type) where
  validate : S → Op → Option Reason
  mutate : S → Op → S

/-- Modelled from the spec: the member `evaluator_registry<operation> registry` of `database`
(its class is not among the sources): the discriminant of an operation and the mapping from
discriminant to handler, one handler per discriminant. -/
structure evaluator_registry (S Op K Reason : Type) where
  which : Op → K
  handler : K → evaluator S Op Reason

/-- Modelled from the spec: `void database::apply_operation(const operation &op)`, declared
in `database.hpp` and defined outside the sources. The handler of the operation's kind
validates; if it rejects, the call fails with `ValidationFailed` and does not mutate; on
success the handler's mutations are performed and nothing is returned. The result pairs the
outcome of the call with the store after the call. -/
def apply_operation {S Op K Reason : Type} (registry : evaluator_registry S Op K Reason)
    (op : Op) (s : S) : Except (operation_error Reason) Unit × S :=
  match (registry.handler (registry.which op)).validate s op with
  | some reason => (Except.error (operation_error.ValidationFailed reason), s)
  | none => (Except.ok (), (registry.handler (registry.which op)).mutate s op)

/-- A registry over the Tag Entry store for examples: the kinds are 0 (insert), 1 (update)
and 2 (remove); an update or removal of an absent id is rejected. -/
def sample_registry : evaluator_registry tag_index tag_index_op Nat store_error :=
  { which := fun op =>
      match op with
      | tag_index_op.insert _ => 0
      | tag_index_op.update _ _ => 1
      | tag_index_op.remove _ => 2
    handler := fun _ =>
      { validate := fun s op =>
          match op with
          | tag_index_op.insert _ => none
          | tag_index_op.update id _ =>
            if (s.find id).isSome then none else some store_error.NotFound
          | tag_index_op.remove id =>
            if (s.find id).isSome then none else some store_error.NotFound
        mutate := fun s op => s.apply op } }

/-! ## cli_wallet: parse_commands -/

/-- Modelled from the spec: the library call `boost::algorithm::split_regex` with the pattern
"&&" (the boost string algorithms are not among the sources; the comment in `parse_commands`
says the commands are separated with "&&"): the text is cut at every occurrence of "&&",
found from left to right without overlap, and the pieces between the cuts are returned in
order, empty pieces included. `cur` holds the characters of the current piece, last first. -/
def split_regex_from : List Char → List Char → List (List Char)
  | cur, [] => [cur.reverse]
  | cur, '&' :: '&' :: rest => cur.reverse :: split_regex_from [] rest
  | cur, c :: rest => split_regex_from (c :: cur) rest

/-- The pieces of a text between the occurrences of "&&". -/
def split_regex (text : List Char) : List (List Char) :=
  split_regex_from [] text

/-- Modelled from the spec: the white-space test of `boost::trim` in the classic locale:
space, tab, line feed, vertical tab, form feed, carriage return. -/
def is_space (c : Char) : Bool :=
  c == ' ' || c == Char.ofNat 9 || c == Char.ofNat 10 || c == Char.ofNat 11 ||
    c == Char.ofNat 12 || c == Char.ofNat 13

/-- Modelled from the spec: the library call `boost::trim`: the white space at the start and
at the end of the text is removed. -/
def trim (x : List Char) : List Char :=
  ((x.dropWhile is_space).reverse.dropWhile is_space).reverse

/-- The function `parse_commands`: `commands_option` is the value of the program option
"commands" if the option is given, `commands` and `interactive` are the two reference
parameters, and the result is their values on return. -/
def parse_commands (commands_option : Option (List Char)) (commands : List (List Char))
    (interactive : Bool) : List (List Char) × Bool :=
  match commands_option with
  | none => (commands, interactive)
  | some tmp_commmad_string =>
    let unchecked_commands := split_regex tmp_commmad_string
    (unchecked_commands.foldl
      (fun commands x => if trim x != [] then commands ++ [trim x] else commands) commands,
      false)

/-- The value of the option in the example of the source comment. -/
def documented_commands : List Char :=
  ("unlock verystrongpassword && some_command arg1 arg2 && another_command arg1 arg2 arg3" :
    String).toList

/-! ## The comparator classes derived from comparable_index -/

/-- The classes derived from `comparable_index<tag_object>`, in the order of their
definitions. -/
inductive comparator_class where
  | by_cashout
  | by_net_rshares
  | by_parent_created
  | by_parent_active
  | by_parent_promoted
  | by_parent_net_rshares
  | by_parent_net_votes
  | by_parent_children_rshares2
  | by_parent_trending
  | by_parent_children
  | by_parent_hot
  | by_author_parent_created
  | by_author_comment
  | by_reward_fund_net_rshares
deriving DecidableEq

/-- The comparisons that the `operator()` of a comparator class joins with `&&`, in the order
they are written: each is a member (or `is_post()`) with `std::less` or `std::greater`. -/
def comparator_class.tests : comparator_class → List (tag_key × key_order)
  | comparator_class.by_cashout =>
      [(tag_key.name, .less), (tag_key.cashout, .less), (tag_key.id, .less)]
  | comparator_class.by_net_rshares => [(tag_key.net_rshares, .greater), (tag_key.id, .less)]
  | comparator_class.by_parent_created =>
      [(tag_key.parent, .less), (tag_key.created, .greater), (tag_key.id, .less)]
  | comparator_class.by_parent_active =>
      [(tag_key.parent, .less), (tag_key.active, .greater), (tag_key.id, .less)]
  | comparator_class.by_parent_promoted =>
      [(tag_key.parent, .less), (tag_key.promoted_balance, .greater), (tag_key.id, .less)]
  | comparator_class.by_parent_net_rshares =>
      [(tag_key.parent, .less), (tag_key.net_rshares, .greater), (tag_key.id, .less)]
  | comparator_class.by_parent_net_votes =>
      [(tag_key.parent, .less), (tag_key.net_votes, .greater), (tag_key.id, .less)]
  | comparator_class.by_parent_children_rshares2 =>
      [(tag_key.parent, .less), (tag_key.children_rshares2, .greater), (tag_key.id, .less)]
  | comparator_class.by_parent_trending =>
      [(tag_key.parent, .less), (tag_key.trending, .greater), (tag_key.id, .less)]
  | comparator_class.by_parent_children =>
      [(tag_key.parent, .less), (tag_key.children, .greater), (tag_key.id, .less)]
  | comparator_class.by_parent_hot =>
      [(tag_key.parent, .less), (tag_key.hot, .greater), (tag_key.id, .less)]
  | comparator_class.by_author_parent_created =>
      [(tag_key.author, .less), (tag_key.created, .greater), (tag_key.id, .less)]
  | comparator_class.by_author_comment =>
      [(tag_key.author, .less), (tag_key.comment, .less), (tag_key.id, .less)]
  | comparator_class.by_reward_fund_net_rshares =>
      [(tag_key.is_post, .less), (tag_key.net_rshares, .greater), (tag_key.id, .less)]

/-- The member `operator()(first, second)` of a comparator class: every one of its
comparisons holds. -/
def comparator_class.call (c : comparator_class) (first second : tag_object) : Bool :=
  c.tests.all (fun p => tag_key_part p first second)

/-- The index of `tag_index` that is tagged with the comparator class. -/
def comparator_class.index_tag : comparator_class → tag_index_tag
  | comparator_class.by_cashout => tag_index_tag.by_cashout
  | comparator_class.by_net_rshares => tag_index_tag.by_net_rshares
  | comparator_class.by_parent_created => tag_index_tag.by_parent_created
  | comparator_class.by_parent_active => tag_index_tag.by_parent_active
  | comparator_class.by_parent_promoted => tag_index_tag.by_parent_promoted
  | comparator_class.by_parent_net_rshares => tag_index_tag.by_parent_net_rshares
  | comparator_class.by_parent_net_votes => tag_index_tag.by_parent_net_votes
  | comparator_class.by_parent_children_rshares2 => tag_index_tag.by_parent_children_rshares2
  | comparator_class.by_parent_trending => tag_index_tag.by_parent_trending
  | comparator_class.by_parent_children => tag_index_tag.by_parent_children
  | comparator_class.by_parent_hot => tag_index_tag.by_parent_hot
  | comparator_class.by_author_parent_created => tag_index_tag.by_author_parent_created
  | comparator_class.by_author_comment => tag_index_tag.by_author_comment
  | comparator_class.by_reward_fund_net_rshares => tag_index_tag.by_reward_fund_net_rshares

/-! ## cli_wallet: the HTTP request handler -/

/-- Modelled from the spec: an `fc::ip::address` (declared outside the sources): an IPv4
address as a number. -/
abbrev ip_address := Nat

/-- The vector `allowed_ips` of `main` after the statement at lines 99-103: the values of the
option "rpc-http-allowip" if that option and "rpc-http-endpoint" are both given, otherwise
empty. -/
def allowed_ips (allowip : Option (List (List Char))) (http_endpoint : Option (List Char)) :
    List (List Char) :=
  if allowip.isSome && http_endpoint.isSome then allowip.getD [] else []

/-- The set `allowed_ip_set` of `main` after the loop at lines 232-234: every allowed IP is
converted with `fc::ip::address(ip)`, here `to_address`, and inserted. -/
def allowed_ip_set (to_address : List Char → ip_address) (ips : List (List Char)) :
    List ip_address :=
  ips.foldl (fun set ip => List.insert (to_address ip) set) []

/-- An `fc::http::request` as far as the handler reads it, and its content. -/
structure http_request where
  remote_endpoint : List Char
  body : List Char
deriving DecidableEq

/-- The status the handler can set on the response. -/
inductive http_status where
  | NotAuthorized
deriving DecidableEq

/-- What one call of the request handler does: the status it sets on the response, if any,
and the request it hands to the wallet API connection (`conn->on_request(req, resp)`), if
any. -/
structure http_handling where
  status : Option http_status
  api_request : Option http_request
deriving DecidableEq

/-- The callback passed to `_http_server->on_request` at lines 240-252; `endpoint_address`
stands for `fc::ip::endpoint::from_string(...).get_address()`. -/
def on_request (endpoint_address : List Char → ip_address) (allowed_ip_set : List ip_address)
    (req : http_request) : http_handling :=
  if endpoint_address req.remote_endpoint ∈ allowed_ip_set then
    { status := none, api_request := some req }
  else
    { status := some http_status.NotAuthorized, api_request := none }

/-! ## cli_wallet: nom_daemon_mode -/

/-- The state of `nom_daemon_mode` in non-interactive mode: the wallet behind `wallet_cli`,
the commands passed to `exec_command` so far (a trace, oldest first), the vector
`commands_output`, and the exceptions caught and printed so far. -/
structure daemon_state (W Cmd Res E : Type) where
  wallet : W
  executed : List Cmd
  commands_output : List (Cmd × Res)
  caught : List E

/-- One turn of the loop over `commands`: `exec_command` runs on the command; its result is
recorded with the command, or the `fc::exception` it raises is caught and printed. -/
def nom_daemon_mode_step {W Cmd Res E : Type} (exec_command : W → Cmd → Except E Res × W)
    (st : daemon_state W Cmd Res E) (command : Cmd) : daemon_state W Cmd Res E :=
  match exec_command st.wallet command with
  | (Except.ok result, w) =>
    { wallet := w, executed := st.executed ++ [command],
      commands_output := st.commands_output ++ [(command, result)], caught := st.caught }
  | (Except.error e, w) =>
    { wallet := w, executed := st.executed ++ [command],
      commands_output := st.commands_output, caught := st.caught ++ [e] }

/-- The function `nom_daemon_mode`: in non-interactive mode the loop over `commands`; in
interactive mode the session of `wallet_cli->start()` runs no command of the list. -/
def nom_daemon_mode {W Cmd Res E : Type} (exec_command : W → Cmd → Except E Res × W)
    (commands : List Cmd) (interactive : Bool) (wallet : W) : daemon_state W Cmd Res E :=
  if !interactive then
    commands.foldl (nom_daemon_mode_step exec_command)
      { wallet := wallet, executed := [], commands_output := [], caught := [] }
  else
    { wallet := wallet, executed := [], commands_output := [], caught := [] }

/-- The outcome of every command of a list when the commands are executed one after the
other in list order, each exactly once, on the wallet the previous one left. -/
def command_outcomes {W Cmd Res E : Type} (exec_command : W → Cmd → Except E Res × W) :
    W → List Cmd → List (Cmd × Except E Res)
  | _, [] => []
  | w, command :: commands =>
    (command, (exec_command w command).1) ::
      command_outcomes exec_command (exec_command w command).2 commands

/-- The (command, result) pair of an outcome that is a success. -/
def succeeded {Cmd Res E : Type} (o : Cmd × Except E Res) : Option (Cmd × Res) :=
  match o.2 with
  | Except.ok result => some (o.1, result)
  | Except.error _ => none

/-- A wallet for examples: the state counts the commands executed, a command is a number, an
odd command raises an exception carrying the command, an even one returns its half. -/
def sample_exec (w : Nat) (command : Nat) : Except Nat Nat × Nat :=
  if command % 2 = 1 then (Except.error command, w + 1) else (Except.ok (command / 2), w + 1)

/-! ## database_api: signed_block_api_object -/

/-- Modelled from the spec: the base class `signed_block` (declared outside the sources) as
far as the constructor reads it: its header part and its transactions. -/
structure signed_block (Hdr Tx : Type) where
  header : Hdr
  transactions : List Tx

/-- The struct `signed_block_api_object`: the `signed_block` base and the three members. -/
structure signed_block_api_object (Hdr Tx BlockId Key TxId : Type) where
  block : signed_block Hdr Tx
  block_id : BlockId
  signing_key : Key
  transaction_ids : List TxId

/-- The constructor `signed_block_api_object(const signed_block &block)`; `id`, `signee` and
`tx_id` stand for the member functions `signed_block::id()`, `signed_block::signee()` and
`signed_transaction::id()`, all declared outside the sources. -/
def signed_block_api_object.from_block {Hdr Tx BlockId Key TxId : Type}
    (id : signed_block Hdr Tx → BlockId) (signee : signed_block Hdr Tx → Key)
    (tx_id : Tx → TxId) (block : signed_block Hdr Tx) :
    signed_block_api_object Hdr Tx BlockId Key TxId :=
  { block := block
    block_id := id block
    signing_key := signee block
    transaction_ids := block.transactions.foldl (fun ids tx => ids ++ [tx_id tx]) [] }

/-! ## The double members in full: not-a-number and the infinities -/

/-- A value of the type `double`: not-a-number, an infinity, or a finite number (the two
zeros are one value, they compare equal). -/
inductive double where
  | nan
  | neg_inf
  | finite (q : ℚ)
  | pos_inf
deriving DecidableEq

/-- The comparison `operator<` of two `double` values: false as soon as one of them is
not-a-number. `std::less<double>` is `lt x y`, `std::greater<double>` is `lt y x`. -/
def double.lt : double → double → Bool
  | double.nan, _ => false
  | double.neg_inf, double.nan => false
  | double.neg_inf, double.neg_inf => false
  | double.neg_inf, double.finite _ => true
  | double.neg_inf, double.pos_inf => true
  | double.finite _, double.nan => false
  | double.finite _, double.neg_inf => false
  | double.finite a, double.finite b => decide (a < b)
  | double.finite _, double.pos_inf => true
  | double.pos_inf, _ => false

/-- The place of a `double` value among the rationals extended by the two infinities;
not-a-number has no place there and is put at zero. -/
def double.extended : double → WithBot (WithTop ℚ)
  | double.nan => ((0 : ℚ) : WithTop ℚ)
  | double.neg_inf => ⊥
  | double.finite q => ((q : WithTop ℚ) : WithBot (WithTop ℚ))
  | double.pos_inf => ((⊤ : WithTop ℚ) : WithBot (WithTop ℚ))

/-- The class `tag_object` with its two `double` members in full: `hot` and `trending` may
be not-a-number or infinite. `tag_object` above is this class restricted to finite `hot` and
`trending`. -/
structure tag_object_ieee where
  id : object_id
  name : tag_name_type
  created : time_point_sec
  active : time_point_sec
  cashout : time_point_sec
  net_rshares : Int
  net_votes : Int
  children : Int
  hot : double
  trending : double
  promoted_balance : share_type
  children_rshares2 : Nat
  author : object_id
  parent : object_id
  comment : object_id
deriving DecidableEq

/-- The member function `tag_object::is_post`. -/
def tag_object_ieee.is_post (t : tag_object_ieee) : Bool :=
  t.parent == comment_id_default

/-- The entry has no not-a-number in a `double` key of the index `t`: in `hot` for
`by_parent_hot`, in `trending` for `by_parent_trending`; no other index of `tag_index` has a
`double` among its keys. -/
def tag_object_ieee.nan_free_in (x : tag_object_ieee) : tag_index_tag → Prop
  | tag_index_tag.by_parent_hot => x.hot ≠ double.nan
  | tag_index_tag.by_parent_trending => x.trending ≠ double.nan
  | _ => True

instance (x : tag_object_ieee) (t : tag_index_tag) : Decidable (x.nan_free_in t) := by
  cases t <;> unfold tag_object_ieee.nan_free_in <;> infer_instance

/-- An entry with finite `hot` and `trending` as an entry with `double` members. -/
def tag_object.to_ieee (x : tag_object) : tag_object_ieee :=
  { id := x.id, name := x.name, created := x.created, active := x.active,
    cashout := x.cashout, net_rshares := x.net_rshares, net_votes := x.net_votes,
    children := x.children, hot := double.finite x.hot, trending := double.finite x.trending,
    promoted_balance := x.promoted_balance, children_rshares2 := x.children_rshares2,
    author := x.author, parent := x.parent, comment := x.comment }

/-- The strict order `<` on the value a key extractor returns, with `operator<` of `double`
for `hot` and `trending`. -/
def tag_key.lt_ieee (k : tag_key) (x y : tag_object_ieee) : Bool :=
  match k with
  | tag_key.id => decide (x.id < y.id)
  | tag_key.name => decide (x.name < y.name)
  | tag_key.created => decide (x.created < y.created)
  | tag_key.active => decide (x.active < y.active)
  | tag_key.cashout => decide (x.cashout < y.cashout)
  | tag_key.net_rshares => decide (x.net_rshares < y.net_rshares)
  | tag_key.net_votes => decide (x.net_votes < y.net_votes)
  | tag_key.children => decide (x.children < y.children)
  | tag_key.hot => double.lt x.hot y.hot
  | tag_key.trending => double.lt x.trending y.trending
  | tag_key.promoted_balance => decide (x.promoted_balance < y.promoted_balance)
  | tag_key.children_rshares2 => decide (x.children_rshares2 < y.children_rshares2)
  | tag_key.author => decide (x.author < y.author)
  | tag_key.parent => decide (x.parent < y.parent)
  | tag_key.comment => decide (x.comment < y.comment)
  | tag_key.is_post => decide (x.is_post < y.is_post)

/-- The comparison of `tag_key.lt_ieee` with `hot` and `trending` compared by their places
among the extended rationals: a linear order on every key, equal to `tag_key.lt_ieee` on
entries without not-a-number. -/
def tag_key.lt_extended (k : tag_key) (x y : tag_object_ieee) : Bool :=
  match k with
  | tag_key.id => decide (x.id < y.id)
  | tag_key.name => decide (x.name < y.name)
  | tag_key.created => decide (x.created < y.created)
  | tag_key.active => decide (x.active < y.active)
  | tag_key.cashout => decide (x.cashout < y.cashout)
  | tag_key.net_rshares => decide (x.net_rshares < y.net_rshares)
  | tag_key.net_votes => decide (x.net_votes < y.net_votes)
  | tag_key.children => decide (x.children < y.children)
  | tag_key.hot => decide (x.hot.extended < y.hot.extended)
  | tag_key.trending => decide (x.trending.extended < y.trending.extended)
  | tag_key.promoted_balance => decide (x.promoted_balance < y.promoted_balance)
  | tag_key.children_rshares2 => decide (x.children_rshares2 < y.children_rshares2)
  | tag_key.author => decide (x.author < y.author)
  | tag_key.parent => decide (x.parent < y.parent)
  | tag_key.comment => decide (x.comment < y.comment)
  | tag_key.is_post => decide (x.is_post < y.is_post)

/-- The ordering of a secondary index of `tag_index` on entries with `double` members: the
declared composite key, compared component by component. -/
def tag_index_lt_ieee (t : tag_index_tag) (x y : tag_object_ieee) : Bool :=
  composite_lt ((tag_index_keys t).map (fun p => p.2.apply p.1.lt_ieee)) x y

/-- The ordering of `tag_index_lt_ieee` with `tag_key.lt_extended` for the components. -/
def tag_index_lt_extended (t : tag_index_tag) (x y : tag_object_ieee) : Bool :=
  composite_lt ((tag_index_keys t).map (fun p => p.2.apply p.1.lt_extended)) x y

/-- A list of entries with `double` members is in the order of the secondary index `t`. -/
def in_index_order_ieee (t : tag_index_tag) (l : List tag_object_ieee) : Prop :=
  l.Pairwise (fun x y => tag_index_lt_ieee t x y = true)

instance (t : tag_index_tag) (l : List tag_object_ieee) : Decidable (in_index_order_ieee t l) := by
  unfold in_index_order_ieee
  infer_instance

/-- The declaration of `tag_index` for entries with `double` members: every secondary index
is `ordered_unique`. -/
def tag_index_ieee_declaration : index_declaration tag_object_ieee tag_index_tag :=
  { id := fun r => r.id
    with_id := fun i r => { r with id := i }
    tags := tag_index_tag.all
    lt := tag_index_lt_ieee
    unique := fun _ => true }

/-- Lookup in the primary index of a store. -/
def record_store.find {R T : Type} (d : index_declaration R T) (s : record_store R T)
    (id : object_id) : Option R :=
  s.by_id.find? (fun y => d.id y == id)

/-- Modelled from the spec: the record `x` is seated in every index at its ordered
position. -/
def record_store.link {R T : Type} (d : index_declaration R T) (s : record_store R T) (x : R) :
    record_store R T :=
  { by_id := ordered_insert (fun a b => decide (d.id a < d.id b)) x s.by_id
    secondary := fun t => ordered_insert (d.lt t) x (s.secondary t)
    next_id := s.next_id }

/-- Modelled from the spec: the record with identifier `id` is taken out of every index. -/
def record_store.unlink {R T : Type} (d : index_declaration R T) (s : record_store R T)
    (id : object_id) : record_store R T :=
  { by_id := s.by_id.filter (fun y => d.id y != id)
    secondary := fun t => (s.secondary t).filter (fun y => d.id y != id)
    next_id := s.next_id }

/-- Modelled from the spec: the Record Store operation `update(id, mutator)` of section 4.1:
the mutation is applied to the record, whose identifier is immutable, and the record is
re-seated in every index; it fails with `NotFound` if the id is absent. -/
def record_store.update {R T : Type} (d : index_declaration R T) (s : record_store R T)
    (id : object_id) (m : R → R) : Except store_error (record_store R T) :=
  match s.find d id with
  | none => Except.error store_error.NotFound
  | some x => Except.ok ((s.unlink d id).link d (d.with_id (d.id x) (m x)))

/-- Modelled from the spec: the Record Store operation `remove(id)` of section 4.1: the record
is deleted from every index; it fails with `NotFound` if the id is absent. -/
def record_store.remove {R T : Type} (d : index_declaration R T) (s : record_store R T)
    (id : object_id) : Except store_error (record_store R T) :=
  match s.find d id with
  | none => Except.error store_error.NotFound
  | some _ => Except.ok (s.unlink d id)

/-- One mutation of a Record Store. -/
inductive store_op (R : Type) where
  | insert (r : R)
  | update (id : object_id) (m : R → R)
  | remove (id : object_id)

/-- The store after one operation; a failed operation leaves the store as it was. -/
def record_store.apply {R T : Type} (d : index_declaration R T) (s : record_store R T) :
    store_op R → record_store R T
  | store_op.insert r => s.after_insert d r
  | store_op.update id m =>
    match s.update d id m with
    | Except.ok s1 => s1
    | Except.error _ => s
  | store_op.remove id =>
    match s.remove d id with
    | Except.ok s1 => s1
    | Except.error _ => s

/-- The store after a sequence of operations, applied from left to right. -/
def record_store.run {R T : Type} (d : index_declaration R T) (s : record_store R T)
    (ops : List (store_op R)) : record_store R T :=
  ops.foldl (record_store.apply d) s

/-- A top-level Tag Entry with `double` members under the tag name 5 with the given `hot`,
every other member zero. -/
def hot_entry (id : object_id) (hot : double) : tag_object_ieee :=
  { id := id, name := 5, created := 0, active := 0, cashout := 0, net_rshares := 0,
    net_votes := 0, children := 0, hot := hot, trending := double.finite 0,
    promoted_balance := 0, children_rshares2 := 0, author := 0, parent := 0, comment := 0 }

/-- Three insertions under one tag name and parent, `hot` is 1, then not-a-number, then 2,
and the store assigns the ids 0, 1 and 2; then the removal of the first entry. -/
def nan_ops : List (store_op tag_object_ieee) :=
  [store_op.insert (hot_entry 0 (double.finite 1)), store_op.insert (hot_entry 0 double.nan),
    store_op.insert (hot_entry 0 (double.finite 2)), store_op.remove 0]

/-- Three insertions with `hot` 1, negative infinity and 2, an update of the first entry to
`hot` 3, and the removal of the second. -/
def nan_free_ops : List (store_op tag_object_ieee) :=
  [store_op.insert (hot_entry 0 (double.finite 1)), store_op.insert (hot_entry 0 double.neg_inf),
    store_op.insert (hot_entry 0 (double.finite 2)),
    store_op.update 0 (fun x => { x with hot := double.finite 3 }), store_op.remove 1]

/-- A Boolean comparison that is a strict weak ordering: irreflexive, transitive, and
whenever `x` is before `z` any third record is after `x` or before `z`. -/
structure strict_weak {R : Type} (c : R → R → Bool) : Prop where
  irrefl : ∀ x, c x x = false
  trans : ∀ x y z, c x y = true → c y z = true → c x z = true
  cotrans : ∀ x y z, c x z = true → c x y = true ∨ c y z = true

theorem strict_weak.asymm {R : Type} {c : R → R → Bool} (h : strict_weak c) (x y : R)
    (hxy : c x y = true) : c y x = false := by
  cases hyx : c y x with
  | false => rfl
  | true =>
    have := h.trans x y x hxy hyx
    rw [h.irrefl x] at this
    exact absurd this (by simp)

theorem strict_weak_of_linear {R α : Type} [LinearOrder α] (f : R → α) :
    strict_weak (fun x y => decide (f x < f y)) where
  irrefl x := by simp
  trans x y z hxy hyz := by
    simp only [decide_eq_true_eq] at *
    exact lt_trans hxy hyz
  cotrans x y z hxz := by
    simp only [decide_eq_true_eq] at *
    rcases lt_or_le (f x) (f y) with h | h
    · exact Or.inl h
    · exact Or.inr (lt_of_le_of_lt h hxz)

theorem strict_weak_apply {R : Type} {c : R → R → Bool} (h : strict_weak c) (o : key_order) :
    strict_weak (o.apply c) := by
  cases o with
  | less => exact h
  | greater =>
    refine ⟨fun x => h.irrefl x, fun x y z hxy hyz => h.trans z y x hyz hxy, ?_⟩
    intro x y z hxz
    rcases h.cotrans z y x hxz with h1 | h1
    · exact Or.inr h1
    · exact Or.inl h1

theorem composite_lt_cons {R : Type} (c : R → R → Bool) (cs : List (R → R → Bool)) (x y : R) :
    composite_lt (c :: cs) x y = true ↔
      c x y = true ∨ (c x y = false ∧ c y x = false ∧ composite_lt cs x y = true) := by
  simp only [composite_lt]
  cases h1 : c x y <;> cases h2 : c y x <;> simp

theorem composite_lt_strict_weak {R : Type} (cs : List (R → R → Bool))
    (hcs : ∀ c ∈ cs, strict_weak c) : strict_weak (composite_lt cs) := by
  induction cs with
  | nil =>
    exact ⟨fun _ => rfl, fun _ _ _ h => by simp [composite_lt] at h,
      fun _ _ _ h => by simp [composite_lt] at h⟩
  | cons c cs ih =>
    have hc : strict_weak c := hcs c (List.mem_cons_self _ _)
    have hr : strict_weak (composite_lt cs) :=
      ih (fun d hd => hcs d (List.mem_cons_of_mem _ hd))
    refine ⟨?_, ?_, ?_⟩
    · intro x
      simp [composite_lt, hc.irrefl x, hr.irrefl x]
    · intro x y z hxy hyz
      rw [composite_lt_cons] at hxy hyz ⊢
      rcases hxy with hxy | ⟨hxy1, hxy2, hxy3⟩
      · rcases hc.cotrans x z y hxy with h | h
        · exact Or.inl h
        · rcases hyz with hyz | ⟨_, hyz2, _⟩
          · rw [hc.asymm z y h] at hyz
            exact absurd hyz (by simp)
          · rw [hyz2] at h
            exact absurd h (by simp)
      · rcases hyz with hyz | ⟨hyz1, hyz2, hyz3⟩
        · rcases hc.cotrans y x z hyz with h | h
          · rw [hxy2] at h
            exact absurd h (by simp)
          · exact Or.inl h
        · refine Or.inr ⟨?_, ?_, hr.trans x y z hxy3 hyz3⟩
          · cases h : c x z with
            | false => rfl
            | true =>
              rcases hc.cotrans x y z h with h1 | h1
              · rw [hxy1] at h1
                exact absurd h1 (by simp)
              · rw [hyz1] at h1
                exact absurd h1 (by simp)
          · cases h : c z x with
            | false => rfl
            | true =>
              rcases hc.cotrans z y x h with h1 | h1
              · rw [hyz2] at h1
                exact absurd h1 (by simp)
              · rw [hxy2] at h1
                exact absurd h1 (by simp)
    · intro x y z hxz
      rw [composite_lt_cons] at hxz
      rw [composite_lt_cons, composite_lt_cons]
      rcases hxz with hxz | ⟨hxz1, hxz2, hxz3⟩
      · rcases hc.cotrans x y z hxz with h | h
        · exact Or.inl (Or.inl h)
        · exact Or.inr (Or.inl h)
      · cases hxy : c x y with
        | true => exact Or.inl (Or.inl rfl)
        | false =>
          cases hyz : c y z with
          | true => exact Or.inr (Or.inl rfl)
          | false =>
            have hyx : c y x = false := by
              cases h : c y x with
              | false => rfl
              | true =>
                rcases hc.cotrans y z x h with h1 | h1
                · rw [hyz] at h1
                  exact absurd h1 (by simp)
                · rw [hxz2] at h1
                  exact absurd h1 (by simp)
            have hzy : c z y = false := by
              cases h : c z y with
              | false => rfl
              | true =>
                rcases hc.cotrans z x y h with h1 | h1
                · rw [hxz2] at h1
                  exact absurd h1 (by simp)
                · rw [hxy] at h1
                  exact absurd h1 (by simp)
            rcases hr.cotrans x y z hxz3 with h | h
            · exact Or.inl (Or.inr ⟨rfl, hyx, h⟩)
            · exact Or.inr (Or.inr ⟨rfl, hzy, h⟩)

theorem composite_lt_incomparable {R : Type} (cs : List (R → R → Bool)) (x y : R)
    (hxy : composite_lt cs x y = false) (hyx : composite_lt cs y x = false) :
    ∀ c ∈ cs, c x y = false ∧ c y x = false := by
  induction cs with
  | nil => intro c hc; simp at hc
  | cons d ds ih =>
    simp only [composite_lt] at hxy hyx
    cases h1 : d x y <;> cases h2 : d y x <;> simp [h1, h2] at hxy hyx
    intro c hc
    rcases List.mem_cons.1 hc with rfl | hc
    · exact ⟨h1, h2⟩
    · exact ih hxy hyx c hc

theorem tag_key_lt_strict_weak (k : tag_key) : strict_weak k.lt := by
  cases k
  · exact strict_weak_of_linear (fun x : tag_object => x.id)
  · exact strict_weak_of_linear (fun x : tag_object => x.name)
  · exact strict_weak_of_linear (fun x : tag_object => x.created)
  · exact strict_weak_of_linear (fun x : tag_object => x.active)
  · exact strict_weak_of_linear (fun x : tag_object => x.cashout)
  · exact strict_weak_of_linear (fun x : tag_object => x.net_rshares)
  · exact strict_weak_of_linear (fun x : tag_object => x.net_votes)
  · exact strict_weak_of_linear (fun x : tag_object => x.children)
  · exact strict_weak_of_linear (fun x : tag_object => x.hot)
  · exact strict_weak_of_linear (fun x : tag_object => x.trending)
  · exact strict_weak_of_linear (fun x : tag_object => x.promoted_balance)
  · exact strict_weak_of_linear (fun x : tag_object => x.children_rshares2)
  · exact strict_weak_of_linear (fun x : tag_object => x.author)
  · exact strict_weak_of_linear (fun x : tag_object => x.parent)
  · exact strict_weak_of_linear (fun x : tag_object => x.comment)
  · exact strict_weak_of_linear (fun x : tag_object => x.is_post)

theorem tag_index_lt_strict_weak (t : tag_index_tag) : strict_weak (tag_index_lt t) := by
  apply composite_lt_strict_weak
  intro c hc
  rcases List.mem_map.1 hc with ⟨p, _, rfl⟩
  exact strict_weak_apply (tag_key_lt_strict_weak p.1) p.2

theorem tag_index_keys_id_mem (t : tag_index_tag) :
    (tag_key.id, key_order.less) ∈ tag_index_keys t := by
  cases t <;> simp [tag_index_keys]

theorem tag_index_lt_total (t : tag_index_tag) (x y : tag_object) (h : x.id ≠ y.id) :
    tag_index_lt t x y = true ∨ tag_index_lt t y x = true := by
  by_contra hcon
  simp only [not_or, Bool.not_eq_true] at hcon
  have := composite_lt_incomparable _ x y hcon.1 hcon.2 (tag_key_part (tag_key.id, key_order.less))
    (List.mem_map.2 ⟨_, tag_index_keys_id_mem t, rfl⟩)
  simp only [tag_key_part, key_order.apply, tag_key.lt, decide_eq_false_iff_not, not_lt] at this
  exact h (le_antisymm this.2 this.1)

/-! ## Ordered insertion -/

theorem perm_ordered_insert {R : Type} (lt : R → R → Bool) (x : R) (l : List R) :
    (ordered_insert lt x l).Perm (x :: l) := by
  induction l with
  | nil => exact List.Perm.refl _
  | cons y l ih =>
    simp only [ordered_insert]
    split
    · exact List.Perm.refl _
    · exact (List.Perm.cons y ih).trans (List.Perm.swap x y l)

theorem mem_ordered_insert {R : Type} (lt : R → R → Bool) (x z : R) (l : List R) :
    z ∈ ordered_insert lt x l ↔ z = x ∨ z ∈ l := by
  rw [(perm_ordered_insert lt x l).mem_iff, List.mem_cons]

theorem pairwise_ordered_insert {R : Type} {lt : R → R → Bool} (h : strict_weak lt) (x : R)
    (l : List R) (hl : l.Pairwise (fun a b => lt a b = true))
    (hx : ∀ y ∈ l, lt x y = true ∨ lt y x = true) :
    (ordered_insert lt x l).Pairwise (fun a b => lt a b = true) := by
  induction l with
  | nil => simp [ordered_insert]
  | cons y l ih =>
    rw [List.pairwise_cons] at hl
    simp only [ordered_insert]
    split
    · rename_i hxy
      refine List.Pairwise.cons ?_ (List.Pairwise.cons hl.1 hl.2)
      intro z hz
      rcases List.mem_cons.1 hz with rfl | hz
      · exact hxy
      · exact h.trans x y z hxy (hl.1 z hz)
    · rename_i hxy
      refine List.Pairwise.cons ?_ (ih hl.2 (fun z hz => hx z (List.mem_cons_of_mem _ hz)))
      intro z hz
      rcases (mem_ordered_insert lt x z l).1 hz with rfl | hz
      · rcases hx y (List.mem_cons_self _ _) with h1 | h1
        · exact absurd h1 hxy
        · exact h1
      · exact hl.1 z hz

/-! ## Invariants of the tag_index container -/

theorem tag_index.consistent_empty : tag_index.empty.consistent :=
  ⟨List.Pairwise.nil, fun _ => List.Perm.refl _, fun _ => List.Pairwise.nil⟩

theorem tag_index.consistent_unlink (s : tag_index) (h : s.consistent) (id : object_id) :
    (s.unlink id).consistent :=
  ⟨h.ids.filter _, fun t => (h.same t).filter _, fun t => (h.sorted t).filter _⟩

theorem tag_index.consistent_link (s : tag_index) (h : s.consistent) (x : tag_object)
    (hx : ∀ y ∈ s.by_id, y.id ≠ x.id) : (s.link x).consistent := by
  refine ⟨?_, ?_, ?_⟩
  · apply pairwise_ordered_insert (tag_key_lt_strict_weak tag_key.id) x _ h.ids
    intro y hy
    simp only [tag_key.lt, decide_eq_true_eq]
    exact lt_or_gt_of_ne (fun e => hx y hy e.symm)
  · intro t
    exact (perm_ordered_insert _ x _).trans
      (((h.same t).cons x).trans (perm_ordered_insert _ x _).symm)
  · intro t
    apply pairwise_ordered_insert (tag_index_lt_strict_weak t) x _ (h.sorted t)
    intro y hy
    exact tag_index_lt_total t x y (fun e => hx y ((h.same t).mem_iff.1 hy) e.symm)

theorem key_conflict_eq_false {R : Type} (lt : R → R → Bool) (x : R) (l : List R)
    (h : key_conflict lt x l = false) : ∀ y ∈ l, lt x y = true ∨ lt y x = true := by
  intro y hy
  simp only [key_conflict, List.any_eq_false, Bool.and_eq_true, Bool.not_eq_true', not_and,
    Bool.not_eq_false] at h
  cases hxy : lt x y with
  | true => exact Or.inl rfl
  | false => exact Or.inr (h y hy hxy)

theorem tag_index.consistent_insert (s : tag_index) (h : s.consistent) (r : tag_object)
    (i : object_id) (s1 : tag_index) (hs : s.insert r = Except.ok (i, s1)) : s1.consistent := by
  unfold tag_index.insert at hs
  split at hs
  · exact absurd hs (by simp)
  · rename_i hv
    simp only [Except.ok.injEq, Prod.mk.injEq] at hs
    rw [← hs.2]
    have hc : key_conflict tag_key.id.lt (s.created r) s.by_id = false := by
      simp only [tag_index.violates, Bool.or_eq_true, not_or, Bool.not_eq_true] at hv
      exact hv.1
    have hl : (s.link (s.created r)).consistent := by
      apply tag_index.consistent_link s h
      intro y hy e
      have := key_conflict_eq_false _ _ _ hc y hy
      simp only [tag_key.lt, decide_eq_true_eq, e, lt_self_iff_false, or_self] at this
    exact ⟨hl.ids, hl.same, hl.sorted⟩

theorem tag_index.consistent_update (s : tag_index) (h : s.consistent) (id : object_id)
    (m : tag_object → tag_object) (s1 : tag_index) (hs : s.update id m = Except.ok s1) :
    s1.consistent := by
  unfold tag_index.update at hs
  split at hs
  · exact absurd hs (by simp)
  · rename_i x hx
    simp only [Except.ok.injEq] at hs
    rw [← hs]
    apply tag_index.consistent_link _ (tag_index.consistent_unlink s h id)
    intro y hy
    have hxid : x.id = id := by
      have := List.find?_some hx
      simpa using this
    simp only [tag_index.unlink, List.mem_filter, bne_iff_ne, ne_eq] at hy
    simp only [tag_index.mutated, hxid]
    exact hy.2

theorem tag_index.consistent_remove (s : tag_index) (h : s.consistent) (id : object_id)
    (s1 : tag_index) (hs : s.remove id = Except.ok s1) : s1.consistent := by
  unfold tag_index.remove at hs
  split at hs
  · exact absurd hs (by simp)
  · simp only [Except.ok.injEq] at hs
    rw [← hs]
    exact tag_index.consistent_unlink s h id

theorem tag_index.consistent_apply (s : tag_index) (h : s.consistent) (op : tag_index_op) :
    (s.apply op).consistent := by
  cases op with
  | insert r =>
    simp only [tag_index.apply]
    split
    · rename_i i s1 hs
      exact tag_index.consistent_insert s h r i s1 hs
    · exact h
  | update id m =>
    simp only [tag_index.apply]
    split
    · rename_i s1 hs
      exact tag_index.consistent_update s h id m s1 hs
    · exact h
  | remove id =>
    simp only [tag_index.apply]
    split
    · rename_i s1 hs
      exact tag_index.consistent_remove s h id s1 hs
    · exact h

theorem tag_index.consistent_run (ops : List tag_index_op) (s : tag_index) (h : s.consistent) :
    (s.run ops).consistent := by
  induction ops generalizing s with
  | nil => exact h
  | cons op ops ih => exact ih (s.apply op) (tag_index.consistent_apply s h op)

/-- Three insertions under "test" with net_rshares 100, 50 and 200, an update of the second
entry to 500 and the removal of the first: the store assigns the ids 0, 1 and 2, and
`by_net_rshares` lists the entry 1 (500) before the entry 2 (200). -/
theorem tag_index_run_example :
    ((tag_index.empty.run [tag_index_op.insert (test_entry 9 100),
        tag_index_op.insert (test_entry 9 50), tag_index_op.insert (test_entry 9 200),
        tag_index_op.update 1 (fun x => { x with net_rshares := 500 }),
        tag_index_op.remove 0]).secondary tag_index_tag.by_net_rshares).map
      (fun x => (x.id, x.net_rshares)) = [(1, 500), (2, 200)] := by
  decide

/-- With finite `hot` and `trending`: after every finite sequence of insert, update and
remove operations on an initially empty `tag_index`, each secondary index lists exactly the
live entries (those of the primary index) and lists them strictly ascending in its own
composite-key order. -/
theorem tag_index_sorted_after_ops (ops : List tag_index_op) (t : tag_index_tag) :
    ((tag_index.empty.run ops).secondary t).Perm (tag_index.empty.run ops).by_id ∧
    in_index_order t ((tag_index.empty.run ops).secondary t) :=
  ⟨(tag_index.consistent_run ops _ tag_index.consistent_empty).same t,
    (tag_index.consistent_run ops _ tag_index.consistent_empty).sorted t⟩

/-! ## The orderings of tag_index -/

/-- C2: each of the fifteen composite orderings of `tag_index` is irreflexive and
transitive, and of two entries with different ids exactly one is placed before the other,
whatever their other fields are. -/
theorem tag_index_strict_total_order (t : tag_index_tag) :
    (∀ x, tag_index_lt t x x = false) ∧
    (∀ x y z, tag_index_lt t x y = true → tag_index_lt t y z = true →
      tag_index_lt t x z = true) ∧
    (∀ x y, x.id ≠ y.id →
      (tag_index_lt t x y = true ∧ tag_index_lt t y x = false) ∨
      (tag_index_lt t y x = true ∧ tag_index_lt t x y = false)) := by
  have h := tag_index_lt_strict_weak t
  refine ⟨h.irrefl, h.trans, ?_⟩
  intro x y hid
  rcases tag_index_lt_total t x y hid with hxy | hyx
  · exact Or.inl ⟨hxy, h.asymm x y hxy⟩
  · exact Or.inr ⟨hyx, h.asymm y x hyx⟩

/-- Witness of `tag_index_strict_total_order`: two entries that differ in the id only, in
the `by_parent_hot` ordering. -/
theorem tag_index_strict_total_order_witness :
    (test_entry 0 7).id ≠ (test_entry 1 7).id ∧
    ((tag_index_lt tag_index_tag.by_parent_hot (test_entry 0 7) (test_entry 1 7) = true ∧
        tag_index_lt tag_index_tag.by_parent_hot (test_entry 1 7) (test_entry 0 7) = false) ∨
      (tag_index_lt tag_index_tag.by_parent_hot (test_entry 1 7) (test_entry 0 7) = true ∧
        tag_index_lt tag_index_tag.by_parent_hot (test_entry 0 7) (test_entry 1 7) = false)) :=
  ⟨by decide,
    (tag_index_strict_total_order tag_index_tag.by_parent_hot).2.2 _ _ (by decide)⟩

theorem incomparable_iff_eq {α : Type} [LinearOrder α] (a b : α) (P : Prop) :
    (¬ a < b ∧ ¬ b < a ∧ P) ↔ (a = b ∧ P) := by
  constructor
  · rintro ⟨h1, h2, h3⟩
    exact ⟨le_antisymm (not_lt.1 h2) (not_lt.1 h1), h3⟩
  · rintro ⟨rfl, h3⟩
    exact ⟨lt_irrefl _, lt_irrefl _, h3⟩

theorem by_parent_shape {α : Type} [LinearOrder α] (f : tag_object → α)
    (c : tag_object → tag_object → Bool) (hc : ∀ x y, c x y = decide (f x < f y))
    (a b : tag_object) :
    composite_lt [key_order.less.apply tag_key.name.lt, key_order.less.apply tag_key.parent.lt,
      key_order.greater.apply c, key_order.less.apply tag_key.id.lt] a b = true ↔
      (a.name < b.name ∨ (a.name = b.name ∧ a.parent < b.parent)) ∨
      (a.name = b.name ∧ a.parent = b.parent ∧ f a > f b) ∨
      (a.name = b.name ∧ a.parent = b.parent ∧ f a = f b ∧ a.id < b.id) := by
  simp only [composite_lt_cons, key_order.apply, tag_key.lt, hc, decide_eq_true_eq,
    decide_eq_false_iff_not, incomparable_iff_eq, gt_iff_lt]
  simp only [composite_lt, Bool.false_eq_true, and_false, or_false]
  constructor
  · rintro (h | ⟨h1, h | ⟨h2, h | ⟨h3, h⟩⟩⟩)
    · exact Or.inl (Or.inl h)
    · exact Or.inl (Or.inr ⟨h1, h⟩)
    · exact Or.inr (Or.inl ⟨h1, h2, h⟩)
    · exact Or.inr (Or.inr ⟨h1, h2, h3.symm, h⟩)
  · rintro ((h | ⟨h1, h⟩) | ⟨h1, h2, h⟩ | ⟨h1, h2, h3, h⟩)
    · exact Or.inl h
    · exact Or.inr ⟨h1, Or.inl h⟩
    · exact Or.inr ⟨h1, Or.inr ⟨h2, Or.inl h⟩⟩
    · exact Or.inr ⟨h1, Or.inr ⟨h2, Or.inr ⟨h3.symm, h⟩⟩⟩

/-- With finite `hot` and `trending`: for each of the nine ranking fields X, `by_parent_X`
places `a` before `b` exactly when (name, parent) of `a` is lexicographically smaller, or
these are equal and `a` has the greater X, or these and X are equal and `a` has the smaller
id. -/
theorem by_parent_orderings (a b : tag_object) :
    (tag_index_lt tag_index_tag.by_parent_created a b = true ↔
      (a.name < b.name ∨ (a.name = b.name ∧ a.parent < b.parent)) ∨
      (a.name = b.name ∧ a.parent = b.parent ∧ a.created > b.created) ∨
      (a.name = b.name ∧ a.parent = b.parent ∧ a.created = b.created ∧ a.id < b.id)) ∧
    (tag_index_lt tag_index_tag.by_parent_active a b = true ↔
      (a.name < b.name ∨ (a.name = b.name ∧ a.parent < b.parent)) ∨
      (a.name = b.name ∧ a.parent = b.parent ∧ a.active > b.active) ∨
      (a.name = b.name ∧ a.parent = b.parent ∧ a.active = b.active ∧ a.id < b.id)) ∧
    (tag_index_lt tag_index_tag.by_parent_promoted a b = true ↔
      (a.name < b.name ∨ (a.name = b.name ∧ a.parent < b.parent)) ∨
      (a.name = b.name ∧ a.parent = b.parent ∧ a.promoted_balance > b.promoted_balance) ∨
      (a.name = b.name ∧ a.parent = b.parent ∧ a.promoted_balance = b.promoted_balance ∧ a.id < b.id)) ∧
    (tag_index_lt tag_index_tag.by_parent_net_rshares a b = true ↔
      (a.name < b.name ∨ (a.name = b.name ∧ a.parent < b.parent)) ∨
      (a.name = b.name ∧ a.parent = b.parent ∧ a.net_rshares > b.net_rshares) ∨
      (a.name = b.name ∧ a.parent = b.parent ∧ a.net_rshares = b.net_rshares ∧ a.id < b.id)) ∧
    (tag_index_lt tag_index_tag.by_parent_net_votes a b = true ↔
      (a.name < b.name ∨ (a.name = b.name ∧ a.parent < b.parent)) ∨
      (a.name = b.name ∧ a.parent = b.parent ∧ a.net_votes > b.net_votes) ∨
      (a.name = b.name ∧ a.parent = b.parent ∧ a.net_votes = b.net_votes ∧ a.id < b.id)) ∧
    (tag_index_lt tag_index_tag.by_parent_children a b = true ↔
      (a.name < b.name ∨ (a.name = b.name ∧ a.parent < b.parent)) ∨
      (a.name = b.name ∧ a.parent = b.parent ∧ a.children > b.children) ∨
      (a.name = b.name ∧ a.parent = b.parent ∧ a.children = b.children ∧ a.id < b.id)) ∧
    (tag_index_lt tag_index_tag.by_parent_hot a b = true ↔
      (a.name < b.name ∨ (a.name = b.name ∧ a.parent < b.parent)) ∨
      (a.name = b.name ∧ a.parent = b.parent ∧ a.hot > b.hot) ∨
      (a.name = b.name ∧ a.parent = b.parent ∧ a.hot = b.hot ∧ a.id < b.id)) ∧
    (tag_index_lt tag_index_tag.by_parent_trending a b = true ↔
      (a.name < b.name ∨ (a.name = b.name ∧ a.parent < b.parent)) ∨
      (a.name = b.name ∧ a.parent = b.parent ∧ a.trending > b.trending) ∨
      (a.name = b.name ∧ a.parent = b.parent ∧ a.trending = b.trending ∧ a.id < b.id)) ∧
    (tag_index_lt tag_index_tag.by_parent_children_rshares2 a b = true ↔
      (a.name < b.name ∨ (a.name = b.name ∧ a.parent < b.parent)) ∨
      (a.name = b.name ∧ a.parent = b.parent ∧ a.children_rshares2 > b.children_rshares2) ∨
      (a.name = b.name ∧ a.parent = b.parent ∧ a.children_rshares2 = b.children_rshares2 ∧ a.id < b.id)) := by
  refine ⟨?_, ?_, ?_, ?_, ?_, ?_, ?_, ?_, ?_⟩
  · exact by_parent_shape (fun x => x.created) tag_key.created.lt (fun _ _ => rfl) a b
  · exact by_parent_shape (fun x => x.active) tag_key.active.lt (fun _ _ => rfl) a b
  · exact by_parent_shape (fun x => x.promoted_balance) tag_key.promoted_balance.lt
      (fun _ _ => rfl) a b
  · exact by_parent_shape (fun x => x.net_rshares) tag_key.net_rshares.lt (fun _ _ => rfl) a b
  · exact by_parent_shape (fun x => x.net_votes) tag_key.net_votes.lt (fun _ _ => rfl) a b
  · exact by_parent_shape (fun x => x.children) tag_key.children.lt (fun _ _ => rfl) a b
  · exact by_parent_shape (fun x => x.hot) tag_key.hot.lt (fun _ _ => rfl) a b
  · exact by_parent_shape (fun x => x.trending) tag_key.trending.lt (fun _ _ => rfl) a b
  · exact by_parent_shape (fun x => x.children_rshares2) tag_key.children_rshares2.lt
      (fun _ _ => rfl) a b

/-! ## Position of the id in the declared keys -/

/-- C3 fails as stated: the last key component of `by_voter_peer` of `peer_stats_index` is
`peer`, of `by_tag` of `tag_stats_index` it is `tag`, and of `by_author_tag_posts` of
`author_tag_stats_index` it is `total_posts`; none of them is the id. -/
theorem id_last_counterexample :
    last_key (peer_stats_index_keys peer_stats_index_tag.by_voter_peer) = some peer_stats_key.peer ∧
    last_key (peer_stats_index_keys peer_stats_index_tag.by_voter_peer) ≠ some peer_stats_key.id ∧
    last_key (tag_stats_index_keys tag_stats_index_tag.by_tag) ≠ some tag_stats_key.id ∧
    last_key (author_tag_stats_index_keys author_tag_stats_index_tag.by_author_tag_posts) ≠
      some author_tag_stats_key.id := by
  decide

/-- C3 (amended): in every secondary ordering of `tag_index` the id is the last component of
the composite key, compared with `std::less`; no secondary ordering of `tag_stats_index`,
`peer_stats_index` or `author_tag_stats_index` has the id among its key components. -/
theorem id_last_in_tag_index_only :
    (∀ t : tag_index_tag, (tag_index_keys t).getLast? = some (tag_key.id, key_order.less)) ∧
    (∀ t : tag_stats_index_tag, tag_stats_key.id ∉ key_members (tag_stats_index_keys t)) ∧
    (∀ t : peer_stats_index_tag, peer_stats_key.id ∉ key_members (peer_stats_index_keys t)) ∧
    (∀ t : author_tag_stats_index_tag,
      author_tag_stats_key.id ∉ key_members (author_tag_stats_index_keys t)) := by
  refine ⟨?_, ?_, ?_, ?_⟩ <;> intro t <;> cases t <;> decide

/-! ## update_rank -/

theorem wrap_int32_add_eq_zero (a b : Int) (ha : 0 ≤ a) (hb : 0 ≤ b) (ha2 : a < 2 ^ 31)
    (hb2 : b < 2 ^ 31) : wrap_int32 (a + b) = 0 ↔ a = 0 ∧ b = 0 := by
  unfold wrap_int32
  omega

/-- C9 fails as stated: with one positive direct vote and minus one positive indirect votes
(both totals two) the counts are not both zero, yet `update_rank` flips the sign, so the
rank is not the value the formula gives with `s = +1`. -/
theorem update_rank_sign_counterexample :
    1 ≤ (peer_stats_cancelling ℝ).direct_votes ∧ 1 ≤ (peer_stats_cancelling ℝ).indirect_votes ∧
    ¬ ((peer_stats_cancelling ℝ).direct_positive_votes = 0 ∧
      (peer_stats_cancelling ℝ).indirect_positive_votes = 0) ∧
    ((peer_stats_cancelling ℝ).update_rank Real.log).rank ≠
      1 * (10 * ((((peer_stats_cancelling ℝ).direct_positive_votes : Int) : ℝ) /
          (((peer_stats_cancelling ℝ).direct_votes : Int) : ℝ)) ^ 2 *
            Real.log (((peer_stats_cancelling ℝ).direct_votes : Int) : ℝ) +
        ((((peer_stats_cancelling ℝ).indirect_positive_votes : Int) : ℝ) /
          (((peer_stats_cancelling ℝ).indirect_votes : Int) : ℝ)) ^ 2 *
            Real.log (((peer_stats_cancelling ℝ).indirect_votes : Int) : ℝ)) := by
  have hlog : 0 < Real.log 2 := Real.log_pos (by norm_num)
  refine ⟨by decide, by decide, by decide, ?_⟩
  have hflip : wrap_int32 (1 + -1) = 0 := by decide
  simp only [peer_stats_object.update_rank, peer_stats_object.rank_terms, peer_stats_cancelling,
    hflip, beq_self_eq_true, if_true]
  intro h
  norm_num at h
  nlinarith

/-- C9 (amended): over the reals, for a record with both vote totals at least one,
`update_rank` sets rank to `s * (10 * (dp/dv)^2 * log dv + (ip/iv)^2 * log iv)` where `s` is
`-1` when the 32-bit sum of the two positive counts is zero and `+1` otherwise, and changes no
other member; for non-negative counts in the `int32_t` range the sum is zero exactly when both
counts are zero. -/
theorem update_rank_formula (p : peer_stats_object ℝ) (_hd : 1 ≤ p.direct_votes)
    (_hi : 1 ≤ p.indirect_votes) :
    (p.update_rank Real.log).rank =
      (if wrap_int32 (p.direct_positive_votes + p.indirect_positive_votes) = 0 then (-1 : ℝ)
        else 1) *
      (10 * ((p.direct_positive_votes : ℝ) / (p.direct_votes : ℝ)) ^ 2 *
          Real.log (p.direct_votes : ℝ) +
        ((p.indirect_positive_votes : ℝ) / (p.indirect_votes : ℝ)) ^ 2 *
          Real.log (p.indirect_votes : ℝ)) ∧
    ((p.update_rank Real.log).id = p.id ∧ (p.update_rank Real.log).voter = p.voter ∧
      (p.update_rank Real.log).peer = p.peer ∧
      (p.update_rank Real.log).direct_positive_votes = p.direct_positive_votes ∧
      (p.update_rank Real.log).direct_votes = p.direct_votes ∧
      (p.update_rank Real.log).indirect_positive_votes = p.indirect_positive_votes ∧
      (p.update_rank Real.log).indirect_votes = p.indirect_votes) ∧
    (0 ≤ p.direct_positive_votes → 0 ≤ p.indirect_positive_votes →
      p.direct_positive_votes < 2 ^ 31 → p.indirect_positive_votes < 2 ^ 31 →
      (wrap_int32 (p.direct_positive_votes + p.indirect_positive_votes) = 0 ↔
        p.direct_positive_votes = 0 ∧ p.indirect_positive_votes = 0)) := by
  refine ⟨?_, ⟨rfl, rfl, rfl, rfl, rfl, rfl, rfl⟩, wrap_int32_add_eq_zero _ _⟩
  simp only [peer_stats_object.update_rank, peer_stats_object.rank_terms, beq_iff_eq]
  split_ifs <;> ring

/-- Witness of `update_rank_formula` at a record with votes 3/4 and 1/2. -/
theorem update_rank_formula_witness :
    1 ≤ (peer_stats_sample ℝ).direct_votes ∧ 1 ≤ (peer_stats_sample ℝ).indirect_votes ∧
    ((peer_stats_sample ℝ).update_rank Real.log).rank =
      (if wrap_int32 ((peer_stats_sample ℝ).direct_positive_votes +
          (peer_stats_sample ℝ).indirect_positive_votes) = 0 then (-1 : ℝ) else 1) *
      (10 * (((peer_stats_sample ℝ).direct_positive_votes : ℝ) /
          ((peer_stats_sample ℝ).direct_votes : ℝ)) ^ 2 *
          Real.log ((peer_stats_sample ℝ).direct_votes : ℝ) +
        (((peer_stats_sample ℝ).indirect_positive_votes : ℝ) /
          ((peer_stats_sample ℝ).indirect_votes : ℝ)) ^ 2 *
          Real.log ((peer_stats_sample ℝ).indirect_votes : ℝ)) :=
  ⟨by decide, by decide,
    (update_rank_formula (peer_stats_sample ℝ) (by decide) (by decide)).1⟩

/-- C10: `update_rank` on the seed record yields rank zero with both terms zero, and so it
does on every record whose two positive counts are zero and whose totals are at least one. -/
theorem update_rank_zero {F : Type} [Field F] (log : F → F) :
    (∀ id voter peer : object_id,
      (peer_stats_seed F id voter peer).rank_terms log = (0, 0) ∧
      ((peer_stats_seed F id voter peer).update_rank log).rank = 0) ∧
    (∀ p : peer_stats_object F, p.direct_positive_votes = 0 → p.indirect_positive_votes = 0 →
      1 ≤ p.direct_votes → 1 ≤ p.indirect_votes →
      p.rank_terms log = (0, 0) ∧ (p.update_rank log).rank = 0) := by
  have key : ∀ p : peer_stats_object F, p.direct_positive_votes = 0 →
      p.indirect_positive_votes = 0 →
      p.rank_terms log = (0, 0) ∧ (p.update_rank log).rank = 0 := by
    intro p h1 h2
    have ht : p.rank_terms log = (0, 0) := by
      simp [peer_stats_object.rank_terms, h1, h2]
    exact ⟨ht, by simp [peer_stats_object.update_rank, ht]⟩
  exact ⟨fun id voter peer => key _ rfl rfl, fun p h1 h2 _ _ => key p h1 h2⟩

/-- Witness of `update_rank_zero` over the reals: a record with no positive vote among
five direct and seven indirect votes. -/
theorem update_rank_zero_witness :
    (({ id := 3, voter := 1, peer := 2, direct_positive_votes := 0, direct_votes := 5,
        indirect_positive_votes := 0, indirect_votes := 7, rank := 9 } :
      peer_stats_object ℝ).update_rank Real.log).rank = 0 :=
  ((update_rank_zero Real.log).2 _ rfl rfl (by decide) (by decide)).2

/-! ## Listings in index order -/

theorem by_net_rshares_iff (x y : tag_object) :
    tag_index_lt tag_index_tag.by_net_rshares x y = true ↔
      x.name < y.name ∨ (x.name = y.name ∧ net_rshares_desc x y) := by
  simp only [tag_index_lt, tag_index_keys, List.map, tag_key_part, composite_lt_cons,
    key_order.apply, tag_key.lt, decide_eq_true_eq, decide_eq_false_iff_not,
    incomparable_iff_eq, net_rshares_desc, gt_iff_lt]
  simp only [composite_lt, Bool.false_eq_true, and_false, or_false]
  constructor
  · rintro (h | ⟨h1, h | ⟨h2, h⟩⟩)
    · exact Or.inl h
    · exact Or.inr ⟨h1, Or.inl h⟩
    · exact Or.inr ⟨h1, Or.inr ⟨h2.symm, h⟩⟩
  · rintro (h | ⟨h1, h | ⟨h2, h⟩⟩)
    · exact Or.inl h
    · exact Or.inr ⟨h1, Or.inl h⟩
    · exact Or.inr ⟨h1, Or.inr ⟨h2.symm, h⟩⟩

theorem by_cashout_iff (x y : tag_object) :
    tag_index_lt tag_index_tag.by_cashout x y = true ↔
      x.name < y.name ∨ (x.name = y.name ∧ cashout_asc x y) := by
  simp only [tag_index_lt, tag_index_keys, List.map, tag_key_part, composite_lt_cons,
    key_order.apply, tag_key.lt, decide_eq_true_eq, decide_eq_false_iff_not,
    incomparable_iff_eq, cashout_asc]
  simp only [composite_lt, Bool.false_eq_true, and_false, or_false]

theorem by_reward_fund_net_rshares_iff (x y : tag_object) :
    tag_index_lt tag_index_tag.by_reward_fund_net_rshares x y = true ↔
      x.name < y.name ∨ (x.name = y.name ∧
        ((x.is_post = false ∧ y.is_post = true) ∨
          (x.is_post = y.is_post ∧ net_rshares_desc x y))) := by
  simp only [tag_index_lt, tag_index_keys, List.map, tag_key_part, composite_lt_cons,
    key_order.apply, tag_key.lt, decide_eq_true_eq, decide_eq_false_iff_not,
    incomparable_iff_eq, net_rshares_desc, gt_iff_lt]
  simp only [composite_lt, Bool.false_eq_true, and_false, or_false, Bool.lt_iff]
  constructor
  · rintro (h | ⟨h1, h | ⟨h2, h | ⟨h3, h⟩⟩⟩)
    · exact Or.inl h
    · exact Or.inr ⟨h1, Or.inl h⟩
    · exact Or.inr ⟨h1, Or.inr ⟨h2, Or.inl h⟩⟩
    · exact Or.inr ⟨h1, Or.inr ⟨h2, Or.inr ⟨h3.symm, h⟩⟩⟩
  · rintro (h | ⟨h1, h | ⟨h2, h | ⟨h3, h⟩⟩⟩)
    · exact Or.inl h
    · exact Or.inr ⟨h1, Or.inl h⟩
    · exact Or.inr ⟨h1, Or.inr ⟨h2, Or.inl h⟩⟩
    · exact Or.inr ⟨h1, Or.inr ⟨h2, Or.inr ⟨h3.symm, h⟩⟩⟩

theorem pairwise_filter_split {R : Type} {r : R → R → Prop} (p : R → Bool) (l : List R)
    (hl : l.Pairwise r) (hp : ∀ x y, r x y → p y = true → p x = true) :
    l = l.filter p ++ l.filter (fun x => !p x) ∧ l.filter p = l.takeWhile p := by
  induction l with
  | nil => simp
  | cons x l ih =>
    rw [List.pairwise_cons] at hl
    obtain ⟨ih1, ih2⟩ := ih hl.2
    cases hx : p x with
    | true =>
      simp only [List.filter_cons, hx, if_true, Bool.not_true, Bool.false_eq_true, if_false,
        List.takeWhile_cons, List.cons_append]
      exact ⟨congrArg _ ih1, congrArg _ ih2⟩
    | false =>
      have hnone : ∀ y ∈ l, p y = false := by
        intro y hy
        cases hy2 : p y with
        | false => rfl
        | true =>
          have := hp x y (hl.1 y hy) hy2
          rw [hx] at this
          exact absurd this (by simp)
      have h1 : l.filter p = [] := List.filter_eq_nil_iff.2 (fun y hy => by simp [hnone y hy])
      have h2 : l.filter (fun x => !p x) = l :=
        List.filter_eq_self.2 (fun y hy => by simp [hnone y hy])
      simp [List.filter_cons, hx, h1, h2, List.takeWhile_cons]

theorem tag_index_lt_antisymm (t : tag_index_tag) :
    IsAntisymm tag_object (fun x y => tag_index_lt t x y = true) :=
  ⟨fun x y hxy hyx => by
    rw [(tag_index_lt_strict_weak t).asymm x y hxy] at hyx
    exact absurd hyx (by simp)⟩

/-- C4: a listing in `by_net_rshares` order of entries that share one tag name is in
non-increasing net_rshares with ties in ascending id; and the only listing in that order of
three entries under "test" with net_rshares 100, 50 and 200 is the 200-entry, the 100-entry,
the 50-entry. -/
theorem by_net_rshares_listing :
    (∀ (l : List tag_object) (n : tag_name_type),
      in_index_order tag_index_tag.by_net_rshares l → (∀ x ∈ l, x.name = n) →
      l.Pairwise net_rshares_desc) ∧
    (∀ l : List tag_object,
      l.Perm [test_entry 0 100, test_entry 1 50, test_entry 2 200] →
      in_index_order tag_index_tag.by_net_rshares l →
      l = [test_entry 2 200, test_entry 0 100, test_entry 1 50]) := by
  constructor
  · intro l n hl hn
    have h2 : l.Pairwise (fun x y => x ∈ l → y ∈ l → net_rshares_desc x y) := by
      refine hl.imp ?_
      intro x y hxy hx hy
      rcases (by_net_rshares_iff x y).1 hxy with h | h
      · rw [hn x hx, hn y hy] at h
        exact absurd h (lt_irrefl _)
      · exact h.2
    exact (List.pairwise_iff_forall_sublist.2 (fun {a b} hab =>
      List.pairwise_iff_forall_sublist.1 h2 hab (hab.subset (by simp)) (hab.subset (by simp))))
  · intro l hp hl
    haveI := tag_index_lt_antisymm tag_index_tag.by_net_rshares
    have hs : in_index_order tag_index_tag.by_net_rshares
        [test_entry 2 200, test_entry 0 100, test_entry 1 50] := by decide
    have hp2 : l.Perm [test_entry 2 200, test_entry 0 100, test_entry 1 50] :=
      hp.trans (((List.Perm.swap _ _ _).cons _).trans (List.Perm.swap _ _ _))
    exact List.eq_of_perm_of_sorted hp2 hl hs

/-- Witness of `by_net_rshares_listing`: the listing 200, 100, 50 is in index order, holds
the three entries, and its net_rshares do not increase. -/
theorem by_net_rshares_listing_witness :
    in_index_order tag_index_tag.by_net_rshares
      [test_entry 2 200, test_entry 0 100, test_entry 1 50] ∧
    [test_entry 2 200, test_entry 0 100, test_entry 1 50].Pairwise net_rshares_desc :=
  ⟨by decide, by_net_rshares_listing.1 _ tag_test (by decide) (by decide)⟩

/-- C6: in a listing in `by_cashout` order the entries of one tag name are contiguous (the
entries of smaller names, then the range of the name, then the entries of greater names), the
range is in non-decreasing cashout time with ties in ascending id, and for every time `t` the
entries of the range with cashout at most `t` are an initial segment of the range. -/
theorem by_cashout_ranges (l : List tag_object) (h : in_index_order tag_index_tag.by_cashout l)
    (n : tag_name_type) :
    l = l.filter (fun x => decide (x.name < n)) ++ tag_range n l ++
      l.filter (fun x => decide (n < x.name)) ∧
    (tag_range n l).Pairwise cashout_asc ∧
    (∀ t : time_point_sec,
      (tag_range n l).filter (fun x => decide (x.cashout ≤ t)) <+: tag_range n l ∧
      (tag_range n l).filter (fun x => decide (x.cashout ≤ t)) =
        (tag_range n l).takeWhile (fun x => decide (x.cashout ≤ t))) := by
  have hname : l.Pairwise (fun x y => x.name ≤ y.name) := by
    refine List.Pairwise.imp ?_ h
    intro x y hxy
    rcases (by_cashout_iff x y).1 hxy with h1 | h1
    · exact le_of_lt h1
    · exact le_of_eq h1.1
  have hrange : (tag_range n l).Pairwise cashout_asc := by
    have h2 : (tag_range n l).Pairwise (fun x y => tag_index_lt tag_index_tag.by_cashout x y = true) :=
      List.Pairwise.filter _ h
    have h3 : (tag_range n l).Pairwise
        (fun x y => x ∈ tag_range n l → y ∈ tag_range n l → cashout_asc x y) := by
      refine h2.imp ?_
      intro x y hxy hx hy
      simp only [tag_range, List.mem_filter, beq_iff_eq] at hx hy
      rcases (by_cashout_iff x y).1 hxy with h1 | h1
      · rw [hx.2, hy.2] at h1
        exact absurd h1 (lt_irrefl _)
      · exact h1.2
    exact (List.pairwise_iff_forall_sublist.2 (fun {a b} hab =>
      List.pairwise_iff_forall_sublist.1 h3 hab (hab.subset (by simp)) (hab.subset (by simp))))
  refine ⟨?_, hrange, ?_⟩
  · have s1 := (pairwise_filter_split (fun x => decide (x.name < n)) l hname
      (fun x y hxy hy => by
        simp only [decide_eq_true_eq] at hy ⊢
        exact lt_of_le_of_lt hxy hy)).1
    have hrest : (l.filter (fun x => !decide (x.name < n))).Pairwise (fun x y => x.name ≤ y.name) :=
      List.Pairwise.filter _ hname
    have s2 := (pairwise_filter_split (fun x => decide (x.name ≤ n)) _ hrest
      (fun x y hxy hy => by
        simp only [decide_eq_true_eq] at hy ⊢
        exact le_trans hxy hy)).1
    have e1 : (l.filter (fun x => !decide (x.name < n))).filter (fun x => decide (x.name ≤ n)) =
        tag_range n l := by
      rw [List.filter_filter]
      unfold tag_range
      apply List.filter_congr
      intro x _
      rcases lt_trichotomy x.name n with hx | hx | hx
      · simp [hx, le_of_lt hx, ne_of_lt hx]
      · simp [hx]
      · simp [not_le.2 hx, not_lt.2 (le_of_lt hx), ne_of_gt hx]
    have e2 : (l.filter (fun x => !decide (x.name < n))).filter
        (fun x => !decide (x.name ≤ n)) = l.filter (fun x => decide (n < x.name)) := by
      rw [List.filter_filter]
      apply List.filter_congr
      intro x _
      by_cases hx : n < x.name
      · simp [hx, le_of_lt hx]
      · simp [hx]
    rw [e1, e2] at s2
    rw [List.append_assoc, ← s2]
    exact s1
  · intro t
    have s3 := (pairwise_filter_split (fun x => decide (x.cashout ≤ t)) _ hrange
      (fun x y hxy hy => by
        simp only [decide_eq_true_eq] at hy ⊢
        rcases hxy with h1 | h1
        · exact le_trans (le_of_lt h1) hy
        · exact le_trans (le_of_eq h1.1) hy)).2
    exact ⟨s3 ▸ List.takeWhile_prefix _, s3⟩

/-- Witness of `by_cashout_ranges`: five entries in `by_cashout` order, the range of the tag
name 2 and the time 10. -/
theorem by_cashout_ranges_witness :
    in_index_order tag_index_tag.by_cashout cashout_listing ∧
    (tag_range 2 cashout_listing).Pairwise cashout_asc ∧
    (tag_range 2 cashout_listing).filter (fun x => decide (x.cashout ≤ 10)) <+:
      tag_range 2 cashout_listing :=
  ⟨by decide, (by_cashout_ranges cashout_listing (by decide) 2).2.1,
    ((by_cashout_ranges cashout_listing (by decide) 2).2.2 10).1⟩

/-- C7: in a listing in `by_reward_fund_net_rshares` order the range of one tag name is its
entries with `is_post() = false` followed by its entries with `is_post() = true`, and each of
the two groups is in non-increasing net_rshares with ties in ascending id. -/
theorem by_reward_fund_groups (l : List tag_object)
    (h : in_index_order tag_index_tag.by_reward_fund_net_rshares l) (n : tag_name_type) :
    tag_range n l = (tag_range n l).filter (fun x => !x.is_post) ++
      (tag_range n l).filter (fun x => x.is_post) ∧
    ((tag_range n l).filter (fun x => !x.is_post)).Pairwise net_rshares_desc ∧
    ((tag_range n l).filter (fun x => x.is_post)).Pairwise net_rshares_desc := by
  have hr : (tag_range n l).Pairwise (fun x y => (x.is_post = false ∧ y.is_post = true) ∨
      (x.is_post = y.is_post ∧ net_rshares_desc x y)) := by
    have h2 : (tag_range n l).Pairwise
        (fun x y => tag_index_lt tag_index_tag.by_reward_fund_net_rshares x y = true) :=
      List.Pairwise.filter _ h
    refine List.Pairwise.imp_of_mem ?_ h2
    intro x y hx hy hxy
    simp only [tag_range, List.mem_filter, beq_iff_eq] at hx hy
    rcases (by_reward_fund_net_rshares_iff x y).1 hxy with h1 | h1
    · rw [hx.2, hy.2] at h1
      exact absurd h1 (lt_irrefl _)
    · exact h1.2
  refine ⟨?_, ?_, ?_⟩
  · have s1 := (pairwise_filter_split (fun x => !x.is_post) _ hr (fun x y hxy hy => by
      rcases hxy with h1 | h1
      · simp [h1.1]
      · simp only [h1.1]
        exact hy)).1
    have e : (tag_range n l).filter (fun x => !(!x.is_post)) =
        (tag_range n l).filter (fun x => x.is_post) :=
      List.filter_congr (fun x _ => by simp)
    rw [e] at s1
    exact s1
  · have h3 := List.Pairwise.filter (fun x => !x.is_post) hr
    refine List.Pairwise.imp_of_mem ?_ h3
    intro x y hx hy hxy
    simp only [List.mem_filter, Bool.not_eq_true'] at hx hy
    rcases hxy with h1 | h1
    · rw [hy.2] at h1
      exact absurd h1.2 (by simp)
    · exact h1.2
  · have h3 := List.Pairwise.filter (fun x => x.is_post) hr
    refine List.Pairwise.imp_of_mem ?_ h3
    intro x y hx hy hxy
    simp only [List.mem_filter] at hx hy
    rcases hxy with h1 | h1
    · rw [hx.2] at h1
      exact absurd h1.1 (by simp)
    · exact h1.2

/-- Witness of `by_reward_fund_groups`: five entries in index order and the range of the tag
name 2, two comments followed by two posts. -/
theorem by_reward_fund_groups_witness :
    in_index_order tag_index_tag.by_reward_fund_net_rshares reward_fund_listing ∧
    tag_range 2 reward_fund_listing =
      (tag_range 2 reward_fund_listing).filter (fun x => !x.is_post) ++
        (tag_range 2 reward_fund_listing).filter (fun x => x.is_post) :=
  ⟨by decide, (by_reward_fund_groups reward_fund_listing (by decide) 2).1⟩

/-! ## Tag Stats aggregates against the live entries -/

theorem wrap_uint_delta (w : Nat) (T a p : Int) :
    wrap_uint w ((wrap_uint w T : Int) + a - p) = wrap_uint w (T + a - p) := by
  unfold wrap_uint
  have hm : (((2 ^ w : Nat) : Int)) ≠ 0 := by positivity
  rw [Int.toNat_of_nonneg (Int.emod_nonneg _ hm), add_sub_assoc, Int.emod_add_emod,
    add_sub_assoc]

theorem represents_apply_delta (st : tag_stats_object) (T a p : tag_stats_value)
    (h : st.represents T) : (st.apply_delta a p).represents ((T.add a).sub p) := by
  obtain ⟨h1, h2, h3, h4, h5⟩ := h
  refine ⟨?_, ?_, ?_, ?_, ?_⟩
  · show wrap_uint 128 (st.total_children_rshares2 + a.total_children_rshares2 -
        p.total_children_rshares2) =
      wrap_uint 128 (T.total_children_rshares2 + a.total_children_rshares2 -
        p.total_children_rshares2)
    rw [h1, wrap_uint_delta]
  · show st.total_payout + a.total_payout - p.total_payout =
      T.total_payout + a.total_payout - p.total_payout
    rw [h2]
  · show wrap_int32 (st.net_votes + a.net_votes - p.net_votes) =
      wrap_int32 (T.net_votes + a.net_votes - p.net_votes)
    rw [h3]
    unfold wrap_int32
    omega
  · show wrap_uint 32 (st.top_posts + a.top_posts - p.top_posts) =
      wrap_uint 32 (T.top_posts + a.top_posts - p.top_posts)
    rw [h4, wrap_uint_delta]
  · show wrap_uint 32 (st.comments + a.comments - p.comments) =
      wrap_uint 32 (T.comments + a.comments - p.comments)
    rw [h5, wrap_uint_delta]

theorem represents_unique (st st1 : tag_stats_object) (T : tag_stats_value) (hid : st.id = st1.id)
    (htag : st.tag = st1.tag) (h : st.represents T) (h1 : st1.represents T) : st = st1 := by
  obtain ⟨a1, a2, a3, a4, a5⟩ := h
  obtain ⟨b1, b2, b3, b4, b5⟩ := h1
  cases st
  cases st1
  simp only [tag_stats_object.mk.injEq]
  simp only at hid htag a1 a2 a3 a4 a5 b1 b2 b3 b4 b5
  exact ⟨hid, htag, a1.trans b1.symm, a2.trans b2.symm, a3.trans b3.symm, a4.trans b4.symm,
    a5.trans b5.symm⟩

theorem total_cons (value : tag_object → tag_stats_value) (x : tag_object) (l : List tag_object) :
    tag_stats_value.total value (x :: l) = (value x).add (tag_stats_value.total value l) := by
  simp [tag_stats_value.total, tag_stats_value.add]

theorem total_nil (value : tag_object → tag_stats_value) :
    tag_stats_value.total value [] = tag_stats_value.zero := by
  simp [tag_stats_value.total, tag_stats_value.zero]

theorem total_perm (value : tag_object → tag_stats_value) (l l1 : List tag_object)
    (h : l.Perm l1) : tag_stats_value.total value l = tag_stats_value.total value l1 := by
  induction h with
  | nil => rfl
  | cons x _ ih => rw [total_cons, total_cons, ih]
  | swap x y l =>
    simp only [total_cons, tag_stats_value.add]
    ext <;> simp only <;> omega
  | trans _ _ ih1 ih2 => exact ih1.trans ih2

theorem fold_represents (value : tag_object → tag_stats_value) (l : List tag_object) :
    ∀ (acc : tag_stats_object) (T : tag_stats_value), acc.represents T →
      (l.foldl (fun acc x => acc.apply_delta (value x) tag_stats_value.zero) acc).represents
          (T.add (tag_stats_value.total value l)) ∧
        (l.foldl (fun acc x => acc.apply_delta (value x) tag_stats_value.zero) acc).id = acc.id ∧
        (l.foldl (fun acc x => acc.apply_delta (value x) tag_stats_value.zero) acc).tag =
          acc.tag := by
  induction l with
  | nil =>
    intro acc T h
    have e : T.add (tag_stats_value.total value []) = T := by
      rw [total_nil]
      ext <;> simp [tag_stats_value.add, tag_stats_value.zero]
    rw [e]
    exact ⟨h, rfl, rfl⟩
  | cons x l ih =>
    intro acc T h
    have h1 := represents_apply_delta acc T (value x) tag_stats_value.zero h
    obtain ⟨r1, r2, r3⟩ := ih _ _ h1
    have e : ((T.add (value x)).sub tag_stats_value.zero).add (tag_stats_value.total value l) =
        T.add (tag_stats_value.total value (x :: l)) := by
      rw [total_cons]
      ext <;> simp only [tag_stats_value.add, tag_stats_value.sub, tag_stats_value.zero] <;> omega
    rw [e] at r1
    exact ⟨r1, r2, r3⟩

theorem recomputed_represents (value : tag_object → tag_stats_value) (live : List tag_object)
    (st : tag_stats_object) :
    (st.recomputed value live).represents (tag_stats_value.total value (tag_range st.tag live)) ∧
      (st.recomputed value live).id = st.id ∧ (st.recomputed value live).tag = st.tag := by
  have h0 : st.cleared.represents tag_stats_value.zero := by
    refine ⟨?_, ?_, ?_, ?_, ?_⟩ <;>
      simp [tag_stats_object.cleared, tag_stats_value.zero, wrap_uint, wrap_int32]
  obtain ⟨r1, r2, r3⟩ := fold_represents value (tag_range st.tag live) _ _ h0
  have e : tag_stats_value.zero.add (tag_stats_value.total value (tag_range st.tag live)) =
      tag_stats_value.total value (tag_range st.tag live) := by
    ext <;> simp [tag_stats_value.add, tag_stats_value.zero]
  rw [e] at r1
  exact ⟨r1, r2, r3⟩

theorem total_range_of_perm (value : tag_object → tag_stats_value) (n : tag_name_type)
    (x : tag_object) (l0 l1 : List tag_object) (h : l1.Perm (x :: l0)) :
    tag_stats_value.total value (tag_range n l1) =
      if x.name = n then (value x).add (tag_stats_value.total value (tag_range n l0))
      else tag_stats_value.total value (tag_range n l0) := by
  have hp : (tag_range n l1).Perm (tag_range n (x :: l0)) := List.Perm.filter _ h
  rw [total_perm value _ _ hp]
  by_cases hx : x.name = n
  · simp only [tag_range, List.filter_cons, hx, beq_self_eq_true, if_true, total_cons]
  · have hb : (x.name == n) = false := by simpa using hx
    simp only [tag_range, List.filter_cons, hb, hx, if_false, Bool.false_eq_true]

theorem perm_find_unlink (l : List tag_object) (id : object_id) (x : tag_object)
    (hl : l.Pairwise (fun a b => tag_key.id.lt a b = true))
    (hx : l.find? (fun y => y.id == id) = some x) :
    l.Perm (x :: l.filter (fun y => y.id != id)) := by
  induction l with
  | nil => simp at hx
  | cons y l ih =>
    rw [List.pairwise_cons] at hl
    by_cases hy : y.id = id
    · have hxy : y = x := by simpa [List.find?_cons, hy] using hx
      subst hxy
      have hrest : l.filter (fun z => z.id != id) = l := by
        apply List.filter_eq_self.2
        intro z hz
        have := hl.1 z hz
        simp only [tag_key.lt, decide_eq_true_eq] at this
        simp only [bne_iff_ne, ne_eq]
        intro hzid
        rw [hzid, hy] at this
        exact lt_irrefl _ this
      simp [List.filter_cons, hy, hrest]
    · have hb : (y.id == id) = false := by simpa using hy
      have hx1 : l.find? (fun z => z.id == id) = some x := by
        simpa [List.find?_cons, hb] using hx
      have hperm := ih hl.2 hx1
      have hne : (y.id != id) = true := by simpa using hy
      simp only [List.filter_cons, hne, if_true]
      exact (List.Perm.cons y hperm).trans (List.Perm.swap x y _)

theorem locate_or_create_tracks (value : tag_object → tag_stats_value) (s : tag_stats_index)
    (L : List tag_object) (n : tag_name_type) (h : s.tracks value L) :
    (s.locate_or_create n).tracks value L ∧
      (∃ st ∈ (s.locate_or_create n).records, st.tag = n) := by
  unfold tag_stats_index.locate_or_create
  cases hf : s.find n with
  | some st0 =>
    refine ⟨h, st0, List.mem_of_find?_eq_some hf, ?_⟩
    have := List.find?_some hf
    simpa using this
  | none =>
    have hno : ∀ st ∈ s.records, st.tag ≠ n := by
      intro st hst e
      have := List.find?_eq_none.1 hf st hst
      simp [e] at this
    have hempty : tag_range n L = [] := by
      apply List.filter_eq_nil_iff.2
      intro x hx hxn
      obtain ⟨st, hst, htag⟩ := h.2 x hx
      simp only [beq_iff_eq] at hxn
      exact hno st hst (htag.trans hxn)
    refine ⟨⟨?_, ?_⟩, s.fresh n, by simp, rfl⟩
    · intro st hst
      rcases List.mem_append.1 hst with h1 | h1
      · exact h.1 st h1
      · simp only [List.mem_singleton] at h1
        subst h1
        show (s.fresh n).represents (tag_stats_value.total value (tag_range n L))
        rw [hempty, total_nil]
        refine ⟨?_, ?_, ?_, ?_, ?_⟩ <;>
          simp [tag_stats_index.fresh, tag_stats_value.zero, wrap_uint, wrap_int32]
    · intro x hx
      obtain ⟨st, hst, htag⟩ := h.2 x hx
      exact ⟨st, List.mem_append_left _ hst, htag⟩

theorem adjust_tracks (value : tag_object → tag_stats_value) (s : tag_stats_index)
    (L L1 : List tag_object) (n : tag_name_type) (a p : tag_stats_value)
    (h : s.tracks value L)
    (hn : tag_stats_value.total value (tag_range n L1) =
      ((tag_stats_value.total value (tag_range n L)).add a).sub p)
    (ho : ∀ m, m ≠ n →
      tag_stats_value.total value (tag_range m L1) = tag_stats_value.total value (tag_range m L))
    (hsub : ∀ x ∈ L1, x ∈ L ∨ x.name = n) : (s.adjust n a p).tracks value L1 := by
  obtain ⟨⟨h1, h2⟩, st0, hst0, htag0⟩ := locate_or_create_tracks value s L n h
  have hmem : ∀ st ∈ (s.locate_or_create n).records,
      (if (st.tag == n) = true then st.apply_delta a p else st) ∈ (s.adjust n a p).records := by
    intro st hst
    exact List.mem_map.2 ⟨st, hst, rfl⟩
  have htag : ∀ st : tag_stats_object,
      (if (st.tag == n) = true then st.apply_delta a p else st).tag = st.tag := by
    intro st
    split <;> rfl
  refine ⟨?_, ?_⟩
  · intro st1 hst1
    obtain ⟨st, hst, rfl⟩ := List.mem_map.1 hst1
    by_cases e : st.tag = n
    · have hb : (st.tag == n) = true := by simpa using e
      simp only [hb, if_true]
      have hr := represents_apply_delta st _ a p (h1 st hst)
      show (st.apply_delta a p).represents (tag_stats_value.total value (tag_range st.tag L1))
      rw [e, hn]
      rw [e] at hr
      exact hr
    · have hb : (st.tag == n) = false := by simpa using e
      simp only [hb, if_false, Bool.false_eq_true]
      rw [ho st.tag e]
      exact h1 st hst
  · intro x hx
    rcases hsub x hx with hxL | hxn
    · obtain ⟨st, hst, hxt⟩ := h2 x hxL
      exact ⟨_, hmem st hst, (htag st).trans hxt⟩
    · exact ⟨_, hmem st0 hst0, (htag st0).trans (htag0.trans hxn.symm)⟩

theorem tracks_on_created (value : tag_object → tag_stats_value) (s : tag_stats_index)
    (L L1 : List tag_object) (x : tag_object) (h : s.tracks value L) (hp : L1.Perm (x :: L)) :
    (s.on_created value x).tracks value L1 := by
  apply adjust_tracks value s L L1 x.name _ _ h
  · rw [total_range_of_perm value x.name x L L1 hp, if_pos rfl]
    ext <;> simp only [tag_stats_value.add, tag_stats_value.sub, tag_stats_value.zero] <;> omega
  · intro m hm
    rw [total_range_of_perm value m x L L1 hp, if_neg (fun e => hm e.symm)]
  · intro y hy
    rcases List.mem_cons.1 (hp.mem_iff.1 hy) with rfl | hy
    · exact Or.inr rfl
    · exact Or.inl hy

theorem tracks_on_removed (value : tag_object → tag_stats_value) (s : tag_stats_index)
    (L L0 : List tag_object) (x : tag_object) (h : s.tracks value L) (hp : L.Perm (x :: L0)) :
    (s.on_removed value x).tracks value L0 := by
  apply adjust_tracks value s L L0 x.name _ _ h
  · rw [total_range_of_perm value x.name x L0 L hp, if_pos rfl]
    ext <;> simp only [tag_stats_value.add, tag_stats_value.sub, tag_stats_value.zero] <;> omega
  · intro m hm
    rw [total_range_of_perm value m x L0 L hp, if_neg (fun e => hm e.symm)]
  · intro y hy
    exact Or.inl (hp.mem_iff.2 (List.mem_cons_of_mem _ hy))

theorem tracks_on_updated (value : tag_object → tag_stats_value) (s : tag_stats_index)
    (L L0 L2 : List tag_object) (x y : tag_object) (h : s.tracks value L)
    (hp : L.Perm (x :: L0)) (hp2 : L2.Perm (y :: L0)) :
    (s.on_updated value x y).tracks value L2 := by
  unfold tag_stats_index.on_updated
  split
  · rename_i hxy
    apply adjust_tracks value s L L2 y.name _ _ h
    · rw [total_range_of_perm value y.name y L0 L2 hp2, if_pos rfl,
        total_range_of_perm value y.name x L0 L hp, if_pos hxy]
      ext <;> simp only [tag_stats_value.add, tag_stats_value.sub] <;> omega
    · intro m hm
      rw [total_range_of_perm value m y L0 L2 hp2, if_neg (fun e => hm e.symm),
        total_range_of_perm value m x L0 L hp, if_neg (fun e => hm (hxy ▸ e).symm)]
    · intro z hz
      rcases List.mem_cons.1 (hp2.mem_iff.1 hz) with rfl | hz
      · exact Or.inr rfl
      · exact Or.inl (hp.mem_iff.2 (List.mem_cons_of_mem _ hz))
  · exact tracks_on_created value _ L0 L2 y (tracks_on_removed value s L L0 x h hp) hp2

theorem tags_state_apply_ok (value : tag_object → tag_stats_value) (s : tags_state)
    (hc : s.tags.consistent) (ht : s.stats.tracks value s.tags.by_id) (op : tag_index_op) :
    (s.apply value op).tags.consistent ∧
      (s.apply value op).stats.tracks value (s.apply value op).tags.by_id := by
  cases op with
  | insert r =>
    simp only [tags_state.apply]
    split
    · rename_i i t1 hs
      refine ⟨tag_index.consistent_insert s.tags hc r i t1 hs, ?_⟩
      have hby : t1.by_id = ordered_insert tag_key.id.lt (s.tags.created r) s.tags.by_id := by
        unfold tag_index.insert at hs
        split at hs
        · exact absurd hs (by simp)
        · simp only [Except.ok.injEq, Prod.mk.injEq] at hs
          rw [← hs.2]
          rfl
      show (s.stats.on_created value (s.tags.created r)).tracks value t1.by_id
      rw [hby]
      exact tracks_on_created value _ _ _ _ ht (perm_ordered_insert _ _ _)
    · exact ⟨hc, ht⟩
  | update id m =>
    simp only [tags_state.apply]
    split
    · rename_i x t1 hf hu
      refine ⟨tag_index.consistent_update s.tags hc id m t1 hu, ?_⟩
      have hby : t1.by_id = ordered_insert tag_key.id.lt (tag_index.mutated x m)
          (s.tags.by_id.filter (fun y => y.id != id)) := by
        unfold tag_index.update at hu
        rw [hf] at hu
        simp only [Except.ok.injEq] at hu
        rw [← hu]
        rfl
      show (s.stats.on_updated value x (tag_index.mutated x m)).tracks value t1.by_id
      rw [hby]
      exact tracks_on_updated value _ _ _ _ x _ ht (perm_find_unlink _ id x hc.ids hf)
        (perm_ordered_insert _ _ _)
    · exact ⟨hc, ht⟩
  | remove id =>
    simp only [tags_state.apply]
    split
    · rename_i x t1 hf hu
      refine ⟨tag_index.consistent_remove s.tags hc id t1 hu, ?_⟩
      have hby : t1.by_id = s.tags.by_id.filter (fun y => y.id != id) := by
        unfold tag_index.remove at hu
        rw [hf] at hu
        simp only [Except.ok.injEq] at hu
        rw [← hu]
        rfl
      show (s.stats.on_removed value x).tracks value t1.by_id
      rw [hby]
      exact tracks_on_removed value _ _ _ x ht (perm_find_unlink _ id x hc.ids hf)
    · exact ⟨hc, ht⟩

theorem tags_state_run_ok (value : tag_object → tag_stats_value) (ops : List tag_index_op) :
    ∀ s : tags_state, s.tags.consistent → s.stats.tracks value s.tags.by_id →
      (s.run value ops).stats.tracks value (s.run value ops).tags.by_id := by
  induction ops with
  | nil => exact fun _ _ ht => ht
  | cons op ops ih =>
    intro s hc ht
    obtain ⟨h1, h2⟩ := tags_state_apply_ok value s hc ht op
    exact ih (s.apply value op) h1 h2

/-- C8: after any sequence of Tag Entry insertions, updates and removals, whatever value the
maintainer gives an entry for each aggregate field, the Tag Stats record of every tag name
equals the record recomputed from scratch over the live entries of that name (all of
total_children_rshares2, total_payout, net_votes, top_posts and comments); a tag name without
a record has no live entry. -/
theorem tag_stats_equal_recomputed (value : tag_object → tag_stats_value)
    (ops : List tag_index_op) (tag : tag_name_type) :
    (∀ st, (tags_state.empty.run value ops).stats.find tag = some st →
      st.tag = tag ∧ st = st.recomputed value (tags_state.empty.run value ops).tags.by_id) ∧
    ((tags_state.empty.run value ops).stats.find tag = none →
      tag_range tag (tags_state.empty.run value ops).tags.by_id = []) := by
  have ht := tags_state_run_ok value ops tags_state.empty tag_index.consistent_empty
    ⟨fun _ h => by simp [tags_state.empty, tag_stats_index.empty] at h,
      fun _ h => by simp [tags_state.empty, tag_index.empty] at h⟩
  constructor
  · intro st hf
    have hmem : st ∈ (tags_state.empty.run value ops).stats.records :=
      List.mem_of_find?_eq_some hf
    have htag : st.tag = tag := by
      have := List.find?_some hf
      simpa using this
    obtain ⟨r1, r2, r3⟩ :=
      recomputed_represents value (tags_state.empty.run value ops).tags.by_id st
    exact ⟨htag, represents_unique _ _ _ r2.symm r3.symm (ht.1 st hmem) r1⟩
  · intro hf
    apply List.filter_eq_nil_iff.2
    intro x hx hxn
    obtain ⟨st, hst, htag⟩ := ht.2 x hx
    simp only [beq_iff_eq] at hxn
    have := List.find?_eq_none.1 hf st hst
    simp [htag, hxn] at this

/-- Witness of `tag_stats_equal_recomputed`: after six mutations the record of the tag name 6
counts one top post and one comment with net votes -3, and equals its recomputation. -/
theorem tag_stats_equal_recomputed_witness :
    ∃ st, (tags_state.empty.run sample_value sample_ops).stats.find 6 = some st ∧
      (st.top_posts = 1 ∧ st.comments = 1 ∧ st.net_votes = -3) ∧
      st = st.recomputed sample_value (tags_state.empty.run sample_value sample_ops).tags.by_id :=
  ⟨{ id := 1, tag := 6, total_children_rshares2 := 0, total_payout := 0, net_votes := -3,
      top_posts := 1, comments := 1 }, by decide, by decide,
    ((tag_stats_equal_recomputed sample_value sample_ops 6).1 _ (by decide)).2⟩

/-! ## Constructors of peer_stats_object -/

/-- C11 fails as stated: the callback constructor run with a callback that assigns zero to
`direct_votes` produces a record whose `direct_votes` is zero. -/
theorem construct_zero_votes_counterexample :
    (peer_stats_object.construct ℚ zeroing_callback).direct_votes = 0 := by
  decide

/-- C11 (amended): the default constructor produces a record with `direct_votes = 1` and
`indirect_votes = 1`; the callback constructor produces what its callback makes of such a
record, so both totals are non-zero whenever the callback leaves the two totals as it finds
them. -/
theorem constructed_votes_nonzero {F : Type} [Field F] :
    ((peer_stats_object.default_constructed F).direct_votes = 1 ∧
      (peer_stats_object.default_constructed F).indirect_votes = 1) ∧
    (∀ c : peer_stats_object F → peer_stats_object F,
      peer_stats_object.construct F c = c (peer_stats_object.default_constructed F)) ∧
    (∀ c : peer_stats_object F → peer_stats_object F,
      (∀ p, (c p).direct_votes = p.direct_votes ∧ (c p).indirect_votes = p.indirect_votes) →
      (peer_stats_object.construct F c).direct_votes ≠ 0 ∧
        (peer_stats_object.construct F c).indirect_votes ≠ 0) := by
  refine ⟨⟨rfl, rfl⟩, fun _ => rfl, ?_⟩
  intro c hc
  obtain ⟨h1, h2⟩ := hc (peer_stats_object.default_constructed F)
  unfold peer_stats_object.construct
  rw [h1, h2]
  exact ⟨by simp [peer_stats_object.default_constructed],
    by simp [peer_stats_object.default_constructed]⟩

/-- Witness of `constructed_votes_nonzero`: a callback that only names the voter and the
peer. -/
theorem constructed_votes_nonzero_witness :
    (peer_stats_object.construct ℚ naming_callback).direct_votes ≠ 0 ∧
      (peer_stats_object.construct ℚ naming_callback).indirect_votes ≠ 0 :=
  constructed_votes_nonzero.2.2 naming_callback (fun _ => ⟨rfl, rfl⟩)

/-! ## The sign flip of update_rank -/

/-- C12 fails as stated: with one positive direct vote and minus one positive indirect
votes, both inside the `int32_t` range, the sign is flipped although the two counts are not
both zero. -/
theorem rank_flips_counterexample :
    (-(2 : Int) ^ 31 ≤ (peer_stats_cancelling ℚ).direct_positive_votes ∧
      (peer_stats_cancelling ℚ).direct_positive_votes < 2 ^ 31) ∧
    (-(2 : Int) ^ 31 ≤ (peer_stats_cancelling ℚ).indirect_positive_votes ∧
      (peer_stats_cancelling ℚ).indirect_positive_votes < 2 ^ 31) ∧
    (peer_stats_cancelling ℚ).rank_flips = true ∧
    ¬ ((peer_stats_cancelling ℚ).direct_positive_votes = 0 ∧
      (peer_stats_cancelling ℚ).indirect_positive_votes = 0) := by
  decide

/-- C12 (amended): `update_rank` multiplies the two logarithmic factors by -1 exactly when
the 32-bit sum of the two positive counts is zero; when the sum does not overflow that is
exactly when the counts add up to zero, and for non-negative counts exactly when both are
zero. -/
theorem rank_flips_iff {F : Type} [Field F] (log : F → F) (p : peer_stats_object F) :
    (p.rank_orders log =
      if p.rank_flips = true then
        (log (p.direct_votes : F) * -1, log (p.indirect_votes : F) * -1)
      else (log (p.direct_votes : F), log (p.indirect_votes : F))) ∧
    (p.rank_terms log =
      (((p.direct_positive_votes : F) / (p.direct_votes : F)) *
          ((p.direct_positive_votes : F) / (p.direct_votes : F)) * ((p.rank_orders log).1 * 10),
        ((p.indirect_positive_votes : F) / (p.indirect_votes : F)) *
          ((p.indirect_positive_votes : F) / (p.indirect_votes : F)) * (p.rank_orders log).2)) ∧
    (p.rank_flips = true ↔
      wrap_int32 (p.direct_positive_votes + p.indirect_positive_votes) = 0) ∧
    (-(2 : Int) ^ 31 ≤ p.direct_positive_votes + p.indirect_positive_votes →
      p.direct_positive_votes + p.indirect_positive_votes < 2 ^ 31 →
      (p.rank_flips = true ↔ p.direct_positive_votes + p.indirect_positive_votes = 0)) ∧
    (0 ≤ p.direct_positive_votes → 0 ≤ p.indirect_positive_votes →
      p.direct_positive_votes < 2 ^ 31 → p.indirect_positive_votes < 2 ^ 31 →
      (p.rank_flips = true ↔ p.direct_positive_votes = 0 ∧ p.indirect_positive_votes = 0)) := by
  have hiff : p.rank_flips = true ↔
      wrap_int32 (p.direct_positive_votes + p.indirect_positive_votes) = 0 := by
    simp [peer_stats_object.rank_flips]
  refine ⟨rfl, ?_, hiff, ?_, ?_⟩
  · simp only [peer_stats_object.rank_terms, peer_stats_object.rank_orders,
      peer_stats_object.rank_flips]
    split <;> rfl
  · intro h1 h2
    rw [hiff]
    unfold wrap_int32
    omega
  · intro h1 h2 h3 h4
    rw [hiff]
    exact wrap_int32_add_eq_zero _ _ h1 h2 h3 h4

/-- Witness of `rank_flips_iff`: the seed record has no positive vote and flips the sign; a
record with positive votes 3 and 1 does not. -/
theorem rank_flips_iff_witness :
    (peer_stats_seed ℚ 0 1 2).rank_flips = true ∧ (peer_stats_sample ℚ).rank_flips = false ∧
    ((peer_stats_sample ℚ).rank_flips = true ↔
      (peer_stats_sample ℚ).direct_positive_votes = 0 ∧
        (peer_stats_sample ℚ).indirect_positive_votes = 0) :=
  ⟨by decide, by decide,
    (rank_flips_iff (fun x => x) (peer_stats_sample ℚ)).2.2.2.2 (by decide) (by decide)
      (by decide) (by decide)⟩

/-! ## is_post -/

/-- C16: `is_post()` returns true exactly when the parent reference is the default-constructed
comment id, and two entries with the same parent reference have the same `is_post()` whatever
their other members are. -/
theorem is_post_iff :
    (∀ t : tag_object, t.is_post = true ↔ t.parent = comment_id_default) ∧
    (∀ t1 t2 : tag_object, t1.parent = t2.parent → t1.is_post = t2.is_post) := by
  constructor
  · intro t
    simp [tag_object.is_post]
  · intro t1 t2 h
    simp [tag_object.is_post, h]

/-- Witness of `is_post_iff`: two entries that share the parent 7 and differ in every other
argument are both comments. -/
theorem is_post_iff_witness :
    (mk_entry 1 2 7 30 40).is_post = (mk_entry 5 6 7 80 90).is_post ∧
    (mk_entry 1 2 7 30 40).is_post = false ∧ (mk_entry 1 2 0 30 40).is_post = true :=
  ⟨is_post_iff.2 _ _ rfl, by decide, by decide⟩

/-! ## Reflection order and round trip -/

/-- C17 fails as stated: after the id, `FC_REFLECT` lists `children` behind
`promoted_balance`, so the reflected order is not the order name, created, active, cashout,
net_rshares, net_votes, children, hot, trending, promoted_balance, children_rshares2, author,
parent, comment. -/
theorem reflected_order_counterexample :
    tag_object_reflected.tail ≠
      [tag_key.name, tag_key.created, tag_key.active, tag_key.cashout, tag_key.net_rshares,
        tag_key.net_votes, tag_key.children, tag_key.hot, tag_key.trending,
        tag_key.promoted_balance, tag_key.children_rshares2, tag_key.author, tag_key.parent,
        tag_key.comment] ∧
    tag_object_reflected.indexOf tag_key.children = 10 ∧
    tag_object_reflected.indexOf tag_key.net_votes = 6 := by
  decide

/-- C17 (amended): after the id the reflected fields of a Tag Entry are name, created, active,
cashout, net_rshares, net_votes, hot, trending, promoted_balance, children, children_rshares2,
author, parent, comment: the members in their declared order except that `children` follows
`promoted_balance`; the reflected fields are a rearrangement of the declared members. -/
theorem reflected_order_of_tag_object :
    tag_object_reflected.head? = some tag_key.id ∧
    tag_object_reflected.tail =
      [tag_key.name, tag_key.created, tag_key.active, tag_key.cashout, tag_key.net_rshares,
        tag_key.net_votes, tag_key.hot, tag_key.trending, tag_key.promoted_balance,
        tag_key.children, tag_key.children_rshares2, tag_key.author, tag_key.parent,
        tag_key.comment] ∧
    tag_object_reflected.erase tag_key.children = tag_object_members.erase tag_key.children ∧
    tag_object_reflected.Perm tag_object_members := by
  decide

theorem tag_object_unpack_pack (r init : tag_object) :
    unpack tag_object.set tag_object_reflected init
      (pack tag_object.get tag_object_reflected r) = r := by
  cases r
  cases init
  rfl

theorem tag_stats_object_unpack_pack (r init : tag_stats_object) :
    unpack tag_stats_object.set tag_stats_object_reflected init
      (pack tag_stats_object.get tag_stats_object_reflected r) = r := by
  cases r
  cases init
  rfl

theorem peer_stats_object_unpack_pack (F : Type) (r init : peer_stats_object F) :
    unpack peer_stats_object.set peer_stats_object_reflected init
      (pack peer_stats_object.get peer_stats_object_reflected r) = r := by
  cases r
  cases init
  rfl

theorem author_tag_stats_object_unpack_pack (r init : author_tag_stats_object) :
    unpack author_tag_stats_object.set author_tag_stats_object_reflected init
      (pack author_tag_stats_object.get author_tag_stats_object_reflected r) = r := by
  cases r
  cases init
  rfl

/-- C18: for each of the four record types the reflected field list is a rearrangement of
the declared data members, none repeated, and a record written as the values of its reflected
fields and read back into any record is the original record. -/
theorem reflected_fields_round_trip :
    (tag_object_reflected.Perm tag_object_members ∧ tag_object_members.Nodup ∧
      ∀ r init : tag_object,
        unpack tag_object.set tag_object_reflected init
          (pack tag_object.get tag_object_reflected r) = r) ∧
    (tag_stats_object_reflected.Perm tag_stats_object_members ∧
      tag_stats_object_members.Nodup ∧
      ∀ r init : tag_stats_object,
        unpack tag_stats_object.set tag_stats_object_reflected init
          (pack tag_stats_object.get tag_stats_object_reflected r) = r) ∧
    (peer_stats_object_reflected.Perm peer_stats_object_members ∧
      peer_stats_object_members.Nodup ∧
      ∀ (F : Type) (r init : peer_stats_object F),
        unpack peer_stats_object.set peer_stats_object_reflected init
          (pack peer_stats_object.get peer_stats_object_reflected r) = r) ∧
    (author_tag_stats_object_reflected.Perm author_tag_stats_object_members ∧
      author_tag_stats_object_members.Nodup ∧
      ∀ r init : author_tag_stats_object,
        unpack author_tag_stats_object.set author_tag_stats_object_reflected init
          (pack author_tag_stats_object.get author_tag_stats_object_reflected r) = r) := by
  exact ⟨⟨by decide, by decide, tag_object_unpack_pack⟩,
    ⟨by decide, by decide, tag_stats_object_unpack_pack⟩,
    ⟨by decide, by decide, peer_stats_object_unpack_pack⟩,
    ⟨by decide, by decide, author_tag_stats_object_unpack_pack⟩⟩

/-! ## Uniqueness constraints of peer_stats_index and author_tag_stats_index -/

theorem record_store.well_formed_empty {R T : Type} :
    (record_store.empty : record_store R T).well_formed :=
  fun _ => List.Perm.refl _

theorem record_store.well_formed_after_insert {R T : Type} (d : index_declaration R T)
    (s : record_store R T) (h : s.well_formed) (r : R) : (s.after_insert d r).well_formed := by
  unfold record_store.after_insert record_store.insert
  split
  · rename_i i s1 hs
    split at hs
    · exact absurd hs (by simp)
    · simp only [Except.ok.injEq, Prod.mk.injEq] at hs
      rw [← hs.2]
      intro t
      exact (perm_ordered_insert _ _ _).trans
        (((h t).cons _).trans (perm_ordered_insert _ _ _).symm)
  · exact h

theorem key_conflict_of_equivalent {R : Type} (lt : R → R → Bool) (x y : R) (l : List R)
    (hy : y ∈ l) (h1 : lt x y = false) (h2 : lt y x = false) : key_conflict lt x l = true := by
  simp only [key_conflict, List.any_eq_true, Bool.and_eq_true, Bool.not_eq_true']
  exact ⟨y, hy, h1, h2⟩

theorem record_store.insert_rejected {R T : Type} (d : index_declaration R T)
    (s : record_store R T) (hs : s.well_formed) (r y : R) (t : T) (ht : t ∈ d.tags)
    (hu : d.unique t = true) (hy : y ∈ s.by_id)
    (h1 : d.lt t (d.with_id s.next_id r) y = false)
    (h2 : d.lt t y (d.with_id s.next_id r) = false) :
    s.insert d r = Except.error store_error.DuplicateKey ∧ s.after_insert d r = s := by
  have hv : s.violates d (d.with_id s.next_id r) = true := by
    simp only [record_store.violates, Bool.or_eq_true, List.any_eq_true, Bool.and_eq_true]
    exact Or.inr ⟨t, ht, hu,
      key_conflict_of_equivalent _ _ y _ ((hs t).mem_iff.2 hy) h1 h2⟩
  have hi : s.insert d r = Except.error store_error.DuplicateKey := by
    simp [record_store.insert, hv]
  exact ⟨hi, by simp [record_store.after_insert, hi]⟩

/-- C13: in a Peer Stats store whose indices list the same records, inserting a record whose
voter and peer equal those of a stored record fails with `DuplicateKey` (the `ordered_unique`
index `by_voter_peer` rejects it) and leaves the store unchanged, whatever the ranks and the
vote counts of the two records are. -/
theorem peer_stats_insert_duplicate {F : Type} [LinearOrder F]
    (s : record_store (peer_stats_object F) peer_stats_index_tag) (hs : s.well_formed)
    (r y : peer_stats_object F) (hy : y ∈ s.by_id) (hv : y.voter = r.voter)
    (hp : y.peer = r.peer) :
    s.insert (peer_stats_index_declaration F) r = Except.error store_error.DuplicateKey ∧
      s.after_insert (peer_stats_index_declaration F) r = s := by
  apply record_store.insert_rejected (peer_stats_index_declaration F) s hs r y
    peer_stats_index_tag.by_voter_peer (by simp [peer_stats_index_declaration]) rfl hy
  · simp [peer_stats_index_declaration, peer_stats_index_lt, peer_stats_index_keys,
      composite_lt, key_order.apply, peer_stats_key.lt, hv, hp]
  · simp [peer_stats_index_declaration, peer_stats_index_lt, peer_stats_index_keys,
      composite_lt, key_order.apply, peer_stats_key.lt, hv, hp]

/-- Witness of `peer_stats_insert_duplicate`: a store with one record of voter 1 and peer 2
rejects a second record of voter 1 and peer 2 with other vote counts and another rank. -/
theorem peer_stats_insert_duplicate_witness :
    (record_store.empty.after_insert (peer_stats_index_declaration ℚ)
        (mk_peer_stats 1 2 0 1 0)).insert (peer_stats_index_declaration ℚ)
        (mk_peer_stats 1 2 3 4 7) = Except.error store_error.DuplicateKey ∧
      (record_store.empty.after_insert (peer_stats_index_declaration ℚ)
        (mk_peer_stats 1 2 0 1 0)).after_insert (peer_stats_index_declaration ℚ)
        (mk_peer_stats 1 2 3 4 7) =
      record_store.empty.after_insert (peer_stats_index_declaration ℚ) (mk_peer_stats 1 2 0 1 0) :=
  peer_stats_insert_duplicate _
    (record_store.well_formed_after_insert _ _ record_store.well_formed_empty _)
    (mk_peer_stats 1 2 3 4 7) (mk_peer_stats 1 2 0 1 0) (List.mem_singleton.2 rfl) rfl rfl

/-- C14 fails as stated: a store that holds a record of author 1 and tag 5 (one post, no
reward) accepts a second record of author 1 and tag 5 with two posts and reward 10, and then
holds two records of that author and tag. -/
theorem author_tag_stats_pair_counterexample :
    mk_author_tag_stats 1 5 0 1 ∈
      (record_store.empty.after_insert author_tag_stats_index_declaration
        (mk_author_tag_stats 1 5 0 1)).by_id ∧
    ((record_store.empty.after_insert author_tag_stats_index_declaration
        (mk_author_tag_stats 1 5 0 1)).insert author_tag_stats_index_declaration
        (mk_author_tag_stats 1 5 10 2)).toBool = true ∧
    (((record_store.empty.after_insert author_tag_stats_index_declaration
        (mk_author_tag_stats 1 5 0 1)).after_insert author_tag_stats_index_declaration
        (mk_author_tag_stats 1 5 10 2)).by_id.map (fun x => (x.id, x.author, x.tag))) =
      [(0, 1, 5), (1, 1, 5)] := by
  decide

/-- C14 (amended): in an Author Tag Stats store whose indices list the same records,
inserting a record is rejected with `DuplicateKey`, the store staying as it was, if a stored
record has the same author, the same tag and in addition the same total_posts or the same
total_rewards; the uniqueness constraints do not compare author and tag alone. -/
theorem author_tag_stats_insert_duplicate
    (s : record_store author_tag_stats_object author_tag_stats_index_tag) (hs : s.well_formed)
    (r y : author_tag_stats_object) (hy : y ∈ s.by_id) (ha : y.author = r.author)
    (ht : y.tag = r.tag)
    (hc : y.total_posts = r.total_posts ∨ y.total_rewards = r.total_rewards) :
    s.insert author_tag_stats_index_declaration r = Except.error store_error.DuplicateKey ∧
      s.after_insert author_tag_stats_index_declaration r = s := by
  rcases hc with hc | hc
  · apply record_store.insert_rejected author_tag_stats_index_declaration s hs r y
      author_tag_stats_index_tag.by_author_tag_posts
      (by simp [author_tag_stats_index_declaration]) rfl hy
    · simp [author_tag_stats_index_declaration, author_tag_stats_index_lt,
        author_tag_stats_index_keys, composite_lt, key_order.apply, author_tag_stats_key.lt,
        ha, ht, hc]
    · simp [author_tag_stats_index_declaration, author_tag_stats_index_lt,
        author_tag_stats_index_keys, composite_lt, key_order.apply, author_tag_stats_key.lt,
        ha, ht, hc]
  · apply record_store.insert_rejected author_tag_stats_index_declaration s hs r y
      author_tag_stats_index_tag.by_author_tag_rewards
      (by simp [author_tag_stats_index_declaration]) rfl hy
    · simp [author_tag_stats_index_declaration, author_tag_stats_index_lt,
        author_tag_stats_index_keys, composite_lt, key_order.apply, author_tag_stats_key.lt,
        ha, ht, hc]
    · simp [author_tag_stats_index_declaration, author_tag_stats_index_lt,
        author_tag_stats_index_keys, composite_lt, key_order.apply, author_tag_stats_key.lt,
        ha, ht, hc]

/-- Witness of `author_tag_stats_insert_duplicate`: a store with a record of author 1 and
tag 5 with one post rejects a record of author 1 and tag 5 with one post and another
reward. -/
theorem author_tag_stats_insert_duplicate_witness :
    (record_store.empty.after_insert author_tag_stats_index_declaration
        (mk_author_tag_stats 1 5 0 1)).insert author_tag_stats_index_declaration
        (mk_author_tag_stats 1 5 10 1) = Except.error store_error.DuplicateKey ∧
      (record_store.empty.after_insert author_tag_stats_index_declaration
        (mk_author_tag_stats 1 5 0 1)).after_insert author_tag_stats_index_declaration
        (mk_author_tag_stats 1 5 10 1) =
      record_store.empty.after_insert author_tag_stats_index_declaration
        (mk_author_tag_stats 1 5 0 1) :=
  author_tag_stats_insert_duplicate _
    (record_store.well_formed_after_insert _ _ record_store.well_formed_empty _)
    (mk_author_tag_stats 1 5 10 1) (mk_author_tag_stats 1 5 0 1) (List.mem_singleton.2 rfl)
    rfl rfl (Or.inl rfl)

/-! ## Uniqueness constraints of tag_index -/

theorem key_conflict_eq_false_of_total {R : Type} (lt : R → R → Bool) (x : R) (l : List R)
    (h : ∀ y ∈ l, lt x y = true ∨ lt y x = true) : key_conflict lt x l = false := by
  simp only [key_conflict, List.any_eq_false, Bool.and_eq_true, Bool.not_eq_true', not_and,
    Bool.not_eq_false]
  intro y hy hxy
  rcases h y hy with h1 | h1
  · rw [hxy] at h1
    exact absurd h1 (by simp)
  · exact h1

theorem tag_index.violates_fresh (s : tag_index) (hc : s.consistent) (x : tag_object)
    (hx : ∀ y ∈ s.by_id, y.id ≠ x.id) : s.violates x = false := by
  simp only [tag_index.violates, Bool.or_eq_false_iff, List.any_eq_false, Bool.not_eq_true]
  constructor
  · apply key_conflict_eq_false_of_total
    intro y hy
    simp only [tag_key.lt, decide_eq_true_eq]
    exact lt_or_gt_of_ne (fun e => hx y hy e.symm)
  · intro t _
    apply key_conflict_eq_false_of_total
    intro y hy
    exact tag_index_lt_total t x y (fun e => hx y ((hc.same t).mem_iff.1 hy) e.symm)

theorem tag_index.ids_below_apply (s : tag_index) (h : s.ids_below) (op : tag_index_op) :
    (s.apply op).ids_below := by
  cases op with
  | insert r =>
    simp only [tag_index.apply]
    split
    · rename_i i s1 hs
      unfold tag_index.insert at hs
      split at hs
      · exact absurd hs (by simp)
      · simp only [Except.ok.injEq, Prod.mk.injEq] at hs
        rw [← hs.2]
        intro x hx
        show x.id < s.next_id + 1
        rcases (mem_ordered_insert _ _ _ _).1 hx with rfl | hx
        · exact lt_add_one _
        · exact lt_trans (h x hx) (lt_add_one _)
    · exact h
  | update id m =>
    simp only [tag_index.apply]
    split
    · rename_i s1 hs
      unfold tag_index.update at hs
      split at hs
      · exact absurd hs (by simp)
      · rename_i y hy
        simp only [Except.ok.injEq] at hs
        rw [← hs]
        intro x hx
        show x.id < s.next_id
        rcases (mem_ordered_insert _ _ _ _).1 hx with rfl | hx
        · exact h y (List.mem_of_find?_eq_some hy)
        · exact h x (List.mem_of_mem_filter hx)
    · exact h
  | remove id =>
    simp only [tag_index.apply]
    split
    · rename_i s1 hs
      unfold tag_index.remove at hs
      split at hs
      · exact absurd hs (by simp)
      · simp only [Except.ok.injEq] at hs
        rw [← hs]
        intro x hx
        exact h x (List.mem_of_mem_filter hx)
    · exact h

theorem tag_index.ids_below_run (ops : List tag_index_op) (s : tag_index) (h : s.ids_below) :
    (s.run ops).ids_below := by
  induction ops generalizing s with
  | nil => exact h
  | cons op ops ih => exact ih (s.apply op) (tag_index.ids_below_apply s h op)

theorem tag_index.insert_accepted (s : tag_index) (hc : s.consistent) (hb : s.ids_below)
    (r : tag_object) :
    s.insert r = Except.ok (s.next_id,
      { s.link (s.created r) with next_id := s.next_id + 1 }) := by
  have hv : s.violates (s.created r) = false :=
    tag_index.violates_fresh s hc _ (fun y hy => ne_of_lt (hb y hy))
  simp [tag_index.insert, hv]

/-- C15 fails as stated: inserting the same entry (comment 11, tag name 5) twice into the
empty store is accepted both times, and the store then holds two entries of that comment and
tag name, under the ids 0 and 1. -/
theorem tag_index_pair_counterexample :
    ((tag_index.empty.apply (tag_index_op.insert reply_entry)).insert reply_entry).toBool =
      true ∧
    ((tag_index.empty.run [tag_index_op.insert reply_entry,
        tag_index_op.insert reply_entry]).by_id.map (fun x => (x.id, x.comment, x.name))) =
      [(0, 11, 5), (1, 11, 5)] := by
  decide

/-- C15 (amended): the uniqueness constraints of `tag_index` do not limit the store to one
entry per (comment, tag name) pair: in every store reached from the empty one, inserting an
entry whose comment reference and tag name equal those of a stored entry is accepted under a
fresh id, and the store then holds both the stored entry and the new one. -/
theorem tag_index_insert_same_pair (ops : List tag_index_op) (r y : tag_object)
    (hy : y ∈ (tag_index.empty.run ops).by_id) (hc : y.comment = r.comment)
    (hn : y.name = r.name) :
    ∃ s1, (tag_index.empty.run ops).insert r =
        Except.ok ((tag_index.empty.run ops).next_id, s1) ∧
      y ∈ s1.by_id ∧ (tag_index.empty.run ops).created r ∈ s1.by_id ∧
      ((tag_index.empty.run ops).created r).comment = y.comment ∧
      ((tag_index.empty.run ops).created r).name = y.name ∧
      ((tag_index.empty.run ops).created r).id ≠ y.id := by
  have hcons := tag_index.consistent_run ops _ tag_index.consistent_empty
  have hbelow := tag_index.ids_below_run ops tag_index.empty
    (fun x hx => by simp [tag_index.empty] at hx)
  refine ⟨_, tag_index.insert_accepted _ hcons hbelow r, ?_, ?_, hc.symm, hn.symm, ?_⟩
  · exact (mem_ordered_insert _ _ _ _).2 (Or.inr hy)
  · exact (mem_ordered_insert _ _ _ _).2 (Or.inl rfl)
  · exact fun e => absurd (hbelow y hy) (by rw [← e]; exact lt_irrefl _)

/-- Witness of `tag_index_insert_same_pair`: after one insertion of an entry of the comment 11
under the tag name 5, the same entry is inserted once more. -/
theorem tag_index_insert_same_pair_witness :
    ∃ s1, (tag_index.empty.run [tag_index_op.insert reply_entry]).insert reply_entry =
        Except.ok ((tag_index.empty.run [tag_index_op.insert reply_entry]).next_id, s1) ∧
      reply_entry ∈ s1.by_id ∧
      (tag_index.empty.run [tag_index_op.insert reply_entry]).created reply_entry ∈ s1.by_id :=
  (tag_index_insert_same_pair [tag_index_op.insert reply_entry] reply_entry reply_entry
    (by decide) rfl rfl).imp (fun _ h => ⟨h.1, h.2.1, h.2.2.1⟩)

/-! ## apply_operation -/

/-- C19: if `apply_operation` fails because the handler's validation rejects the operation,
the store after the call is the store before the call; a call fails in this way exactly when
the handler of the operation's kind rejects, and on success nothing but the unit value is
returned while the store is the one the handler's mutations produce. -/
theorem apply_operation_rejected {S Op K Reason : Type}
    (registry : evaluator_registry S Op K Reason) (op : Op) (s : S) :
    (∀ reason, (apply_operation registry op s).1 =
        Except.error (operation_error.ValidationFailed reason) →
      (apply_operation registry op s).2 = s ∧
        (registry.handler (registry.which op)).validate s op = some reason) ∧
    (∀ u, (apply_operation registry op s).1 = Except.ok u →
      u = () ∧ (registry.handler (registry.which op)).validate s op = none ∧
        (apply_operation registry op s).2 =
          (registry.handler (registry.which op)).mutate s op) := by
  unfold apply_operation
  cases h : (registry.handler (registry.which op)).validate s op with
  | none =>
    constructor
    · intro reason he
      exact absurd he (by simp)
    · intro u _
      exact ⟨rfl, rfl, rfl⟩
  | some r0 =>
    constructor
    · intro reason he
      simp only [Except.error.injEq, operation_error.ValidationFailed.injEq] at he
      exact ⟨rfl, by rw [he]⟩
    · intro u he
      exact absurd he (by simp)

/-- Witness of `apply_operation_rejected`: on a store with one entry the removal of the
absent id 7 is rejected and the store stays as it was. -/
theorem apply_operation_rejected_witness :
    (apply_operation sample_registry (tag_index_op.remove 7)
        (tag_index.empty.run [tag_index_op.insert reply_entry])).1 =
      Except.error (operation_error.ValidationFailed store_error.NotFound) ∧
    (apply_operation sample_registry (tag_index_op.remove 7)
        (tag_index.empty.run [tag_index_op.insert reply_entry])).2 =
      tag_index.empty.run [tag_index_op.insert reply_entry] :=
  ⟨rfl, ((apply_operation_rejected sample_registry (tag_index_op.remove 7)
    (tag_index.empty.run [tag_index_op.insert reply_entry])).1 store_error.NotFound rfl).1⟩

/-! ## parse_commands -/

theorem parse_commands_loop (pieces : List (List Char)) :
    ∀ commands : List (List Char),
      pieces.foldl (fun commands x => if trim x != [] then commands ++ [trim x] else commands)
          commands =
        commands ++ (pieces.map trim).filter (fun x => x != []) := by
  induction pieces with
  | nil => intro commands; simp
  | cons x pieces ih =>
    intro commands
    rw [List.foldl_cons, ih, List.map_cons, List.filter_cons]
    split <;> simp

/-- C20 fails as stated: for the option value "a&&&&b" the pieces separated by "&&" are "a",
the empty text and "b", but `parse_commands` produces "a" and "b" only. -/
theorem parse_commands_pieces_counterexample :
    split_regex ("a&&&&b" : String).toList =
      [("a" : String).toList, [], ("b" : String).toList] ∧
    parse_commands (some ("a&&&&b" : String).toList) [] true =
      ([("a" : String).toList, ("b" : String).toList], false) ∧
    (parse_commands (some ("a&&&&b" : String).toList) [] true).1 ≠
      split_regex ("a&&&&b" : String).toList ∧
    (parse_commands (some ("a&&&&b" : String).toList) [] true).1 ≠
      (split_regex ("a&&&&b" : String).toList).map trim := by
  decide

/-- C20 (amended): when the "commands" option is given, `parse_commands` sets interactive to
false and appends to the command list the pieces of the option value separated by "&&", each
trimmed of surrounding white space and the empty ones left out, in their original order; for
the documented value and an empty list the result is exactly the three documented commands;
when the option is absent the command list and the interactive flag are unchanged. -/
theorem parse_commands_result :
    (∀ (text : List Char) (commands : List (List Char)) (interactive : Bool),
      parse_commands (some text) commands interactive =
        (commands ++ ((split_regex text).map trim).filter (fun x => x != []), false)) ∧
    parse_commands (some documented_commands) [] true =
      ([("unlock verystrongpassword" : String).toList,
        ("some_command arg1 arg2" : String).toList,
        ("another_command arg1 arg2 arg3" : String).toList], false) ∧
    (∀ (commands : List (List Char)) (interactive : Bool),
      parse_commands none commands interactive = (commands, interactive)) := by
  refine ⟨?_, by decide, fun _ _ => rfl⟩
  intro text commands interactive
  simp only [parse_commands, parse_commands_loop]

/-! ## The comparator classes against the index orderings -/

/-- C22: the code misses the claim. Two entries of one tag name with cashout times 10 and 20
and ids 0 and 1: the first precedes the second in the order (tag asc, cashout asc, id asc) of
the `by_cashout` index, yet `by_cashout::operator()` returns false, in both directions,
because it requires the tag name of the first to be smaller as well. -/
theorem by_cashout_comparator_failing_input :
    tag_index_lt tag_index_tag.by_cashout (mk_entry 0 2 0 10 0) (mk_entry 1 2 0 20 0) = true ∧
    comparator_class.by_cashout.call (mk_entry 0 2 0 10 0) (mk_entry 1 2 0 20 0) = false ∧
    comparator_class.by_cashout.call (mk_entry 1 2 0 20 0) (mk_entry 0 2 0 10 0) = false := by
  decide

theorem comparator_class.id_test_mem (c : comparator_class) :
    (tag_key.id, key_order.less) ∈ c.tests := by
  cases c <;> simp [comparator_class.tests]

/-- C23: the `operator()` of each of the fourteen comparator classes is irreflexive and
transitive on Tag Entries. -/
theorem comparator_class_strict_partial_order (c : comparator_class) :
    (∀ a, c.call a a = false) ∧
    (∀ a b d, c.call a b = true → c.call b d = true → c.call a d = true) := by
  constructor
  · intro a
    simp only [comparator_class.call, List.all_eq_false]
    exact ⟨_, comparator_class.id_test_mem c, by simp [tag_key_part, key_order.apply, tag_key.lt]⟩
  · intro a b d hab hbd
    simp only [comparator_class.call, List.all_eq_true] at hab hbd ⊢
    intro p hp
    exact (strict_weak_apply (tag_key_lt_strict_weak p.1) p.2).trans a b d (hab p hp) (hbd p hp)

/-- Witness of `comparator_class_strict_partial_order`: three top-level entries of one tag
name with rising ids and falling net_rshares under `by_parent_net_rshares`; the parents
differ, as the class requires. -/
theorem comparator_class_strict_partial_order_witness :
    comparator_class.by_parent_net_rshares.call (mk_entry 0 2 1 0 30) (mk_entry 1 2 2 0 20) =
      true ∧
    comparator_class.by_parent_net_rshares.call (mk_entry 1 2 2 0 20) (mk_entry 2 2 3 0 10) =
      true ∧
    comparator_class.by_parent_net_rshares.call (mk_entry 0 2 1 0 30) (mk_entry 2 2 3 0 10) =
      true :=
  ⟨by decide, by decide,
    (comparator_class_strict_partial_order comparator_class.by_parent_net_rshares).2
      (mk_entry 0 2 1 0 30) (mk_entry 1 2 2 0 20) (mk_entry 2 2 3 0 10) (by decide)
      (by decide)⟩

theorem composite_lt_of_head (k : tag_key × key_order) (tests keys : List (tag_key × key_order))
    (a b : tag_object) (h : (k :: tests).all (fun p => tag_key_part p a b) = true) :
    composite_lt ((k :: keys).map tag_key_part) a b = true := by
  simp only [List.all_cons, Bool.and_eq_true] at h
  rw [List.map_cons, composite_lt_cons]
  exact Or.inl h.1

theorem composite_lt_of_name_head (k : tag_key × key_order)
    (tests keys : List (tag_key × key_order)) (a b : tag_object) (hn : a.name ≤ b.name)
    (h : (k :: tests).all (fun p => tag_key_part p a b) = true) :
    composite_lt (((tag_key.name, key_order.less) :: k :: keys).map tag_key_part) a b = true := by
  rw [List.map_cons, composite_lt_cons]
  rcases lt_or_eq_of_le hn with hlt | heq
  · exact Or.inl (by simp [tag_key_part, key_order.apply, tag_key.lt, hlt])
  · exact Or.inr ⟨by simp [tag_key_part, key_order.apply, tag_key.lt, heq],
      by simp [tag_key_part, key_order.apply, tag_key.lt, heq],
      composite_lt_of_head k tests keys a b h⟩

/-- C24: for every comparator class and all Tag Entries `a`, `b` with the tag name of `a` not
greater than that of `b`, if the class's `operator()(a, b)` returns true then `a` precedes `b`
in the ordering of the `tag_index` index tagged with the class. -/
theorem comparator_class_sub_relation (c : comparator_class) (a b : tag_object)
    (hn : a.name ≤ b.name) (h : c.call a b = true) : tag_index_lt c.index_tag a b = true := by
  cases c
  · exact composite_lt_of_head _ _ _ a b h
  · exact composite_lt_of_name_head _ _ _ a b hn h
  · exact composite_lt_of_name_head _ _ _ a b hn h
  · exact composite_lt_of_name_head _ _ _ a b hn h
  · exact composite_lt_of_name_head _ _ _ a b hn h
  · exact composite_lt_of_name_head _ _ _ a b hn h
  · exact composite_lt_of_name_head _ _ _ a b hn h
  · exact composite_lt_of_name_head _ _ _ a b hn h
  · exact composite_lt_of_name_head _ _ _ a b hn h
  · exact composite_lt_of_name_head _ _ _ a b hn h
  · exact composite_lt_of_name_head _ _ _ a b hn h
  · exact composite_lt_of_name_head _ _ _ a b hn h
  · exact composite_lt_of_head _ _ _ a b h
  · exact composite_lt_of_name_head _ _ _ a b hn h

/-- Witness of `comparator_class_sub_relation`: a comment (parent 7) with net_rshares 50
against a post (parent 0) with net_rshares 10 and a greater id under
`by_reward_fund_net_rshares`. -/
theorem comparator_class_sub_relation_witness :
    (mk_entry 0 2 7 0 50).name ≤ (mk_entry 1 2 0 0 10).name ∧
    comparator_class.by_reward_fund_net_rshares.call (mk_entry 0 2 7 0 50)
      (mk_entry 1 2 0 0 10) = true ∧
    tag_index_lt tag_index_tag.by_reward_fund_net_rshares (mk_entry 0 2 7 0 50)
      (mk_entry 1 2 0 0 10) = true :=
  ⟨by decide, by decide,
    comparator_class_sub_relation comparator_class.by_reward_fund_net_rshares _ _
      (by decide) (by decide)⟩

/-- C25: a Tag Entry whose id differs from every stored id violates no uniqueness constraint
of `tag_index`, whatever its other members: every index key contains the id, and two entries
with different ids are ordered by every index, so they are never equivalent. -/
theorem tag_index_fresh_id_accepted :
    (∀ (s : tag_index) (x : tag_object), s.consistent → (∀ y ∈ s.by_id, y.id ≠ x.id) →
      s.violates x = false) ∧
    (∀ t : tag_index_tag, tag_key.id ∈ key_members (tag_index_keys t)) ∧
    (∀ (t : tag_index_tag) (x y : tag_object), x.id ≠ y.id →
      tag_index_lt t x y = true ∨ tag_index_lt t y x = true) := by
  refine ⟨fun s x hc hx => tag_index.violates_fresh s hc x hx, ?_, tag_index_lt_total⟩
  intro t
  exact List.mem_map.2 ⟨_, tag_index_keys_id_mem t, rfl⟩

/-- Witness of `tag_index_fresh_id_accepted`: the store holds one entry under the id 0; a
copy of that entry under the id 5 violates no uniqueness constraint. -/
theorem tag_index_fresh_id_accepted_witness :
    (tag_index.empty.run [tag_index_op.insert reply_entry]).violates
      { reply_entry with id := 5 } = false :=
  tag_index_fresh_id_accepted.1 _ _
    (tag_index.consistent_run _ _ tag_index.consistent_empty) (by decide)

/-! ## The rank is not negative -/

/-- C26: over the reals, for a record with both vote totals at least one and both positive
counts non-negative (and inside the `int32_t` range of the members), `update_rank` yields a
rank that is not negative, and whenever the sign is flipped the rank is exactly zero. -/
theorem update_rank_nonneg (p : peer_stats_object ℝ) (hd : 1 ≤ p.direct_votes)
    (hi : 1 ≤ p.indirect_votes) (hdp : 0 ≤ p.direct_positive_votes)
    (hip : 0 ≤ p.indirect_positive_votes) (hdp2 : p.direct_positive_votes < 2 ^ 31)
    (hip2 : p.indirect_positive_votes < 2 ^ 31) :
    0 ≤ (p.update_rank Real.log).rank ∧
      (p.rank_flips = true → (p.update_rank Real.log).rank = 0) := by
  have hzero : wrap_int32 (p.direct_positive_votes + p.indirect_positive_votes) = 0 →
      (p.update_rank Real.log).rank = 0 := by
    intro hf
    obtain ⟨h1, h2⟩ := (wrap_int32_add_eq_zero _ _ hdp hip hdp2 hip2).1 hf
    simp [peer_stats_object.update_rank, peer_stats_object.rank_terms, h1, h2]
  constructor
  · by_cases hf : wrap_int32 (p.direct_positive_votes + p.indirect_positive_votes) = 0
    · exact le_of_eq (hzero hf).symm
    · have hld : 0 ≤ Real.log (p.direct_votes : ℝ) :=
        Real.log_nonneg (by exact_mod_cast hd)
      have hli : 0 ≤ Real.log (p.indirect_votes : ℝ) :=
        Real.log_nonneg (by exact_mod_cast hi)
      simp only [peer_stats_object.update_rank, peer_stats_object.rank_terms, beq_iff_eq, hf,
        if_false]
      exact add_nonneg
        (mul_nonneg (mul_self_nonneg _) (mul_nonneg hld (by norm_num)))
        (mul_nonneg (mul_self_nonneg _) hli)
  · intro hf
    exact hzero (by simpa [peer_stats_object.rank_flips] using hf)

/-- Witness of `update_rank_nonneg`: the record with positive votes 3 of 4 and 1 of 2. -/
theorem update_rank_nonneg_witness :
    0 ≤ ((peer_stats_sample ℝ).update_rank Real.log).rank :=
  (update_rank_nonneg (peer_stats_sample ℝ) (by decide) (by decide) (by decide) (by decide)
    (by decide) (by decide)).1

/-! ## The HTTP request handler -/

theorem mem_allowed_ip_set (to_address : List Char → ip_address) (ips : List (List Char))
    (a : ip_address) :
    a ∈ allowed_ip_set to_address ips ↔ ∃ ip ∈ ips, to_address ip = a := by
  have key : ∀ (ips : List (List Char)) (set : List ip_address),
      a ∈ ips.foldl (fun set ip => List.insert (to_address ip) set) set ↔
        a ∈ set ∨ ∃ ip ∈ ips, to_address ip = a := by
    intro ips
    induction ips with
    | nil => intro set; simp
    | cons ip ips ih =>
      intro set
      rw [List.foldl_cons, ih, List.mem_insert_iff]
      constructor
      · rintro ((h | h) | ⟨ip1, h1, h2⟩)
        · exact Or.inr ⟨ip, List.mem_cons_self _ _, h.symm⟩
        · exact Or.inl h
        · exact Or.inr ⟨ip1, List.mem_cons_of_mem _ h1, h2⟩
      · rintro (h | ⟨ip1, h1, h2⟩)
        · exact Or.inl (Or.inr h)
        · rcases List.mem_cons.1 h1 with rfl | h1
          · exact Or.inl (Or.inl h2.symm)
          · exact Or.inr ⟨ip1, h1, h2⟩
  simpa [allowed_ip_set] using key ips []

/-- C21: the HTTP request handler hands a request to the wallet API exactly when the
request's remote address is in the allowed-IP set; for every other request it sets the status
`NotAuthorized` and hands nothing to the API; the set holds exactly the addresses of the
allowed IPs, so when none was specified every request is rejected. -/
theorem on_request_allowed_only (to_address endpoint_address : List Char → ip_address)
    (allowip : Option (List (List Char))) (http_endpoint : Option (List Char))
    (req : http_request) :
    ((on_request endpoint_address
        (allowed_ip_set to_address (allowed_ips allowip http_endpoint)) req).api_request =
        some req ↔
      endpoint_address req.remote_endpoint ∈
        allowed_ip_set to_address (allowed_ips allowip http_endpoint)) ∧
    (endpoint_address req.remote_endpoint ∉
        allowed_ip_set to_address (allowed_ips allowip http_endpoint) →
      on_request endpoint_address
          (allowed_ip_set to_address (allowed_ips allowip http_endpoint)) req =
        { status := some http_status.NotAuthorized, api_request := none }) ∧
    (endpoint_address req.remote_endpoint ∈
        allowed_ip_set to_address (allowed_ips allowip http_endpoint) ↔
      ∃ ip ∈ allowed_ips allowip http_endpoint,
        to_address ip = endpoint_address req.remote_endpoint) ∧
    (allowip = none ∨ allowip = some [] →
      on_request endpoint_address
          (allowed_ip_set to_address (allowed_ips allowip http_endpoint)) req =
        { status := some http_status.NotAuthorized, api_request := none }) := by
  refine ⟨?_, ?_, mem_allowed_ip_set _ _ _, ?_⟩
  · unfold on_request
    split <;> simp [*]
  · intro h
    simp [on_request, h]
  · intro h
    have hnone : allowed_ips allowip http_endpoint = [] := by
      rcases h with h | h <;> simp [allowed_ips, h]
    simp [on_request, hnone, allowed_ip_set]

/-- Witness of `on_request_allowed_only`: with the endpoint option given and no allowed IP, a
request is answered `NotAuthorized` and not handed to the API. -/
theorem on_request_allowed_only_witness :
    on_request (fun e => e.length)
        (allowed_ip_set (fun e => e.length)
          (allowed_ips none (some ("127.0.0.1:8093" : String).toList)))
        { remote_endpoint := ("10.0.0.7:5000" : String).toList, body := [] } =
      { status := some http_status.NotAuthorized, api_request := none } :=
  (on_request_allowed_only (fun e => e.length) (fun e => e.length) none
    (some ("127.0.0.1:8093" : String).toList)
    { remote_endpoint := ("10.0.0.7:5000" : String).toList, body := [] }).2.2.2 (Or.inl rfl)

/-! ## nom_daemon_mode -/

theorem nom_daemon_mode_loop {W Cmd Res E : Type} (exec_command : W → Cmd → Except E Res × W)
    (commands : List Cmd) :
    ∀ st : daemon_state W Cmd Res E,
      (commands.foldl (nom_daemon_mode_step exec_command) st).executed =
          st.executed ++ commands ∧
        (commands.foldl (nom_daemon_mode_step exec_command) st).commands_output =
          st.commands_output ++
            (command_outcomes exec_command st.wallet commands).filterMap succeeded := by
  induction commands with
  | nil => intro st; simp [command_outcomes]
  | cons command commands ih =>
    intro st
    rw [List.foldl_cons]
    obtain ⟨h1, h2⟩ := ih (nom_daemon_mode_step exec_command st command)
    rw [h1, h2]
    unfold nom_daemon_mode_step
    rcases hres : exec_command st.wallet command with ⟨res, w⟩
    cases res with
    | ok result => simp [command_outcomes, hres, succeeded]
    | error e => simp [command_outcomes, hres, succeeded]

/-- C28: in non-interactive mode `nom_daemon_mode` passes every command of the list to
`exec_command` exactly once, in list order, whether or not earlier commands raised an
exception, and the recorded (command, result) pairs are exactly those of the commands that
succeeded, in list order. -/
theorem nom_daemon_mode_runs_all {W Cmd Res E : Type}
    (exec_command : W → Cmd → Except E Res × W) (commands : List Cmd) (wallet : W) :
    (nom_daemon_mode exec_command commands false wallet).executed = commands ∧
    (command_outcomes exec_command wallet commands).map Prod.fst = commands ∧
    (nom_daemon_mode exec_command commands false wallet).commands_output =
      (command_outcomes exec_command wallet commands).filterMap succeeded := by
  have hmap : ∀ (cs : List Cmd) (w : W),
      (command_outcomes exec_command w cs).map Prod.fst = cs := by
    intro cs
    induction cs with
    | nil => intro w; rfl
    | cons c cs ih => intro w; simp [command_outcomes, ih]
  obtain ⟨h1, h2⟩ := nom_daemon_mode_loop exec_command commands
    { wallet := wallet, executed := [], commands_output := [], caught := [] }
  refine ⟨?_, hmap commands wallet, ?_⟩
  · simpa [nom_daemon_mode] using h1
  · simpa [nom_daemon_mode] using h2

/-! ## signed_block_api_object -/

theorem push_back_loop {Tx TxId : Type} (tx_id : Tx → TxId) (txs : List Tx) :
    ∀ ids : List TxId, txs.foldl (fun ids tx => ids ++ [tx_id tx]) ids = ids ++ txs.map tx_id := by
  induction txs with
  | nil => intro ids; simp
  | cons tx txs ih => intro ids; simp [ih]

/-- C29: the `signed_block_api_object` built from a signed block has as many transaction ids
as the block has transactions, the i-th transaction id is the id of the i-th transaction, the
block id is the id of the block and the signing key is the signee of the block. -/
theorem signed_block_api_object_fields {Hdr Tx BlockId Key TxId : Type}
    (id : signed_block Hdr Tx → BlockId) (signee : signed_block Hdr Tx → Key)
    (tx_id : Tx → TxId) (block : signed_block Hdr Tx) :
    (signed_block_api_object.from_block id signee tx_id block).transaction_ids.length =
      block.transactions.length ∧
    (∀ i : Nat,
      (signed_block_api_object.from_block id signee tx_id block).transaction_ids[i]? =
        (block.transactions[i]?).map tx_id) ∧
    (signed_block_api_object.from_block id signee tx_id block).block_id = id block ∧
    (signed_block_api_object.from_block id signee tx_id block).signing_key = signee block ∧
    (signed_block_api_object.from_block id signee tx_id block).block = block := by
  have h : (signed_block_api_object.from_block id signee tx_id block).transaction_ids =
      block.transactions.map tx_id := by
    simp [signed_block_api_object.from_block, push_back_loop]
  refine ⟨by rw [h, List.length_map], fun i => by rw [h, List.getElem?_map], rfl, rfl, rfl⟩

/-- Three commands of which the second raises an exception: all three are executed, the
first and the third are recorded, the exception of the second is caught. -/
theorem nom_daemon_mode_example :
    (nom_daemon_mode sample_exec [2, 3, 4] false 0).executed = [2, 3, 4] ∧
    (nom_daemon_mode sample_exec [2, 3, 4] false 0).commands_output = [(2, 1), (4, 2)] ∧
    (nom_daemon_mode sample_exec [2, 3, 4] false 0).caught = [3] ∧
    (nom_daemon_mode sample_exec [2, 3, 4] true 0).executed = [] := by
  decide

/-! ## The commands parse_commands appends -/

theorem trim_start_of_dropWhile (x : List Char) : trim x <+: x.dropWhile is_space := by
  have h : (x.dropWhile is_space).reverse.dropWhile is_space <:+ (x.dropWhile is_space).reverse :=
    List.dropWhile_suffix _
  have h2 := List.reverse_prefix.2 h
  rw [List.reverse_reverse] at h2
  exact h2

theorem trim_part_of_text (x : List Char) : trim x <:+: x :=
  (trim_start_of_dropWhile x).isInfix.trans (List.dropWhile_suffix _).isInfix

theorem trim_head_not_space (x : List Char) (c : Char) (h : (trim x).head? = some c) :
    is_space c = false := by
  obtain ⟨u, hu⟩ := trim_start_of_dropWhile x
  have hy := List.head?_dropWhile_not is_space x
  cases ht : trim x with
  | nil => rw [ht] at h; simp at h
  | cons a t =>
    rw [ht] at h hu
    simp only [List.head?_cons, Option.some.injEq] at h
    rw [← hu] at hy
    simp only [List.cons_append, List.head?_cons] at hy
    rw [← h]
    exact hy

theorem trim_last_not_space (x : List Char) (c : Char) (h : (trim x).getLast? = some c) :
    is_space c = false := by
  unfold trim at h
  rw [List.getLast?_reverse] at h
  have hz := List.head?_dropWhile_not is_space (x.dropWhile is_space).reverse
  rw [h] at hz
  exact hz

theorem split_regex_from_no_separator (cur text : List Char) :
    ¬ ['&', '&'] <:+: cur → (cur.head? = some '&' → text.head? ≠ some '&') →
      ∀ piece ∈ split_regex_from cur text, ¬ ['&', '&'] <:+: piece := by
  induction cur, text using split_regex_from.induct with
  | case1 cur =>
    intro h1 _ piece hp
    simp only [split_regex_from, List.mem_singleton] at hp
    rw [hp]
    intro hinf
    exact h1 ( List.reverse_infix.1 (by simpa using hinf))
  | case2 cur rest ih =>
    intro h1 _ piece hp
    simp only [split_regex_from, List.mem_cons] at hp
    rcases hp with hp | hp
    · rw [hp]
      intro hinf
      exact h1 ( List.reverse_infix.1 (by simpa using hinf))
    · exact ih (by simp [List.IsInfix]) (by simp) piece hp
  | case3 cur c rest hne ih =>
    intro h1 h2 piece hp
    rw [split_regex_from.eq_3 cur c rest hne] at hp
    refine ih ?_ ?_ piece hp
    · intro hinf
      rcases List.infix_cons_iff.1 hinf with hpre | hin
      · obtain ⟨u, hu⟩ := hpre
        simp only [List.cons_append, List.cons.injEq, List.nil_append] at hu
        obtain ⟨hc, hcur⟩ := hu
        exact h2 (by rw [← hcur]; rfl) (by rw [← hc]; rfl)
      · exact h1 hin
    · intro hc hrest
      simp only [List.head?_cons, Option.some.injEq] at hc
      cases rest with
      | nil => simp at hrest
      | cons r rest1 =>
        simp only [List.head?_cons, Option.some.injEq] at hrest
        exact hne rest1 hc (by rw [hrest])

/-- C27: for every value of the "commands" option, `parse_commands` leaves the commands it
was given in front and every command it appends is non-empty, starts and ends with a
character that is not white space, and does not contain "&&". -/
theorem parse_commands_appended (text : List Char) (commands : List (List Char))
    (interactive : Bool) :
    (parse_commands (some text) commands interactive).1 =
      commands ++ (parse_commands (some text) [] interactive).1 ∧
    ∀ cmd ∈ (parse_commands (some text) [] interactive).1,
      cmd ≠ [] ∧ (∀ c, cmd.head? = some c → is_space c = false) ∧
        (∀ c, cmd.getLast? = some c → is_space c = false) ∧ ¬ ['&', '&'] <:+: cmd := by
  constructor
  · simp only [parse_commands, parse_commands_loop, List.nil_append]
  · intro cmd hcmd
    have e : (parse_commands (some text) [] interactive).1 =
        ((split_regex text).map trim).filter (fun x => x != []) := by
      simp only [parse_commands, parse_commands_loop, List.nil_append]
    rw [e] at hcmd
    simp only [List.mem_filter, List.mem_map, bne_iff_ne, ne_eq] at hcmd
    obtain ⟨⟨piece, hpiece, rfl⟩, hne⟩ := hcmd
    refine ⟨hne, trim_head_not_space piece, trim_last_not_space piece, ?_⟩
    intro hinf
    exact split_regex_from_no_separator [] text (by simp [List.IsInfix]) (by simp) piece hpiece
      (hinf.trans (trim_part_of_text piece))

/-- Witness of `parse_commands_appended`: the second command of the documented option
value. -/
theorem parse_commands_appended_witness :
    ("some_command arg1 arg2" : String).toList ∈
      (parse_commands (some documented_commands) [] true).1 ∧
    ("some_command arg1 arg2" : String).toList ≠ [] ∧
    ¬ ['&', '&'] <:+: ("some_command arg1 arg2" : String).toList :=
  ⟨by decide,
    ((parse_commands_appended documented_commands [] true).2 _ (by decide)).1,
    ((parse_commands_appended documented_commands [] true).2 _ (by decide)).2.2.2⟩

/-! ## The double members in full -/

theorem double.lt_eq_extended (a b : double) (ha : a ≠ double.nan) (hb : b ≠ double.nan) :
    double.lt a b = decide (a.extended < b.extended) := by
  cases a <;> cases b <;> simp [double.lt, double.extended] at ha hb ⊢
  exact WithBot.coe_lt_coe.2 (WithTop.coe_lt_top _)

theorem double.extended_inj (a b : double) (ha : a ≠ double.nan) (hb : b ≠ double.nan)
    (h : a.extended = b.extended) : a = b := by
  cases a <;> cases b <;> simp [double.extended] at ha hb h ⊢
  exact h

theorem tag_key_lt_extended_strict_weak (k : tag_key) : strict_weak k.lt_extended := by
  cases k
  · exact strict_weak_of_linear (fun x : tag_object_ieee => x.id)
  · exact strict_weak_of_linear (fun x : tag_object_ieee => x.name)
  · exact strict_weak_of_linear (fun x : tag_object_ieee => x.created)
  · exact strict_weak_of_linear (fun x : tag_object_ieee => x.active)
  · exact strict_weak_of_linear (fun x : tag_object_ieee => x.cashout)
  · exact strict_weak_of_linear (fun x : tag_object_ieee => x.net_rshares)
  · exact strict_weak_of_linear (fun x : tag_object_ieee => x.net_votes)
  · exact strict_weak_of_linear (fun x : tag_object_ieee => x.children)
  · exact strict_weak_of_linear (fun x : tag_object_ieee => x.hot.extended)
  · exact strict_weak_of_linear (fun x : tag_object_ieee => x.trending.extended)
  · exact strict_weak_of_linear (fun x : tag_object_ieee => x.promoted_balance)
  · exact strict_weak_of_linear (fun x : tag_object_ieee => x.children_rshares2)
  · exact strict_weak_of_linear (fun x : tag_object_ieee => x.author)
  · exact strict_weak_of_linear (fun x : tag_object_ieee => x.parent)
  · exact strict_weak_of_linear (fun x : tag_object_ieee => x.comment)
  · exact strict_weak_of_linear (fun x : tag_object_ieee => x.is_post)

theorem tag_index_lt_extended_strict_weak (t : tag_index_tag) :
    strict_weak (tag_index_lt_extended t) := by
  apply composite_lt_strict_weak
  intro c hc
  rcases List.mem_map.1 hc with ⟨p, _, rfl⟩
  exact strict_weak_apply (tag_key_lt_extended_strict_weak p.1) p.2

/-- On entries without a not-a-number in a `double` key of the index, the ordering of the
index is the one that compares `hot` and `trending` among the extended rationals. -/
theorem tag_index_lt_ieee_eq_extended (t : tag_index_tag) (x y : tag_object_ieee)
    (hx : x.nan_free_in t) (hy : y.nan_free_in t) :
    tag_index_lt_ieee t x y = tag_index_lt_extended t x y := by
  cases t
  case by_parent_hot =>
    have h1 := double.lt_eq_extended x.hot y.hot hx hy
    have h2 := double.lt_eq_extended y.hot x.hot hy hx
    simp only [tag_index_lt_ieee, tag_index_lt_extended, tag_index_keys, List.map,
      key_order.apply, tag_key.lt_ieee, tag_key.lt_extended, composite_lt, h1, h2]
  case by_parent_trending =>
    have h1 := double.lt_eq_extended x.trending y.trending hx hy
    have h2 := double.lt_eq_extended y.trending x.trending hy hx
    simp only [tag_index_lt_ieee, tag_index_lt_extended, tag_index_keys, List.map,
      key_order.apply, tag_key.lt_ieee, tag_key.lt_extended, composite_lt, h1, h2]
  all_goals rfl

/-- Of two entries with different ids one is before the other in every index, whatever their
`double` members hold: the id is compared when every other key is incomparable. -/
theorem tag_index_lt_ieee_total (t : tag_index_tag) (x y : tag_object_ieee) (h : x.id ≠ y.id) :
    tag_index_lt_ieee t x y = true ∨ tag_index_lt_ieee t y x = true := by
  by_contra hcon
  simp only [not_or, Bool.not_eq_true] at hcon
  have := composite_lt_incomparable _ x y hcon.1 hcon.2
    ((key_order.less).apply tag_key.id.lt_ieee)
    (List.mem_map.2 ⟨_, tag_index_keys_id_mem t, rfl⟩)
  simp only [key_order.apply, tag_key.lt_ieee, decide_eq_false_iff_not, not_lt] at this
  exact h (le_antisymm this.2 this.1)

/-- On finite `hot` and `trending` the ordering of an index on entries with `double` members
is the ordering `tag_index_lt`. -/
theorem tag_index_lt_ieee_to_ieee (t : tag_index_tag) (x y : tag_object) :
    tag_index_lt_ieee t x.to_ieee y.to_ieee = tag_index_lt t x y := by
  cases t <;> rfl

theorem ordered_insert_congr {R : Type} (lt lt1 : R → R → Bool) (x : R) (l : List R)
    (h : ∀ y ∈ l, lt x y = lt1 x y) : ordered_insert lt x l = ordered_insert lt1 x l := by
  induction l with
  | nil => rfl
  | cons y l ih =>
    simp only [ordered_insert, h y (List.mem_cons_self _ _),
      ih (fun z hz => h z (List.mem_cons_of_mem _ hz))]

/-- Ordered insertion keeps a listing sorted as soon as the comparison is a strict weak
ordering on the records at hand: it agrees on them with a strict weak ordering `lt1`. -/
theorem pairwise_ordered_insert_of_agree {R : Type} {lt lt1 : R → R → Bool}
    (h1 : strict_weak lt1) (P : R → Prop) (hagree : ∀ a b, P a → P b → lt a b = lt1 a b)
    (x : R) (l : List R) (hPx : P x) (hPl : ∀ y ∈ l, P y)
    (hl : l.Pairwise (fun a b => lt a b = true))
    (hx : ∀ y ∈ l, lt x y = true ∨ lt y x = true) :
    (ordered_insert lt x l).Pairwise (fun a b => lt a b = true) := by
  rw [ordered_insert_congr lt lt1 x l (fun y hy => hagree x y hPx (hPl y hy))]
  have hl1 : l.Pairwise (fun a b => lt1 a b = true) :=
    hl.imp_of_mem (fun ha hb h => by rw [← hagree _ _ (hPl _ ha) (hPl _ hb)]; exact h)
  have hx1 : ∀ y ∈ l, lt1 x y = true ∨ lt1 y x = true := by
    intro y hy
    rw [← hagree _ _ hPx (hPl y hy), ← hagree _ _ (hPl y hy) hPx]
    exact hx y hy
  have hP : ∀ z ∈ ordered_insert lt1 x l, P z := by
    intro z hz
    rcases (mem_ordered_insert lt1 x z l).1 hz with rfl | hz
    · exact hPx
    · exact hPl z hz
  exact (pairwise_ordered_insert h1 x l hl1 hx1).imp_of_mem
    (fun ha hb h => by rw [hagree _ _ (hP _ ha) (hP _ hb)]; exact h)

/-! ## The indexes of tag_index with double members -/

theorem in_index_order_ieee_insert (t : tag_index_tag) (x : tag_object_ieee)
    (l : List tag_object_ieee) (hx : x.nan_free_in t) (hl : ∀ y ∈ l, y.nan_free_in t)
    (hs : in_index_order_ieee t l) (hid : ∀ y ∈ l, y.id ≠ x.id) :
    in_index_order_ieee t (ordered_insert (tag_index_lt_ieee t) x l) :=
  pairwise_ordered_insert_of_agree (tag_index_lt_extended_strict_weak t)
    (fun z => z.nan_free_in t) (fun a b ha hb => tag_index_lt_ieee_eq_extended t a b ha hb)
    x l hx hl hs (fun y hy => tag_index_lt_ieee_total t x y (fun e => hid y hy e.symm))

theorem record_store.ieee_link (t : tag_index_tag) (s : record_store tag_object_ieee tag_index_tag)
    (x : tag_object_ieee)
    (h : (s.secondary t).Perm s.by_id ∧ in_index_order_ieee t (s.secondary t))
    (hs : ∀ y ∈ s.by_id, y.nan_free_in t) (hx : x.nan_free_in t)
    (hid : ∀ y ∈ s.by_id, y.id ≠ x.id) :
    (ordered_insert (tag_index_lt_ieee t) x (s.secondary t)).Perm
        (ordered_insert (fun a b => decide (a.id < b.id)) x s.by_id) ∧
      in_index_order_ieee t (ordered_insert (tag_index_lt_ieee t) x (s.secondary t)) := by
  refine ⟨?_, ?_⟩
  · exact (perm_ordered_insert _ x _).trans
      ((h.1.cons x).trans (perm_ordered_insert _ x _).symm)
  · exact in_index_order_ieee_insert t x _ hx (fun y hy => hs y (h.1.mem_iff.1 hy)) h.2
      (fun y hy => hid y (h.1.mem_iff.1 hy))

theorem record_store.ieee_unlink (t : tag_index_tag)
    (s : record_store tag_object_ieee tag_index_tag) (id : object_id)
    (h : (s.secondary t).Perm s.by_id ∧ in_index_order_ieee t (s.secondary t)) :
    ((s.unlink tag_index_ieee_declaration id).secondary t).Perm
        (s.unlink tag_index_ieee_declaration id).by_id ∧
      in_index_order_ieee t ((s.unlink tag_index_ieee_declaration id).secondary t) :=
  ⟨h.1.filter _, List.Pairwise.filter _ h.2⟩

theorem record_store.ieee_apply (t : tag_index_tag)
    (s : record_store tag_object_ieee tag_index_tag) (op : store_op tag_object_ieee)
    (h : (s.secondary t).Perm s.by_id ∧ in_index_order_ieee t (s.secondary t))
    (hs : ∀ y ∈ s.by_id, y.nan_free_in t)
    (hs1 : ∀ y ∈ (s.apply tag_index_ieee_declaration op).by_id, y.nan_free_in t) :
    ((s.apply tag_index_ieee_declaration op).secondary t).Perm
        (s.apply tag_index_ieee_declaration op).by_id ∧
      in_index_order_ieee t ((s.apply tag_index_ieee_declaration op).secondary t) := by
  cases op with
  | insert r =>
    simp only [record_store.apply, record_store.after_insert, record_store.insert] at hs1 ⊢
    by_cases hv : s.violates tag_index_ieee_declaration
        (tag_index_ieee_declaration.with_id s.next_id r) = true
    · simp only [hv, if_true]
      exact h
    · simp only [hv, if_false] at hs1 ⊢
      simp only [record_store.violates, Bool.or_eq_true, not_or, Bool.not_eq_true] at hv
      apply record_store.ieee_link t s _ h hs
      · exact hs1 _ ((mem_ordered_insert _ _ _ _).2 (Or.inl rfl))
      · intro y hy e
        have := key_conflict_eq_false _ _ _ hv.1 y hy
        simp only [tag_index_ieee_declaration, decide_eq_true_eq] at this e
        rw [e] at this
        simp at this
  | update id m =>
    simp only [record_store.apply, record_store.update] at hs1 ⊢
    cases hf : s.find tag_index_ieee_declaration id with
    | none =>
      simp only [hf]
      exact h
    | some x =>
      simp only [hf] at hs1 ⊢
      have hxid : x.id = id := by
        have := List.find?_some hf
        simpa [tag_index_ieee_declaration] using this
      have hu := record_store.ieee_unlink t s id h
      apply record_store.ieee_link t (s.unlink tag_index_ieee_declaration id) _ hu
      · intro y hy
        simp only [record_store.unlink, List.mem_filter] at hy
        exact hs y hy.1
      · exact hs1 _ ((mem_ordered_insert _ _ _ _).2 (Or.inl rfl))
      · intro y hy
        simp only [record_store.unlink, List.mem_filter, bne_iff_ne, ne_eq,
          tag_index_ieee_declaration] at hy
        simp only [tag_index_ieee_declaration, hxid]
        exact hy.2
  | remove id =>
    simp only [record_store.apply, record_store.remove] at hs1 ⊢
    cases hf : s.find tag_index_ieee_declaration id with
    | none =>
      simp only [hf]
      exact h
    | some x =>
      simp only [hf]
      exact record_store.ieee_unlink t s id h

theorem record_store.ieee_run (t : tag_index_tag) (ops : List (store_op tag_object_ieee))
    (s : record_store tag_object_ieee tag_index_tag)
    (h : (s.secondary t).Perm s.by_id ∧ in_index_order_ieee t (s.secondary t))
    (hc : ∀ n, ∀ y ∈ (s.run tag_index_ieee_declaration (ops.take n)).by_id, y.nan_free_in t) :
    ((s.run tag_index_ieee_declaration ops).secondary t).Perm
        (s.run tag_index_ieee_declaration ops).by_id ∧
      in_index_order_ieee t ((s.run tag_index_ieee_declaration ops).secondary t) := by
  induction ops generalizing s with
  | nil => exact h
  | cons op ops ih =>
    exact ih (s.apply tag_index_ieee_declaration op)
      (record_store.ieee_apply t s op h (hc 0) (hc 1)) (fun n => hc (n + 1))

/-- C1 fails as stated: three entries are inserted under one tag name and parent with `hot`
1, not-a-number and 2 (ids 0, 1, 2), then the first is removed. After the third insertion
`by_parent_hot` lists the ids 2, 0, 1, where the entry 2 is not before the entry 1; after
the removal it lists the live entries 2 and 1 in this order, while its own comparison
places the entry 1 before the entry 2. -/
theorem tag_index_nan_counterexample :
    ((record_store.empty.run tag_index_ieee_declaration (nan_ops.take 3)).secondary
        tag_index_tag.by_parent_hot).map (fun x => (x.id, x.hot)) =
      [(2, double.finite 2), (0, double.finite 1), (1, double.nan)] ∧
    ¬ in_index_order_ieee tag_index_tag.by_parent_hot
      ((record_store.empty.run tag_index_ieee_declaration (nan_ops.take 3)).secondary tag_index_tag.by_parent_hot) ∧
    ((record_store.empty.run tag_index_ieee_declaration nan_ops).secondary
        tag_index_tag.by_parent_hot).map (fun x => (x.id, x.hot)) =
      [(2, double.finite 2), (1, double.nan)] ∧
    ((record_store.empty.run tag_index_ieee_declaration nan_ops).by_id).map (fun x => x.id) = [1, 2] ∧
    tag_index_lt_ieee tag_index_tag.by_parent_hot (hot_entry 2 (double.finite 2))
      (hot_entry 1 double.nan) = false ∧
    tag_index_lt_ieee tag_index_tag.by_parent_hot (hot_entry 1 double.nan)
      (hot_entry 2 (double.finite 2)) = true ∧
    ¬ in_index_order_ieee tag_index_tag.by_parent_hot
      ((record_store.empty.run tag_index_ieee_declaration nan_ops).secondary tag_index_tag.by_parent_hot) := by
  decide

/-- C1, amended: after every finite sequence of insert, update and remove operations on an
initially empty `tag_index`, each secondary index lists exactly the live entries (those of
the primary index) and lists them strictly ascending in its own composite-key order,
provided that after no operation of the sequence a live entry holds a not-a-number in a
`double` key of that index (`hot` for `by_parent_hot`, `trending` for
`by_parent_trending`; the other thirteen indexes have no such key). -/
theorem tag_index_sorted_without_nan (ops : List (store_op tag_object_ieee))
    (t : tag_index_tag)
    (h : ∀ n, ∀ x ∈ (record_store.empty.run tag_index_ieee_declaration (ops.take n)).by_id,
      x.nan_free_in t) :
    ((record_store.empty.run tag_index_ieee_declaration ops).secondary t).Perm
        (record_store.empty.run tag_index_ieee_declaration ops).by_id ∧
      in_index_order_ieee t ((record_store.empty.run tag_index_ieee_declaration ops).secondary t) :=
  record_store.ieee_run t ops record_store.empty ⟨List.Perm.refl _, List.Pairwise.nil⟩ h

theorem nan_free_ops_states (n : Nat) :
    ∀ x ∈ (record_store.empty.run tag_index_ieee_declaration (nan_free_ops.take n)).by_id,
      x.nan_free_in tag_index_tag.by_parent_hot := by
  rcases n with _ | _ | _ | _ | _ | n
  · decide
  · decide
  · decide
  · decide
  · decide
  · have e : nan_free_ops.take (n + 1 + 1 + 1 + 1 + 1) = nan_free_ops := by
      simp [nan_free_ops]
    rw [e]
    decide

/-- The sequence `nan_free_ops` (insertions with `hot` 1, negative infinity and 2, an update
to `hot` 3, a removal) stores no not-a-number, and `by_parent_hot` lists the live entries in
its order after it. -/
theorem tag_index_sorted_without_nan_witness :
    (∀ n, ∀ x ∈ (record_store.empty.run tag_index_ieee_declaration (nan_free_ops.take n)).by_id,
      x.nan_free_in tag_index_tag.by_parent_hot) ∧
    (((record_store.empty.run tag_index_ieee_declaration nan_free_ops).secondary
        tag_index_tag.by_parent_hot).Perm
        (record_store.empty.run tag_index_ieee_declaration nan_free_ops).by_id ∧
      in_index_order_ieee tag_index_tag.by_parent_hot
        ((record_store.empty.run tag_index_ieee_declaration nan_free_ops).secondary
          tag_index_tag.by_parent_hot)) :=
  ⟨nan_free_ops_states,
    tag_index_sorted_without_nan nan_free_ops tag_index_tag.by_parent_hot nan_free_ops_states⟩

/-! ## The by_parent orderings with double members -/

theorem by_parent_shape_ieee {α : Type} [LinearOrder α] (f : tag_object_ieee → α)
    (c : tag_object_ieee → tag_object_ieee → Bool) (a b : tag_object_ieee)
    (hab : c a b = decide (f a < f b)) (hba : c b a = decide (f b < f a)) :
    composite_lt [key_order.less.apply tag_key.name.lt_ieee,
      key_order.less.apply tag_key.parent.lt_ieee,
      key_order.greater.apply c, key_order.less.apply tag_key.id.lt_ieee] a b = true ↔
      (a.name < b.name ∨ (a.name = b.name ∧ a.parent < b.parent)) ∨
      (a.name = b.name ∧ a.parent = b.parent ∧ f a > f b) ∨
      (a.name = b.name ∧ a.parent = b.parent ∧ f a = f b ∧ a.id < b.id) := by
  simp only [composite_lt_cons, key_order.apply, tag_key.lt_ieee, hab, hba, decide_eq_true_eq,
    decide_eq_false_iff_not, incomparable_iff_eq, gt_iff_lt]
  simp only [composite_lt, Bool.false_eq_true, and_false, or_false]
  constructor
  · rintro (h | ⟨h1, h | ⟨h2, h | ⟨h3, h⟩⟩⟩)
    · exact Or.inl (Or.inl h)
    · exact Or.inl (Or.inr ⟨h1, h⟩)
    · exact Or.inr (Or.inl ⟨h1, h2, h⟩)
    · exact Or.inr (Or.inr ⟨h1, h2, h3.symm, h⟩)
  · rintro ((h | ⟨h1, h⟩) | ⟨h1, h2, h⟩ | ⟨h1, h2, h3, h⟩)
    · exact Or.inl h
    · exact Or.inr ⟨h1, Or.inl h⟩
    · exact Or.inr ⟨h1, Or.inr ⟨h2, Or.inl h⟩⟩
    · exact Or.inr ⟨h1, Or.inr ⟨h2, Or.inr ⟨h3.symm, h⟩⟩⟩

theorem by_parent_double_shape (f : tag_object_ieee → double)
    (c : tag_object_ieee → tag_object_ieee → Bool) (hc : ∀ x y, c x y = double.lt (f x) (f y))
    (a b : tag_object_ieee) (ha : f a ≠ double.nan) (hb : f b ≠ double.nan) :
    composite_lt [key_order.less.apply tag_key.name.lt_ieee,
      key_order.less.apply tag_key.parent.lt_ieee,
      key_order.greater.apply c, key_order.less.apply tag_key.id.lt_ieee] a b = true ↔
      (a.name < b.name ∨ (a.name = b.name ∧ a.parent < b.parent)) ∨
      (a.name = b.name ∧ a.parent = b.parent ∧ double.lt (f b) (f a) = true) ∨
      (a.name = b.name ∧ a.parent = b.parent ∧ f a = f b ∧ a.id < b.id) := by
  have hba := double.lt_eq_extended (f b) (f a) hb ha
  have hab := double.lt_eq_extended (f a) (f b) ha hb
  have e1 : (f a).extended > (f b).extended ↔ double.lt (f b) (f a) = true := by
    rw [hba, decide_eq_true_eq]
  have e2 : (f a).extended = (f b).extended ↔ f a = f b :=
    ⟨double.extended_inj _ _ ha hb, fun e => by rw [e]⟩
  rw [by_parent_shape_ieee (fun x => (f x).extended) c a b ((hc a b).trans hab)
    ((hc b a).trans hba), e1, e2]

/-- C5 fails as stated for `hot`: of two entries with the same name and parent, the first
with `hot` not-a-number and id 0, the second with `hot` 1 and id 1, `by_parent_hot` places
the first before the second (the comparison of `hot` is false both ways and the id
decides), while the first has neither the greater `hot` nor an equal one. -/
theorem by_parent_hot_nan_counterexample :
    tag_index_lt_ieee tag_index_tag.by_parent_hot (hot_entry 0 double.nan)
      (hot_entry 1 (double.finite 1)) = true ∧
    ¬ (((hot_entry 0 double.nan).name < (hot_entry 1 (double.finite 1)).name ∨
        ((hot_entry 0 double.nan).name = (hot_entry 1 (double.finite 1)).name ∧
          (hot_entry 0 double.nan).parent < (hot_entry 1 (double.finite 1)).parent)) ∨
      ((hot_entry 0 double.nan).name = (hot_entry 1 (double.finite 1)).name ∧
        (hot_entry 0 double.nan).parent = (hot_entry 1 (double.finite 1)).parent ∧
        double.lt (hot_entry 1 (double.finite 1)).hot (hot_entry 0 double.nan).hot = true) ∨
      ((hot_entry 0 double.nan).name = (hot_entry 1 (double.finite 1)).name ∧
        (hot_entry 0 double.nan).parent = (hot_entry 1 (double.finite 1)).parent ∧
        (hot_entry 0 double.nan).hot = (hot_entry 1 (double.finite 1)).hot ∧
        (hot_entry 0 double.nan).id < (hot_entry 1 (double.finite 1)).id)) := by
  decide

/-- C5, amended: for each of the nine ranking fields X, `by_parent_X` places `a` before `b`
exactly when (name, parent) of `a` is lexicographically smaller, or these are equal and `a`
has the greater X, or these and X are equal and `a` has the smaller id; for X `hot` and X
`trending`, members of the type `double`, provided that X is not-a-number in neither
entry. -/
theorem by_parent_orderings_without_nan (a b : tag_object_ieee) :
    (tag_index_lt_ieee tag_index_tag.by_parent_created a b = true ↔
      (a.name < b.name ∨ (a.name = b.name ∧ a.parent < b.parent)) ∨
      (a.name = b.name ∧ a.parent = b.parent ∧ a.created > b.created) ∨
      (a.name = b.name ∧ a.parent = b.parent ∧ a.created = b.created ∧ a.id < b.id)) ∧
    (tag_index_lt_ieee tag_index_tag.by_parent_active a b = true ↔
      (a.name < b.name ∨ (a.name = b.name ∧ a.parent < b.parent)) ∨
      (a.name = b.name ∧ a.parent = b.parent ∧ a.active > b.active) ∨
      (a.name = b.name ∧ a.parent = b.parent ∧ a.active = b.active ∧ a.id < b.id)) ∧
    (tag_index_lt_ieee tag_index_tag.by_parent_promoted a b = true ↔
      (a.name < b.name ∨ (a.name = b.name ∧ a.parent < b.parent)) ∨
      (a.name = b.name ∧ a.parent = b.parent ∧ a.promoted_balance > b.promoted_balance) ∨
      (a.name = b.name ∧ a.parent = b.parent ∧ a.promoted_balance = b.promoted_balance ∧ a.id < b.id)) ∧
    (tag_index_lt_ieee tag_index_tag.by_parent_net_rshares a b = true ↔
      (a.name < b.name ∨ (a.name = b.name ∧ a.parent < b.parent)) ∨
      (a.name = b.name ∧ a.parent = b.parent ∧ a.net_rshares > b.net_rshares) ∨
      (a.name = b.name ∧ a.parent = b.parent ∧ a.net_rshares = b.net_rshares ∧ a.id < b.id)) ∧
    (tag_index_lt_ieee tag_index_tag.by_parent_net_votes a b = true ↔
      (a.name < b.name ∨ (a.name = b.name ∧ a.parent < b.parent)) ∨
      (a.name = b.name ∧ a.parent = b.parent ∧ a.net_votes > b.net_votes) ∨
      (a.name = b.name ∧ a.parent = b.parent ∧ a.net_votes = b.net_votes ∧ a.id < b.id)) ∧
    (tag_index_lt_ieee tag_index_tag.by_parent_children a b = true ↔
      (a.name < b.name ∨ (a.name = b.name ∧ a.parent < b.parent)) ∨
      (a.name = b.name ∧ a.parent = b.parent ∧ a.children > b.children) ∨
      (a.name = b.name ∧ a.parent = b.parent ∧ a.children = b.children ∧ a.id < b.id)) ∧
    (a.hot ≠ double.nan → b.hot ≠ double.nan →
      (tag_index_lt_ieee tag_index_tag.by_parent_hot a b = true ↔
        (a.name < b.name ∨ (a.name = b.name ∧ a.parent < b.parent)) ∨
        (a.name = b.name ∧ a.parent = b.parent ∧ double.lt b.hot a.hot = true) ∨
        (a.name = b.name ∧ a.parent = b.parent ∧ a.hot = b.hot ∧ a.id < b.id))) ∧
    (a.trending ≠ double.nan → b.trending ≠ double.nan →
      (tag_index_lt_ieee tag_index_tag.by_parent_trending a b = true ↔
        (a.name < b.name ∨ (a.name = b.name ∧ a.parent < b.parent)) ∨
        (a.name = b.name ∧ a.parent = b.parent ∧ double.lt b.trending a.trending = true) ∨
        (a.name = b.name ∧ a.parent = b.parent ∧ a.trending = b.trending ∧ a.id < b.id))) ∧
    (tag_index_lt_ieee tag_index_tag.by_parent_children_rshares2 a b = true ↔
      (a.name < b.name ∨ (a.name = b.name ∧ a.parent < b.parent)) ∨
      (a.name = b.name ∧ a.parent = b.parent ∧ a.children_rshares2 > b.children_rshares2) ∨
      (a.name = b.name ∧ a.parent = b.parent ∧ a.children_rshares2 = b.children_rshares2 ∧ a.id < b.id)) := by
  refine ⟨?_, ?_, ?_, ?_, ?_, ?_, ?_, ?_, ?_⟩
  · exact by_parent_shape_ieee (fun x => x.created) tag_key.created.lt_ieee a b rfl rfl
  · exact by_parent_shape_ieee (fun x => x.active) tag_key.active.lt_ieee a b rfl rfl
  · exact by_parent_shape_ieee (fun x => x.promoted_balance) tag_key.promoted_balance.lt_ieee a b rfl rfl
  · exact by_parent_shape_ieee (fun x => x.net_rshares) tag_key.net_rshares.lt_ieee a b rfl rfl
  · exact by_parent_shape_ieee (fun x => x.net_votes) tag_key.net_votes.lt_ieee a b rfl rfl
  · exact by_parent_shape_ieee (fun x => x.children) tag_key.children.lt_ieee a b rfl rfl
  · exact by_parent_double_shape (fun x => x.hot) tag_key.hot.lt_ieee (fun _ _ => rfl) a b
  · exact by_parent_double_shape (fun x => x.trending) tag_key.trending.lt_ieee (fun _ _ => rfl) a b
  · exact by_parent_shape_ieee (fun x => x.children_rshares2) tag_key.children_rshares2.lt_ieee a b rfl rfl

/-- Of two entries with the same name and parent, `hot` 2 and 1, `by_parent_hot` places the
one with `hot` 2 before the other, although its id is the greater. -/
theorem by_parent_orderings_without_nan_witness :
    (hot_entry 1 (double.finite 2)).hot ≠ double.nan ∧
    (hot_entry 0 (double.finite 1)).hot ≠ double.nan ∧
    tag_index_lt_ieee tag_index_tag.by_parent_hot (hot_entry 1 (double.finite 2))
      (hot_entry 0 (double.finite 1)) = true :=
  ⟨by decide, by decide,
    ((by_parent_orderings_without_nan (hot_entry 1 (double.finite 2))
      (hot_entry 0 (double.finite 1))).2.2.2.2.2.2.1 (by decide) (by decide)).2
      (Or.inr (Or.inl ⟨rfl, rfl, by decide⟩))⟩

end golos.tags
